import Mathlib

/-! Redis modules API (`redismodule.h`) and the `helloworld` sample module.

A shallow embedding of the two source files:

* `src/redismodule.h`: the constants, the load handshake `RedisModule_Init`
  and the capability table it fills;
* `src/modules/helloworld.c`: the command handlers the properties below
  are about.

The host engine (the functions behind the `RedisModule_*` entry points) is not
part of the sources.  Pure host functions whose behaviour the module cannot
observe beyond their result (parsers, `rand`, nested command execution) are
fields of `Host`; the key, reply and replication primitives are small
executable definitions, each marked as modelled.

Conventions: a `RedisModuleString` is its byte sequence; C integers are `Int`
with explicit wrap-around where a narrowing conversion occurs; a C `double` is
an IEEE-754 binary64 value and its addition rounds to nearest, ties to even; a
call through a null function pointer or a read past `argv[argc-1]` has no
result (`none`).
-/

namespace RedisExt

/-! ## Constants of `redismodule.h` -/

def REDISMODULE_OK : Int := 0
def REDISMODULE_ERR : Int := 1

def REDISMODULE_APIVER_1 : Int := 1

def REDISMODULE_READ : Nat := 1 <<< 0
def REDISMODULE_WRITE : Nat := 1 <<< 1

def REDISMODULE_LIST_HEAD : Int := 0
def REDISMODULE_LIST_TAIL : Int := 1

def REDISMODULE_KEYTYPE_EMPTY : Int := 0
def REDISMODULE_KEYTYPE_STRING : Int := 1
def REDISMODULE_KEYTYPE_LIST : Int := 2
def REDISMODULE_KEYTYPE_HASH : Int := 3
def REDISMODULE_KEYTYPE_SET : Int := 4
def REDISMODULE_KEYTYPE_ZSET : Int := 5

def REDISMODULE_NO_EXPIRE : Int := -1

def REDISMODULE_ERRORMSG_WRONGTYPE : String :=
  "WRONGTYPE Operation against a key holding the wrong kind of value"

def REDISMODULE_ZSET_RANGE_LEX : Nat := 1
def REDISMODULE_ZSET_RANGE_SCORE : Nat := 2
def REDISMODULE_ZSET_RANGE_POS : Nat := 3

def REDISMODULE_ZSET_RANGE_START_EX : Nat := 1 <<< 0
def REDISMODULE_ZSET_RANGE_END_EX : Nat := 1 <<< 1

/-! ## The load handshake: `RedisModule_Init` -/

/-- The host as seen by `RedisModule_Init`.  `getApi name` is the bootstrap
accessor found in the first word of the context: it answers a status and, when
it stores something through its target pointer, the stored entry point
(`0` is the null pointer).  `setModuleAttribs name ver apiver` is the status
the host's `SetModuleAttribs` entry point answers. -/
structure LoadHost where
  getApi : String → Int × Option Nat
  setModuleAttribs : String → Int → Int → Int

/-- The module's capability table: the global function pointers
`RedisModule_<name>`, indexed by `<name>`; `0` is the null pointer. -/
abbrev ApiTable := String → Nat

/-- The table before `RedisModule_Init` ran: zero-initialised globals. -/
def ApiTable.unbound : ApiTable := fun _ => 0

/-- Macro `REDISMODULE_GET_API(name)`: calls
`RedisModule_GetApi("RedisModule_" #name, &RedisModule_name)`.  The macro's
value (the status) is dropped at every use in `RedisModule_Init`, so only the
effect on the slot remains. -/
def REDISMODULE_GET_API (h : LoadHost) (t : ApiTable) (name : String) : ApiTable :=
  match (h.getApi ("RedisModule_" ++ name)).2 with
  | some p => fun n => if n = name then p else t n
  | none => t

/-- The capability names `RedisModule_Init` requests, in source order. -/
def requestedApis : List String :=
  ["CreateCommand", "SetModuleAttribs", "WrongArity", "ReplyWithLongLong",
   "ReplyWithError", "ReplyWithSimpleString", "ReplyWithArray",
   "ReplyWithStringBuffer", "ReplyWithString", "ReplyWithNull",
   "ReplyWithCallReply", "ReplyWithDouble", "GetSelectedDb", "SelectDb",
   "OpenKey", "CloseKey", "KeyType", "ValueLength", "ListPush", "ListPop",
   "StringToLongLong", "StringToDouble", "Call", "CallReplyProto",
   "FreeCallReply", "CallReplyInteger", "CallReplyType", "CallReplyLength",
   "CallReplyArrayElement", "CallReplyStringPtr", "CreateStringFromCallReply",
   "CreateString", "CreateStringFromLongLong", "FreeString", "StringPtrLen",
   "AutoMemory", "Replicate", "ReplicateVerbatim", "DeleteKey", "StringSet",
   "StringDMA", "StringTruncate", "GetExpire", "SetExpire", "ZsetAdd",
   "ZsetIncrby", "ZsetScore", "ZsetRem", "ZsetRangeStop", "ZsetFirstInRange",
   "ZsetRangeCurrentElement", "ZsetRangeNext", "ZsetRangeEndReached"]

/-- The table after the run of `REDISMODULE_GET_API` lines. -/
def bindApis (h : LoadHost) (t : ApiTable) : ApiTable :=
  requestedApis.foldl (REDISMODULE_GET_API h) t

/-- Function `RedisModule_Init` of `redismodule.h`.  After the lookups it calls
`RedisModule_SetModuleAttribs(ctx,name,ver,apiver)` through the table (no
result when that slot is still null), drops the answer and returns
`REDISMODULE_OK`.  The result pairs the returned status with the table. -/
def RedisModule_Init (h : LoadHost) (t : ApiTable) (name : String) (ver apiver : Int) :
    Option (Int × ApiTable) :=
  let t1 := bindApis h t
  if t1 "SetModuleAttribs" = 0 then none
  else
    let _attribs := h.setModuleAttribs name ver apiver
    some (REDISMODULE_OK, t1)

/-- A capability is resolved when the accessor answers `REDISMODULE_OK` and
stores a non-null entry point. -/
def LoadHost.resolves (h : LoadHost) (name : String) : Prop :=
  ∃ p, p ≠ 0 ∧ h.getApi ("RedisModule_" ++ name) = (REDISMODULE_OK, some p)

/-- A host that resolves every name except `RedisModule_ZsetRem` and whose
`SetModuleAttribs` rejects every protocol version. -/
def partialLoadHost : LoadHost where
  getApi := fun n =>
    if n = "RedisModule_ZsetRem" then (REDISMODULE_ERR, none) else (REDISMODULE_OK, some 1)
  setModuleAttribs := fun _ _ _ => REDISMODULE_ERR

/-- A host that resolves every name and accepts the module. -/
def fullLoadHost : LoadHost where
  getApi := fun _ => (REDISMODULE_OK, some 1)
  setModuleAttribs := fun _ _ _ => REDISMODULE_OK

/-! ## Values, replies and the invocation context -/

/-- A `RedisModuleString` is modelled by its bytes. -/
abbrev RedisModuleString := List Nat

/-- C `double` values (IEEE-754 binary64): the two infinities, not-a-number
and the finite values, a finite value being given by the rational it denotes
(`Double.isDouble` says which rationals are values).  The two zeros are one
value: `scoresum` starts at `+0`, and a sum that starts at `+0` is never `-0`. -/
inductive Double
  | nan
  | negInf
  | fin (q : ℚ)
  | posInf
  deriving DecidableEq

/-- The integer nearest to `x`, the even one of the two when `x` lies halfway. -/
def roundHalfEven (x : ℚ) : Int :=
  if Int.fract x < 1 / 2 then ⌊x⌋
  else if 1 / 2 < Int.fract x then ⌊x⌋ + 1
  else if ⌊x⌋ % 2 = 0 then ⌊x⌋
  else ⌊x⌋ + 1

/-- The distance between neighbouring binary64 values around `q`: `2 ^ (e - 52)`
where `2 ^ e <= |q| < 2 ^ (e + 1)`, with `e` no less than `-1022` (below that
the values are the subnormal ones, all `2 ^ (-1074)` apart). -/
def Double.ulp (q : ℚ) : ℚ := 2 ^ (max (Int.log 2 |q|) (-1022) - 52)

/-- The binary64 value of the real `q` in the default rounding mode (to
nearest, ties to even); a result of magnitude `2 ^ 1024` is an infinity. -/
def Double.round (q : ℚ) : Double :=
  let v : ℚ := roundHalfEven (q / Double.ulp q) * Double.ulp q
  if 2 ^ 1024 ≤ v then .posInf
  else if v ≤ -(2 ^ 1024) then .negInf
  else .fin v

/-- The values of the type that are binary64 values: a finite one is
`m * 2 ^ (e - 52)` with `|m| < 2 ^ 53` and `-1022 <= e <= 1023`. -/
def Double.isDouble : Double → Prop
  | .fin q => ∃ e m : Int, -1022 ≤ e ∧ e ≤ 1023 ∧ |m| < 2 ^ 53 ∧ q = m * 2 ^ (e - 52)
  | _ => True

/-- Addition of doubles (`scoresum += score`): the exact sum of two finite
values, rounded. -/
def Double.add : Double → Double → Double
  | .nan, _ => .nan
  | _, .nan => .nan
  | .posInf, .negInf => .nan
  | .negInf, .posInf => .nan
  | .posInf, _ => .posInf
  | _, .posInf => .posInf
  | .negInf, _ => .negInf
  | _, .negInf => .negInf
  | .fin a, .fin b => Double.round (a + b)

/-- Comparison `a <= b` of doubles; false when either side is not a number. -/
def Double.le : Double → Double → Bool
  | .nan, _ => false
  | _, .nan => false
  | .negInf, _ => true
  | _, .posInf => true
  | .fin a, .fin b => decide (a ≤ b)
  | _, _ => false

/-- Comparison `a < b` of doubles. -/
def Double.lt (a b : Double) : Bool := a.le b && !b.le a

/-- Struct `RedisModuleZsetRange` of `redismodule.h`. -/
structure RedisModuleZsetRange where
  type : Nat
  flags : Nat
  score_start : Double
  score_end : Double
  lex_start : String
  lex_end : String
  lex_start_len : Nat
  lex_end_len : Nat
  pos_start : Nat
  pos_end : Nat

/-- Initialiser `REDISMODULE_ZSET_RANGE_INIT`; `pos_end` is `(uint32_t)-1`. -/
def REDISMODULE_ZSET_RANGE_INIT : RedisModuleZsetRange :=
  ⟨0, 0, Double.negInf, Double.posInf, "-", "+", 1, 1, 0, 4294967295⟩

/-- The value a key holds.  A sorted set lists its members by ascending score. -/
inductive Value
  | string (s : RedisModuleString)
  | list (l : List RedisModuleString)
  | hash (h : List (RedisModuleString × RedisModuleString))
  | set (s : List RedisModuleString)
  | zset (z : List (Double × RedisModuleString))
  deriving DecidableEq

/-- The keyspace of the selected database: `none` is the empty (absent) key. -/
abbrev Keyspace := RedisModuleString → Option Value

/-- The keyspace with key `k` holding `v` (`none` deletes the key). -/
def Keyspace.put (db : Keyspace) (k : RedisModuleString) (v : Option Value) : Keyspace :=
  fun k1 => if k1 = k then v else db k1

/-- A reply object obtained from `RedisModule_Call`. -/
inductive RedisModuleCallReply
  | string (s : RedisModuleString)
  | error (s : RedisModuleString)
  | integer (n : Int)
  | array (l : List RedisModuleCallReply)
  | null
  | unknown

/-- One reply written into the context by a `RedisModule_ReplyWith*` call or by
`RedisModule_WrongArity`. -/
inductive Reply
  | longLong (ll : Int)
  | error (err : String)
  | simpleString (msg : String)
  | array (len : Int)
  | double (d : Double)
  | callReply (r : RedisModuleCallReply)
  | wrongArity

/-- One argument of `RedisModule_Call` / `RedisModule_Replicate`, tagged by its
format character: `s` a `RedisModuleString`, `c` a C string, `l` a long long. -/
inductive CallArg
  | s (v : RedisModuleString)
  | c (v : String)
  | l (v : Int)
  deriving DecidableEq

/-- A command of the replication stream: its name and resolved arguments. -/
structure Command where
  name : String
  args : List CallArg
  deriving DecidableEq

/-- Resource events of one invocation, in program order. -/
inductive Event
  | openKey (name : RedisModuleString)
  | closeKey (name : RedisModuleString)
  | callReply
  | freeCallReply
  | freeString (s : RedisModuleString)
  | zsetRangeStop (name : RedisModuleString)
  deriving DecidableEq

/-- The invocation context `RedisModuleCtx` as far as the handlers can act on
it: the keyspace, the replies written so far, the ownership mode, the resource
events, the two replication queues and the verbatim flag, the number of
`rand()` calls made, the expiry timestamp of each key that has one (absolute,
in milliseconds) and the time of the invocation in milliseconds. -/
structure RedisModuleCtx where
  db : Keyspace
  selectedDb : Int
  replies : List Reply
  automemory : Bool
  trace : List Event
  callPropagated : List Command
  alsoPropagate : List Command
  verbatim : Bool
  randCalls : Nat
  expires : RedisModuleString → Option Int
  now : Int

/-- The context the host creates for one command execution on keyspace `db`
(no key with an expiry, time `0`). -/
def RedisModuleCtx.fresh (db : Keyspace) (selectedDb : Int) : RedisModuleCtx :=
  ⟨db, selectedDb, [], false, [], [], [], false, 0, fun _ => none, 0⟩

/-- Host functions the handlers only use through their result:
`RedisModule_StringToLongLong`, `RedisModule_StringToDouble` (`none` is a
status other than `REDISMODULE_OK`), `RedisModule_CreateStringFromLongLong`
as the bytes of the string it creates, libc `rand()` as the stream of its
answers, and the execution of a nested command, which answers the reply, the
keyspace afterwards and whether the command modified the dataset. -/
structure Host where
  stringToLongLong : RedisModuleString → Option Int
  stringToDouble : RedisModuleString → Option Double
  createStringFromLongLong : Int → RedisModuleString
  rand : Nat → Int
  call : Keyspace → String → List CallArg → RedisModuleCallReply × Keyspace × Bool

/-- A key handle `RedisModuleKey`: the key's name, the open mode and the
sorted-set range cursor (range, index of the current element, end flag). -/
structure RedisModuleKey where
  name : RedisModuleString
  mode : Nat
  zrs : RedisModuleZsetRange
  zcurrent : Nat
  zer : Bool

/-! ## Host primitives -/

def RedisModuleCtx.reply (ctx : RedisModuleCtx) (r : Reply) : RedisModuleCtx :=
  { ctx with replies := ctx.replies ++ [r] }

def RedisModuleCtx.log (ctx : RedisModuleCtx) (e : Event) : RedisModuleCtx :=
  { ctx with trace := ctx.trace ++ [e] }

/-- Modelled from the spec: `RedisModule_WrongArity` (host function, not in the
sources) writes the wrong-arity reply; its status is the error status. -/
def RedisModule_WrongArity (ctx : RedisModuleCtx) : RedisModuleCtx × Int :=
  (ctx.reply Reply.wrongArity, REDISMODULE_ERR)

/-- Modelled from the spec: `RedisModule_ReplyWithLongLong` (host function)
writes an integer reply. -/
def RedisModule_ReplyWithLongLong (ctx : RedisModuleCtx) (ll : Int) : RedisModuleCtx × Int :=
  (ctx.reply (Reply.longLong ll), REDISMODULE_OK)

/-- Modelled from the spec: `RedisModule_ReplyWithError` (host function) writes
an error-string reply. -/
def RedisModule_ReplyWithError (ctx : RedisModuleCtx) (err : String) : RedisModuleCtx × Int :=
  (ctx.reply (Reply.error err), REDISMODULE_OK)

/-- Modelled from the spec: `RedisModule_ReplyWithSimpleString` (host function)
writes a simple status string. -/
def RedisModule_ReplyWithSimpleString (ctx : RedisModuleCtx) (msg : String) :
    RedisModuleCtx × Int :=
  (ctx.reply (Reply.simpleString msg), REDISMODULE_OK)

/-- Conversion of a `long long` to `int` (two's complement wrap to 32 bits),
as happens to the argument of `RedisModule_ReplyWithArray(ctx,int len)`. -/
def toCInt (x : Int) : Int := (x + 2 ^ 31) % 2 ^ 32 - 2 ^ 31

/-- Modelled from the spec: `RedisModule_ReplyWithArray` (host function) writes
an array header with the declared count; the nested replies follow. -/
def RedisModule_ReplyWithArray (ctx : RedisModuleCtx) (len : Int) : RedisModuleCtx × Int :=
  (ctx.reply (Reply.array len), REDISMODULE_OK)

/-- Modelled from the spec: `RedisModule_ReplyWithDouble` (host function). -/
def RedisModule_ReplyWithDouble (ctx : RedisModuleCtx) (d : Double) : RedisModuleCtx × Int :=
  (ctx.reply (Reply.double d), REDISMODULE_OK)

/-- Modelled from the spec: `RedisModule_ReplyWithCallReply` (host function)
relays a reply object as the invocation's own reply. -/
def RedisModule_ReplyWithCallReply (ctx : RedisModuleCtx) (r : RedisModuleCallReply) :
    RedisModuleCtx × Int :=
  (ctx.reply (Reply.callReply r), REDISMODULE_OK)

/-- Modelled from the spec: `RedisModule_GetSelectedDb` (host function). -/
def RedisModule_GetSelectedDb (ctx : RedisModuleCtx) : Int := ctx.selectedDb

/-- Modelled from the spec: `RedisModule_AutoMemory` (host function) selects
scoped ownership for the invocation. -/
def RedisModule_AutoMemory (ctx : RedisModuleCtx) : RedisModuleCtx :=
  { ctx with automemory := true }

/-- Modelled from the spec: `RedisModule_OpenKey` (host function) never fails;
a key that does not exist is reported as empty.  The cursor starts ended. -/
def RedisModule_OpenKey (ctx : RedisModuleCtx) (keyname : RedisModuleString) (mode : Nat) :
    RedisModuleCtx × RedisModuleKey :=
  (ctx.log (Event.openKey keyname),
    { name := keyname, mode := mode, zrs := REDISMODULE_ZSET_RANGE_INIT, zcurrent := 0,
      zer := true })

/-- Modelled from the spec: `RedisModule_CloseKey` (host function). -/
def RedisModule_CloseKey (ctx : RedisModuleCtx) (key : RedisModuleKey) : RedisModuleCtx :=
  ctx.log (Event.closeKey key.name)

/-- Modelled from the spec: `RedisModule_FreeString` (host function). -/
def RedisModule_FreeString (ctx : RedisModuleCtx) (str : RedisModuleString) : RedisModuleCtx :=
  ctx.log (Event.freeString str)

/-- Modelled from the spec: `RedisModule_FreeCallReply` (host function). -/
def RedisModule_FreeCallReply (ctx : RedisModuleCtx) (_reply : RedisModuleCallReply) :
    RedisModuleCtx :=
  ctx.log Event.freeCallReply

/-- The handle was opened with `REDISMODULE_WRITE`. -/
def RedisModuleKey.writable (key : RedisModuleKey) : Bool :=
  key.mode &&& REDISMODULE_WRITE != 0

/-- The `REDISMODULE_KEYTYPE_*` constant of what a key holds. -/
def keyTypeOf (v : Option Value) : Int :=
  match v with
  | none => REDISMODULE_KEYTYPE_EMPTY
  | some (Value.string _) => REDISMODULE_KEYTYPE_STRING
  | some (Value.list _) => REDISMODULE_KEYTYPE_LIST
  | some (Value.hash _) => REDISMODULE_KEYTYPE_HASH
  | some (Value.set _) => REDISMODULE_KEYTYPE_SET
  | some (Value.zset _) => REDISMODULE_KEYTYPE_ZSET

/-- Modelled from the spec: `RedisModule_KeyType` (host function), the type
query of a handle. -/
def RedisModule_KeyType (ctx : RedisModuleCtx) (key : RedisModuleKey) : Int :=
  keyTypeOf (ctx.db key.name)

/-- Modelled from the spec: `RedisModule_ValueLength` (host function), the
length query: bytes of a string, elements of a collection, `0` when empty. -/
def RedisModule_ValueLength (ctx : RedisModuleCtx) (key : RedisModuleKey) : Nat :=
  match ctx.db key.name with
  | none => 0
  | some (Value.string s) => s.length
  | some (Value.list l) => l.length
  | some (Value.hash h) => h.length
  | some (Value.set s) => s.length
  | some (Value.zset z) => z.length

/-- Modelled from the spec: `RedisModule_ListPush` (host function): push at
head or tail, creating the list when the key is empty; fails without any
mutation on a handle not opened for writing or holding another type. -/
def RedisModule_ListPush (ctx : RedisModuleCtx) (key : RedisModuleKey) (where_ : Int)
    (ele : RedisModuleString) : RedisModuleCtx × Int :=
  if key.writable then
    match ctx.db key.name with
    | none => ({ ctx with db := ctx.db.put key.name (some (Value.list [ele])) }, REDISMODULE_OK)
    | some (Value.list l) =>
      let l1 := if where_ = REDISMODULE_LIST_HEAD then ele :: l else l ++ [ele]
      ({ ctx with db := ctx.db.put key.name (some (Value.list l1)) }, REDISMODULE_OK)
    | some _ => (ctx, REDISMODULE_ERR)
  else (ctx, REDISMODULE_ERR)

/-- The value stored for a list after a pop: a list that became empty is
removed, the key is then empty. -/
def listOrEmpty (l : List RedisModuleString) : Option Value :=
  if l = [] then none else some (Value.list l)

/-- Modelled from the spec: `RedisModule_ListPop` (host function): pops at head
or tail and returns the element, or the not-found signal (`none`, the null
pointer) when nothing can be popped; it never errors. -/
def RedisModule_ListPop (ctx : RedisModuleCtx) (key : RedisModuleKey) (where_ : Int) :
    RedisModuleCtx × Option RedisModuleString :=
  if key.writable then
    match ctx.db key.name with
    | some (Value.list l) =>
      if where_ = REDISMODULE_LIST_HEAD then
        match l with
        | [] => (ctx, none)
        | x :: xs => ({ ctx with db := ctx.db.put key.name (listOrEmpty xs) }, some x)
      else
        match l.getLast? with
        | none => (ctx, none)
        | some x => ({ ctx with db := ctx.db.put key.name (listOrEmpty l.dropLast) }, some x)
    | _ => (ctx, none)
  else (ctx, none)

/-- Modelled from the spec: `RedisModule_StringDMA` (host function) gives direct
access to the bytes of a string value; the result is the length it stores
through `len` (`0` with a null pointer for a value that is not a string).  The
pointer is the value's own buffer, read and written by `dmaRead`, `dmaWrite`. -/
def RedisModule_StringDMA (ctx : RedisModuleCtx) (key : RedisModuleKey) (_mode : Nat) : Nat :=
  match ctx.db key.name with
  | some (Value.string s) => s.length
  | _ => 0

/-- Read of `s[j]` through the pointer `RedisModule_StringDMA` returned. -/
def dmaRead (ctx : RedisModuleCtx) (key : RedisModuleKey) (j : Nat) : Nat :=
  match ctx.db key.name with
  | some (Value.string s) => s.getD j 0
  | _ => 0

/-- Write of `s[j]` through the pointer `RedisModule_StringDMA` returned:
visible in the stored value at once. -/
def dmaWrite (ctx : RedisModuleCtx) (key : RedisModuleKey) (j : Nat) (c : Nat) : RedisModuleCtx :=
  match ctx.db key.name with
  | some (Value.string s) => { ctx with db := ctx.db.put key.name (some (Value.string (s.set j c))) }
  | _ => ctx

/-- Function `isupper` of `ctype.h` in the C locale, on a byte. -/
def isupper (c : Nat) : Bool := decide (65 ≤ c) && decide (c ≤ 90)

/-- Function `islower` of `ctype.h` in the C locale, on a byte. -/
def islower (c : Nat) : Bool := decide (97 ≤ c) && decide (c ≤ 122)

/-- Function `tolower` of `ctype.h` in the C locale. -/
def tolower (c : Nat) : Nat := if isupper c then c + 32 else c

/-- Function `toupper` of `ctype.h` in the C locale. -/
def toupper (c : Nat) : Nat := if islower c then c - 32 else c

/-- The score satisfies the start bound of the range (exclusive when the flag
`REDISMODULE_ZSET_RANGE_START_EX` is set). -/
def RedisModuleZsetRange.aboveStart (zr : RedisModuleZsetRange) (s : Double) : Bool :=
  if zr.flags &&& REDISMODULE_ZSET_RANGE_START_EX != 0 then zr.score_start.lt s
  else zr.score_start.le s

/-- The score satisfies the end bound of the range (exclusive when the flag
`REDISMODULE_ZSET_RANGE_END_EX` is set). -/
def RedisModuleZsetRange.belowEnd (zr : RedisModuleZsetRange) (s : Double) : Bool :=
  if zr.flags &&& REDISMODULE_ZSET_RANGE_END_EX != 0 then s.lt zr.score_end
  else s.le zr.score_end

/-- The members of the sorted set behind a handle (none for another type). -/
def zsetOf (ctx : RedisModuleCtx) (key : RedisModuleKey) : List (Double × RedisModuleString) :=
  match ctx.db key.name with
  | some (Value.zset z) => z
  | _ => []

/-- Modelled from the spec: `RedisModule_ZsetFirstInRange` (host function)
positions the cursor on the first element in the range or marks it
past-the-end if nothing matches.  Only score ranges are modelled; it fails on
a value that is not a sorted set. -/
def RedisModule_ZsetFirstInRange (ctx : RedisModuleCtx) (key : RedisModuleKey)
    (zr : RedisModuleZsetRange) : RedisModuleKey × Int :=
  match ctx.db key.name with
  | some (Value.zset z) =>
    if zr.type = REDISMODULE_ZSET_RANGE_SCORE then
      let i := z.findIdx (fun e => zr.aboveStart e.1)
      match z[i]? with
      | some e =>
        if zr.belowEnd e.1 then ({ key with zrs := zr, zcurrent := i, zer := false }, REDISMODULE_OK)
        else ({ key with zrs := zr, zcurrent := i, zer := true }, REDISMODULE_OK)
      | none => ({ key with zrs := zr, zcurrent := i, zer := true }, REDISMODULE_OK)
    else (key, REDISMODULE_ERR)
  | _ => (key, REDISMODULE_ERR)

/-- Modelled from the spec: `RedisModule_ZsetRangeEndReached` (host function). -/
def RedisModule_ZsetRangeEndReached (key : RedisModuleKey) : Bool := key.zer

/-- Modelled from the spec: `RedisModule_ZsetRangeCurrentElement` (host
function): the current member and, through `score`, its score; only valid
when the cursor is not past-the-end (`none` otherwise). -/
def RedisModule_ZsetRangeCurrentElement (ctx : RedisModuleCtx) (key : RedisModuleKey) :
    Option (RedisModuleString × Double) :=
  if key.zer then none
  else ((zsetOf ctx key)[key.zcurrent]?).map (fun e => (e.2, e.1))

/-- Modelled from the spec: `RedisModule_ZsetRangeNext` (host function)
advances the cursor to the next element in score order, or marks it
past-the-end when there is none or the next one is beyond the end bound. -/
def RedisModule_ZsetRangeNext (ctx : RedisModuleCtx) (key : RedisModuleKey) :
    RedisModuleKey × Int :=
  if key.zer then (key, 0)
  else
    match (zsetOf ctx key)[key.zcurrent + 1]? with
    | some e =>
      if key.zrs.belowEnd e.1 then ({ key with zcurrent := key.zcurrent + 1 }, 1)
      else ({ key with zer := true }, 0)
    | none => ({ key with zer := true }, 0)

/-- Modelled from the spec: `RedisModule_ZsetRangeStop` (host function)
releases the cursor. -/
def RedisModule_ZsetRangeStop (ctx : RedisModuleCtx) (key : RedisModuleKey) :
    RedisModuleCtx × RedisModuleKey :=
  (ctx.log (Event.zsetRangeStop key.name), { key with zcurrent := 0, zer := true })

/-- The format string carries the modifier `!` (replicate if the command
modified the dataset). -/
def replicateModifier (fmt : String) : Bool := fmt.toList.contains '!'

/-- Modelled from the spec: `RedisModule_Call` (host function) executes the
named command synchronously on the keyspace and returns its reply object; with
the modifier `!` a command that modified the dataset is queued for
propagation. -/
def RedisModule_Call (h : Host) (ctx : RedisModuleCtx) (cmdname : String) (fmt : String)
    (args : List CallArg) : RedisModuleCtx × RedisModuleCallReply :=
  let r := h.call ctx.db cmdname args
  let ctx1 := { ctx with db := r.2.1, trace := ctx.trace ++ [Event.callReply] }
  let ctx2 :=
    if replicateModifier fmt && r.2.2 then
      { ctx1 with callPropagated := ctx1.callPropagated ++ [Command.mk cmdname args] }
    else ctx1
  (ctx2, r.1)

/-- Modelled from the spec: `RedisModule_Replicate` (host function) queues a
synthesized command for propagation. -/
def RedisModule_Replicate (ctx : RedisModuleCtx) (cmdname : String) (_fmt : String)
    (args : List CallArg) : RedisModuleCtx × Int :=
  ({ ctx with alsoPropagate := ctx.alsoPropagate ++ [Command.mk cmdname args] }, REDISMODULE_OK)

/-- Modelled from the spec: `RedisModule_ReplicateVerbatim` (host function)
clears the pending entries and sets the verbatim-override flag. -/
def RedisModule_ReplicateVerbatim (ctx : RedisModuleCtx) : RedisModuleCtx × Int :=
  ({ ctx with callPropagated := [], alsoPropagate := [], verbatim := true }, REDISMODULE_OK)

/-- What one invocation sends to the replicas and the durable log. -/
inductive Propagation
  | nothing
  | single (c : Command)
  | atomic (cs : List Command)
  | verbatim (argv : List RedisModuleString)
  deriving DecidableEq

/-- The pending entries of an invocation in the order the host sends them.
The host code is not in the sources; the order is the one the comment in
`HelloRepl1_RedisCommand` documents ("the Call() replication has precedence",
the stream being MULTI, INCR foo, INCR bar, ECHO foo, EXEC): the commands
replicated by `RedisModule_Call` first, those queued by
`RedisModule_Replicate` after them. -/
def pendingEntries (ctx : RedisModuleCtx) : List Command :=
  ctx.callPropagated ++ ctx.alsoPropagate

/-- Modelled from the spec: the replication stream at the end of an invocation
(host code, not in the sources).  With the verbatim flag the original command
alone; otherwise the pending entries, wrapped in one atomic envelope when
there is more than one, sent unwrapped when there is exactly one. -/
def propagation (ctx : RedisModuleCtx) (argv : List RedisModuleString) : Propagation :=
  if ctx.verbatim then Propagation.verbatim argv
  else
    match pendingEntries ctx with
    | [] => Propagation.nothing
    | [c] => Propagation.single c
    | cs => Propagation.atomic cs

/-- Modelled from the spec: reply accessor `RedisModule_CallReplyInteger` (host
function); a reply of another tag gives the least `long long`. -/
def RedisModule_CallReplyInteger (reply : RedisModuleCallReply) : Int :=
  match reply with
  | RedisModuleCallReply.integer n => n
  | _ => -(2 ^ 63)

/-- Modelled from the spec: reply accessor `RedisModule_CallReplyLength` (host
function): elements of an array, bytes of a string, `0` otherwise. -/
def RedisModule_CallReplyLength (reply : RedisModuleCallReply) : Nat :=
  match reply with
  | RedisModuleCallReply.array l => l.length
  | RedisModuleCallReply.string s => s.length
  | RedisModuleCallReply.error s => s.length
  | _ => 0

/-- Modelled from the spec: reply accessor `RedisModule_CallReplyArrayElement`
(host function); out of range or not an array gives the null reply. -/
def RedisModule_CallReplyArrayElement (reply : RedisModuleCallReply) (idx : Nat) :
    RedisModuleCallReply :=
  match reply with
  | RedisModuleCallReply.array l => l.getD idx RedisModuleCallReply.null
  | _ => RedisModuleCallReply.null

/-- Wrap of an integer to a signed 64-bit `long long` (two's complement), the
result of `long long` arithmetic that leaves the range. -/
def wrap64 (x : Int) : Int := (x + 2 ^ 63) % 2 ^ 64 - 2 ^ 63

/-- Modelled from the spec: `RedisModule_CreateStringFromLongLong` (host
function) creates the string of a `long long`. -/
def RedisModule_CreateStringFromLongLong (h : Host) (_ctx : RedisModuleCtx) (ll : Int) :
    RedisModuleString :=
  h.createStringFromLongLong ll

/-- Modelled from the spec: `RedisModule_GetExpire` (host function) returns the
milliseconds to expire of the key, or the sentinel `REDISMODULE_NO_EXPIRE`
when the key has no expiry. -/
def RedisModule_GetExpire (ctx : RedisModuleCtx) (key : RedisModuleKey) : Int :=
  match ctx.expires key.name with
  | none => REDISMODULE_NO_EXPIRE
  | some t => t - ctx.now

/-- Modelled from the spec: `RedisModule_SetExpire` (host function) stores an
absolute expiry timestamp in milliseconds.  Its argument is in the unit
`RedisModule_GetExpire` returns, milliseconds of time to live, which is how
`HelloMoreExpire_RedisCommand` and its comment ("extends it by milliseconds")
use the pair: the timestamp stored is the time of the invocation plus the
argument. -/
def RedisModule_SetExpire (ctx : RedisModuleCtx) (key : RedisModuleKey) (expire : Int) :
    RedisModuleCtx × Int :=
  ({ ctx with
      expires := fun k => if k = key.name then some (ctx.now + expire) else ctx.expires k },
    REDISMODULE_OK)

/-! ## The command handlers of `helloworld.c`

`argv` is the argument vector and `argc` its length: a handler that starts
with `if (argc != n) return RedisModule_WrongArity(ctx);` matches `argv`
against the list pattern of length `n`.  Handlers return the context they
leave behind and their status. -/

/-- Handler `HelloSimple_RedisCommand`. -/
def HelloSimple_RedisCommand (ctx : RedisModuleCtx) (_argv : List RedisModuleString) :
    RedisModuleCtx × Int :=
  let ctx1 := (RedisModule_ReplyWithLongLong ctx (RedisModule_GetSelectedDb ctx)).1
  (ctx1, REDISMODULE_OK)

/-- Handler `HelloPushNative_RedisCommand`: the status of
`RedisModule_ListPush` is not looked at. -/
def HelloPushNative_RedisCommand (ctx : RedisModuleCtx) (argv : List RedisModuleString) :
    RedisModuleCtx × Int :=
  match argv with
  | [_, a1, a2] =>
    let o := RedisModule_OpenKey ctx a1 (REDISMODULE_READ ||| REDISMODULE_WRITE)
    let ctx1 := (RedisModule_ListPush o.1 o.2 REDISMODULE_LIST_TAIL a2).1
    let newlen := RedisModule_ValueLength ctx1 o.2
    let ctx2 := RedisModule_CloseKey ctx1 o.2
    let ctx3 := (RedisModule_ReplyWithLongLong ctx2 newlen).1
    (ctx3, REDISMODULE_OK)
  | _ => RedisModule_WrongArity ctx

/-- Handler `HelloPushCall_RedisCommand`. -/
def HelloPushCall_RedisCommand (h : Host) (ctx : RedisModuleCtx)
    (argv : List RedisModuleString) : RedisModuleCtx × Int :=
  match argv with
  | [_, a1, a2] =>
    let r := RedisModule_Call h ctx "RPUSH" "ss" [CallArg.s a1, CallArg.s a2]
    let len := RedisModule_CallReplyInteger r.2
    let ctx1 := RedisModule_FreeCallReply r.1 r.2
    let ctx2 := (RedisModule_ReplyWithLongLong ctx1 len).1
    (ctx2, REDISMODULE_OK)
  | _ => RedisModule_WrongArity ctx

/-- Handler `HelloPushCall2_RedisCommand`. -/
def HelloPushCall2_RedisCommand (h : Host) (ctx : RedisModuleCtx)
    (argv : List RedisModuleString) : RedisModuleCtx × Int :=
  match argv with
  | [_, a1, a2] =>
    let r := RedisModule_Call h ctx "RPUSH" "ss" [CallArg.s a1, CallArg.s a2]
    let ctx1 := (RedisModule_ReplyWithCallReply r.1 r.2).1
    let ctx2 := RedisModule_FreeCallReply ctx1 r.2
    (ctx2, REDISMODULE_OK)
  | _ => RedisModule_WrongArity ctx

/-- Loop `for (j = 0; j < items; j++) strlen += CallReplyLength(ele)` of
`HelloListSumLen_RedisCommand`; `n` is `items - j`. -/
def sumLenLoop (reply : RedisModuleCallReply) : Nat → Nat → Nat → Nat
  | 0, _, strlen => strlen
  | n + 1, j, strlen =>
    let ele := RedisModule_CallReplyArrayElement reply j
    sumLenLoop reply n (j + 1) (strlen + RedisModule_CallReplyLength ele)

/-- Handler `HelloListSumLen_RedisCommand`. -/
def HelloListSumLen_RedisCommand (h : Host) (ctx : RedisModuleCtx)
    (argv : List RedisModuleString) : RedisModuleCtx × Int :=
  match argv with
  | [_, a1] =>
    let r := RedisModule_Call h ctx "LRANGE" "sll" [CallArg.s a1, CallArg.l 0, CallArg.l (-1)]
    let items := RedisModule_CallReplyLength r.2
    let strlen := sumLenLoop r.2 items 0 0
    let ctx1 := RedisModule_FreeCallReply r.1 r.2
    let ctx2 := (RedisModule_ReplyWithLongLong ctx1 strlen).1
    (ctx2, REDISMODULE_OK)
  | _ => RedisModule_WrongArity ctx

/-- Loop `while(count-- > 0)` of `HelloListSplice_RedisCommand`; the first
argument is the number of iterations `count` still allows. -/
def spliceLoop (srckey dstkey : RedisModuleKey) : Nat → RedisModuleCtx → RedisModuleCtx
  | 0, ctx => ctx
  | n + 1, ctx =>
    let p := RedisModule_ListPop ctx srckey REDISMODULE_LIST_TAIL
    match p.2 with
    | none => p.1
    | some ele =>
      let ctx1 := (RedisModule_ListPush p.1 dstkey REDISMODULE_LIST_HEAD ele).1
      let ctx2 := RedisModule_FreeString ctx1 ele
      spliceLoop srckey dstkey n ctx2

/-- Handler `HelloListSplice_RedisCommand`. -/
def HelloListSplice_RedisCommand (h : Host) (ctx : RedisModuleCtx)
    (argv : List RedisModuleString) : RedisModuleCtx × Int :=
  match argv with
  | [_, a1, a2, a3] =>
    let s := RedisModule_OpenKey ctx a1 (REDISMODULE_READ ||| REDISMODULE_WRITE)
    let d := RedisModule_OpenKey s.1 a2 (REDISMODULE_READ ||| REDISMODULE_WRITE)
    let ctx0 := d.1
    let srckey := s.2
    let dstkey := d.2
    if (RedisModule_KeyType ctx0 srckey ≠ REDISMODULE_KEYTYPE_LIST ∧
        RedisModule_KeyType ctx0 srckey ≠ REDISMODULE_KEYTYPE_EMPTY) ∨
       (RedisModule_KeyType ctx0 dstkey ≠ REDISMODULE_KEYTYPE_LIST ∧
        RedisModule_KeyType ctx0 dstkey ≠ REDISMODULE_KEYTYPE_EMPTY) then
      let ctx1 := RedisModule_CloseKey ctx0 srckey
      let ctx2 := RedisModule_CloseKey ctx1 dstkey
      RedisModule_ReplyWithError ctx2 REDISMODULE_ERRORMSG_WRONGTYPE
    else
      match h.stringToLongLong a3 with
      | none =>
        let ctx1 := RedisModule_CloseKey ctx0 srckey
        let ctx2 := RedisModule_CloseKey ctx1 dstkey
        RedisModule_ReplyWithError ctx2 "ERR invalid count"
      | some count =>
        let ctx1 := spliceLoop srckey dstkey count.toNat ctx0
        let len := RedisModule_ValueLength ctx1 srckey
        let ctx2 := RedisModule_CloseKey ctx1 srckey
        let ctx3 := RedisModule_CloseKey ctx2 dstkey
        let ctx4 := (RedisModule_ReplyWithLongLong ctx3 len).1
        (ctx4, REDISMODULE_OK)
  | _ => RedisModule_WrongArity ctx

/-- Loop `while(count-- > 0)` of `HelloListSpliceAuto_RedisCommand` (no
`RedisModule_FreeString`). -/
def spliceAutoLoop (srckey dstkey : RedisModuleKey) : Nat → RedisModuleCtx → RedisModuleCtx
  | 0, ctx => ctx
  | n + 1, ctx =>
    let p := RedisModule_ListPop ctx srckey REDISMODULE_LIST_TAIL
    match p.2 with
    | none => p.1
    | some ele =>
      let ctx1 := (RedisModule_ListPush p.1 dstkey REDISMODULE_LIST_HEAD ele).1
      spliceAutoLoop srckey dstkey n ctx1

/-- Handler `HelloListSpliceAuto_RedisCommand`. -/
def HelloListSpliceAuto_RedisCommand (h : Host) (ctx : RedisModuleCtx)
    (argv : List RedisModuleString) : RedisModuleCtx × Int :=
  match argv with
  | [_, a1, a2, a3] =>
    let ctxa := RedisModule_AutoMemory ctx
    let s := RedisModule_OpenKey ctxa a1 (REDISMODULE_READ ||| REDISMODULE_WRITE)
    let d := RedisModule_OpenKey s.1 a2 (REDISMODULE_READ ||| REDISMODULE_WRITE)
    let ctx0 := d.1
    let srckey := s.2
    let dstkey := d.2
    if (RedisModule_KeyType ctx0 srckey ≠ REDISMODULE_KEYTYPE_LIST ∧
        RedisModule_KeyType ctx0 srckey ≠ REDISMODULE_KEYTYPE_EMPTY) ∨
       (RedisModule_KeyType ctx0 dstkey ≠ REDISMODULE_KEYTYPE_LIST ∧
        RedisModule_KeyType ctx0 dstkey ≠ REDISMODULE_KEYTYPE_EMPTY) then
      RedisModule_ReplyWithError ctx0 REDISMODULE_ERRORMSG_WRONGTYPE
    else
      match h.stringToLongLong a3 with
      | none => RedisModule_ReplyWithError ctx0 "ERR invalid count"
      | some count =>
        let ctx1 := spliceAutoLoop srckey dstkey count.toNat ctx0
        let len := RedisModule_ValueLength ctx1 srckey
        let ctx2 := (RedisModule_ReplyWithLongLong ctx1 len).1
        (ctx2, REDISMODULE_OK)
  | _ => RedisModule_WrongArity ctx

/-- Loop `while(count--) RedisModule_ReplyWithLongLong(ctx,rand());` of
`HelloRandArray_RedisCommand`, entered with `count >= 0`. -/
def randArrayLoop (h : Host) : Nat → RedisModuleCtx → RedisModuleCtx
  | 0, ctx => ctx
  | n + 1, ctx =>
    let v := h.rand ctx.randCalls
    let ctx1 := { ctx with randCalls := ctx.randCalls + 1 }
    randArrayLoop h n (RedisModule_ReplyWithLongLong ctx1 v).1

/-- Handler `HelloRandArray_RedisCommand`.  The `long long count` is passed to
the `int len` parameter of `RedisModule_ReplyWithArray`. -/
def HelloRandArray_RedisCommand (h : Host) (ctx : RedisModuleCtx)
    (argv : List RedisModuleString) : RedisModuleCtx × Int :=
  match argv with
  | [_, a1] =>
    match h.stringToLongLong a1 with
    | none => RedisModule_ReplyWithError ctx "ERR invalid count"
    | some count =>
      if count < 0 then RedisModule_ReplyWithError ctx "ERR invalid count"
      else
        let ctx1 := (RedisModule_ReplyWithArray ctx (toCInt count)).1
        (randArrayLoop h count.toNat ctx1, REDISMODULE_OK)
  | _ => RedisModule_WrongArity ctx

/-- Handler `HelloRepl1_RedisCommand`. -/
def HelloRepl1_RedisCommand (h : Host) (ctx : RedisModuleCtx)
    (_argv : List RedisModuleString) : RedisModuleCtx × Int :=
  let ctx0 := RedisModule_AutoMemory ctx
  let ctx1 := (RedisModule_Replicate ctx0 "ECHO" "c" [CallArg.c "foo"]).1
  let r1 := RedisModule_Call h ctx1 "INCR" "c!" [CallArg.c "foo"]
  let r2 := RedisModule_Call h r1.1 "INCR" "c!" [CallArg.c "bar"]
  let ctx2 := (RedisModule_ReplyWithLongLong r2.1 0).1
  (ctx2, REDISMODULE_OK)

/-- Loop `for (j = 0; j < len; j++)` of `HelloToggleCase_RedisCommand`; the
first argument is `len - j`. -/
def toggleCaseLoop (key : RedisModuleKey) : Nat → Nat → RedisModuleCtx → RedisModuleCtx
  | 0, _, ctx => ctx
  | n + 1, j, ctx =>
    let c := dmaRead ctx key j
    let ctx1 := if isupper c then dmaWrite ctx key j (tolower c) else dmaWrite ctx key j (toupper c)
    toggleCaseLoop key n (j + 1) ctx1

/-- Handler `HelloToggleCase_RedisCommand`. -/
def HelloToggleCase_RedisCommand (ctx : RedisModuleCtx) (argv : List RedisModuleString) :
    RedisModuleCtx × Int :=
  match argv with
  | [_, a1] =>
    let o := RedisModule_OpenKey ctx a1 (REDISMODULE_READ ||| REDISMODULE_WRITE)
    let key := o.2
    let keytype := RedisModule_KeyType o.1 key
    if keytype ≠ REDISMODULE_KEYTYPE_STRING ∧ keytype ≠ REDISMODULE_KEYTYPE_EMPTY then
      let ctx1 := RedisModule_CloseKey o.1 key
      RedisModule_ReplyWithError ctx1 REDISMODULE_ERRORMSG_WRONGTYPE
    else
      let ctx1 :=
        if keytype = REDISMODULE_KEYTYPE_STRING then
          let len := RedisModule_StringDMA o.1 key REDISMODULE_WRITE
          toggleCaseLoop key len 0 o.1
        else o.1
      let ctx2 := RedisModule_CloseKey ctx1 key
      let ctx3 := (RedisModule_ReplyWithSimpleString ctx2 "OK").1
      let ctx4 := (RedisModule_ReplicateVerbatim ctx3).1
      (ctx4, REDISMODULE_OK)
  | _ => RedisModule_WrongArity ctx

/-- Loop `while(!RedisModule_ZsetRangeEndReached(key))` of
`HelloZsumRange_RedisCommand`, with a bound on the number of tests of the loop
condition (`none` when the bound is used up, or when the current element is
read past the end).  The result is the handle and `scoresum` at loop exit. -/
def zsumLoop : Nat → RedisModuleKey → Double → RedisModuleCtx →
    Option (RedisModuleKey × Double × RedisModuleCtx)
  | 0, _, _, _ => none
  | fuel + 1, key, scoresum, ctx =>
    if RedisModule_ZsetRangeEndReached key then some (key, scoresum, ctx)
    else
      match RedisModule_ZsetRangeCurrentElement ctx key with
      | none => none
      | some es =>
        let ctx1 := RedisModule_FreeString ctx es.1
        let key1 := (RedisModule_ZsetRangeNext ctx1 key).1
        zsumLoop fuel key1 (scoresum.add es.2) ctx1

/-- Handler `HelloZsumRange_RedisCommand`.  It reads `argv[2]`, `argv[3]` and
`argv[1]` without a test of `argc` (no result when the read is past the
vector), and returns on a type mismatch without closing the key.  `fuel`
bounds the loop (see `zsumLoop`). -/
def HelloZsumRange_RedisCommand (h : Host) (fuel : Nat) (ctx : RedisModuleCtx)
    (argv : List RedisModuleString) : Option (RedisModuleCtx × Int) :=
  let zrange0 := { REDISMODULE_ZSET_RANGE_INIT with type := REDISMODULE_ZSET_RANGE_SCORE }
  match argv[2]? with
  | none => none
  | some a2 =>
    match h.stringToDouble a2 with
    | none => some (RedisModule_ReplyWithError ctx "ERR invalid range")
    | some score_start =>
      match argv[3]? with
      | none => none
      | some a3 =>
        match h.stringToDouble a3 with
        | none => some (RedisModule_ReplyWithError ctx "ERR invalid range")
        | some score_end =>
          let zrange :=
            { zrange0 with score_start := score_start, score_end := score_end, flags := 0 }
          match argv[1]? with
          | none => none
          | some a1 =>
            let o := RedisModule_OpenKey ctx a1 (REDISMODULE_READ ||| REDISMODULE_WRITE)
            if RedisModule_KeyType o.1 o.2 ≠ REDISMODULE_KEYTYPE_ZSET then
              some (RedisModule_ReplyWithError o.1 REDISMODULE_ERRORMSG_WRONGTYPE)
            else
              let key := (RedisModule_ZsetFirstInRange o.1 o.2 zrange).1
              match zsumLoop fuel key (Double.fin 0) o.1 with
              | none => none
              | some r =>
                let s := RedisModule_ZsetRangeStop r.2.2 r.1
                let ctx2 := RedisModule_CloseKey s.1 s.2
                let ctx3 := (RedisModule_ReplyWithDouble ctx2 r.2.1).1
                some (ctx3, REDISMODULE_OK)

/-- Loop `while(listlen--)` of `HelloRepl2_RedisCommand`; the arguments are
the iterations left and `sum`.  `val++` and `sum += val` are `long long`
arithmetic.  No result when `RedisModule_ListPop` returns the null pointer,
which the loop hands to `RedisModule_StringToLongLong`. -/
def repl2Loop (h : Host) (key : RedisModuleKey) :
    Nat → Int → RedisModuleCtx → Option (RedisModuleCtx × Int)
  | 0, sum, ctx => some (ctx, sum)
  | n + 1, sum, ctx =>
    let p := RedisModule_ListPop ctx key REDISMODULE_LIST_TAIL
    match p.2 with
    | none => none
    | some ele =>
      let val0 :=
        match h.stringToLongLong ele with
        | some v => v
        | none => 0
      let val := wrap64 (val0 + 1)
      let sum1 := wrap64 (sum + val)
      let newele := RedisModule_CreateStringFromLongLong h p.1 val
      let ctx1 := (RedisModule_ListPush p.1 key REDISMODULE_LIST_HEAD newele).1
      repl2Loop h key n sum1 ctx1

/-- Handler `HelloRepl2_RedisCommand`. -/
def HelloRepl2_RedisCommand (h : Host) (ctx : RedisModuleCtx)
    (argv : List RedisModuleString) : Option (RedisModuleCtx × Int) :=
  match argv with
  | [_, a1] =>
    let ctx0 := RedisModule_AutoMemory ctx
    let o := RedisModule_OpenKey ctx0 a1 (REDISMODULE_READ ||| REDISMODULE_WRITE)
    if RedisModule_KeyType o.1 o.2 ≠ REDISMODULE_KEYTYPE_LIST then
      some (RedisModule_ReplyWithError o.1 REDISMODULE_ERRORMSG_WRONGTYPE)
    else
      let listlen := RedisModule_ValueLength o.1 o.2
      match repl2Loop h o.2 listlen 0 o.1 with
      | none => none
      | some r =>
        let ctx1 := (RedisModule_ReplyWithLongLong r.1 r.2).1
        let ctx2 := (RedisModule_ReplicateVerbatim ctx1).1
        some (ctx2, REDISMODULE_OK)
  | _ => some (RedisModule_WrongArity ctx)

/-- Handler `HelloMoreExpire_RedisCommand`; `expire += addms` is `long long`
arithmetic. -/
def HelloMoreExpire_RedisCommand (h : Host) (ctx : RedisModuleCtx)
    (argv : List RedisModuleString) : RedisModuleCtx × Int :=
  let ctx0 := RedisModule_AutoMemory ctx
  match argv with
  | [_, a1, a2] =>
    match h.stringToLongLong a2 with
    | none => RedisModule_ReplyWithError ctx0 "ERR invalid expire time"
    | some addms =>
      let o := RedisModule_OpenKey ctx0 a1 (REDISMODULE_READ ||| REDISMODULE_WRITE)
      let expire := RedisModule_GetExpire o.1 o.2
      let ctx1 :=
        if expire ≠ REDISMODULE_NO_EXPIRE then
          (RedisModule_SetExpire o.1 o.2 (wrap64 (expire + addms))).1
        else o.1
      RedisModule_ReplyWithSimpleString ctx1 "OK"
  | _ => RedisModule_WrongArity ctx0

/-- Type `RedisModuleCmdFunc`: a handler as the registry holds it, given the
host functions and the loop bound of `zsumLoop`. -/
abbrev RedisModuleCmdFunc :=
  Host → Nat → RedisModuleCtx → List RedisModuleString → Option (RedisModuleCtx × Int)

/-- The commands `RedisModule_OnLoad` registers, in source order. -/
def helloCommands : List (String × RedisModuleCmdFunc) :=
  [("hello.simple", fun _ _ ctx argv => some (HelloSimple_RedisCommand ctx argv)),
   ("hello.push.native", fun _ _ ctx argv => some (HelloPushNative_RedisCommand ctx argv)),
   ("hello.push.call", fun h _ ctx argv => some (HelloPushCall_RedisCommand h ctx argv)),
   ("hello.push.call2", fun h _ ctx argv => some (HelloPushCall2_RedisCommand h ctx argv)),
   ("hello.list.sum.len", fun h _ ctx argv => some (HelloListSumLen_RedisCommand h ctx argv)),
   ("hello.list.splice", fun h _ ctx argv => some (HelloListSplice_RedisCommand h ctx argv)),
   ("hello.list.splice.auto",
      fun h _ ctx argv => some (HelloListSpliceAuto_RedisCommand h ctx argv)),
   ("hello.rand.array", fun h _ ctx argv => some (HelloRandArray_RedisCommand h ctx argv)),
   ("hello.repl1", fun h _ ctx argv => some (HelloRepl1_RedisCommand h ctx argv)),
   ("hello.repl2", fun h _ ctx argv => HelloRepl2_RedisCommand h ctx argv),
   ("hello.toggle.case", fun _ _ ctx argv => some (HelloToggleCase_RedisCommand ctx argv)),
   ("hello.more.expire", fun h _ ctx argv => some (HelloMoreExpire_RedisCommand h ctx argv)),
   ("hello.zsumrange", fun h fuel ctx argv => HelloZsumRange_RedisCommand h fuel ctx argv)]

/-- Modelled from the spec: `RedisModule_CreateCommand` (host function) records
the handler under the name; a name already registered is refused. -/
def RedisModule_CreateCommand (registry : List (String × RedisModuleCmdFunc)) (name : String)
    (cmdfunc : RedisModuleCmdFunc) : List (String × RedisModuleCmdFunc) × Int :=
  if registry.any (fun e => e.1 == name) then (registry, REDISMODULE_ERR)
  else (registry ++ [(name, cmdfunc)], REDISMODULE_OK)

/-- The run of `if (RedisModule_CreateCommand(...) == REDISMODULE_ERR) return
REDISMODULE_ERR;` statements of `RedisModule_OnLoad`. -/
def registerAll :
    List (String × RedisModuleCmdFunc) → List (String × RedisModuleCmdFunc) →
      List (String × RedisModuleCmdFunc) × Int
  | [], registry => (registry, REDISMODULE_OK)
  | c :: rest, registry =>
    let r := RedisModule_CreateCommand registry c.1 c.2
    if r.2 = REDISMODULE_ERR then (r.1, REDISMODULE_ERR) else registerAll rest r.1

/-- Function `RedisModule_OnLoad`: the status, the capability table and the
registry it leaves (no result on a call through a null table slot). -/
def RedisModule_OnLoad (lh : LoadHost) (t : ApiTable)
    (registry : List (String × RedisModuleCmdFunc)) :
    Option (Int × ApiTable × List (String × RedisModuleCmdFunc)) :=
  match RedisModule_Init lh t "helloworld" 1 REDISMODULE_APIVER_1 with
  | none => none
  | some r =>
    if r.1 = REDISMODULE_ERR then some (REDISMODULE_ERR, r.2, registry)
    else if r.2 "CreateCommand" = 0 then none
    else
      let reg := registerAll helloCommands registry
      some (reg.2, r.2, reg.1)

/-! ## Notions used to state the properties -/

/-- Key `k` is a list with elements `l`, or is empty and `l` is `[]`. -/
def HoldsList (db : Keyspace) (k : RedisModuleString) (l : List RedisModuleString) : Prop :=
  db k = some (Value.list l) ∨ (db k = none ∧ l = [])

/-- The number of elements HELLO.LIST.SPLICE is to move from a source of
length `n`: `min(max(count,0), n)`. -/
def spliceMoved (count : Int) (n : Nat) : Nat := min (max count 0).toNat n

/-- One invocation of `HelloPushNative_RedisCommand` per element, in order,
each in a fresh context on the keyspace the previous one left: the final
keyspace and the replies of each invocation. -/
def pushNativeSeq (cmd key : RedisModuleString) (sel : Int) :
    List RedisModuleString → Keyspace → Keyspace × List (List Reply)
  | [], db => (db, [])
  | e :: es, db =>
    let r := HelloPushNative_RedisCommand (RedisModuleCtx.fresh db sel) [cmd, key, e]
    let rest := pushNativeSeq cmd key sel es r.1.db
    (rest.1, r.1.replies :: rest.2)

/-- The byte the specification of HELLO.TOGGLE.CASE asks for: an uppercase
letter lowercased, a lowercase letter uppercased, any other byte unchanged. -/
def toggledByte (c : Nat) : Nat :=
  if 65 ≤ c ∧ c ≤ 90 then c + 32 else if 97 ≤ c ∧ c ≤ 122 then c - 32 else c

/-- Every key handle opened in the trace is closed, name by name as many times
as it was opened. -/
def keysReleased (t : List Event) : Prop :=
  ∀ k, t.count (Event.openKey k) = t.count (Event.closeKey k)

/-- Every reply object obtained from `RedisModule_Call` in the trace is freed. -/
def repliesReleased (t : List Event) : Prop :=
  t.count Event.callReply = t.count Event.freeCallReply

/-- The number of nested replies a reply still owes: the declared length of an
array header (none when negative), nothing for any other reply. -/
def owedReplies (r : Reply) : Nat :=
  match r with
  | Reply.array len => len.toNat
  | _ => 0

/-- Reading of a reply stream: the number of top-level replies in it and the
number of nested replies still owed at its end.  `pending` is what the replies
read so far still owe: a reply read while something is owed is a nested one. -/
def topLevel : Nat → List Reply → Nat × Nat
  | pending, [] => (0, pending)
  | pending, r :: rs =>
    if pending = 0 then ((topLevel (owedReplies r) rs).1 + 1, (topLevel (owedReplies r) rs).2)
    else topLevel (pending - 1 + owedReplies r) rs

/-- The stream is exactly one complete top-level reply. -/
def exactlyOneReply (rs : List Reply) : Prop := topLevel 0 rs = (1, 0)

/-- The value `HelloRepl2_RedisCommand` is to store for a list element: the
element's integer (`0` when it does not parse) plus one, as a `long long`. -/
def incremented (h : Host) (e : RedisModuleString) : Int :=
  wrap64 ((h.stringToLongLong e).getD 0 + 1)

/-! ## A concrete host and concrete inputs -/

/-- Value of a string of decimal digits (`none` on any other byte). -/
def digitsValue : List Nat → Nat → Option Nat
  | [], acc => some acc
  | d :: ds, acc =>
    if 48 ≤ d ∧ d ≤ 57 then digitsValue ds (acc * 10 + (d - 48)) else none

/-- A decimal parser: an optional minus sign and at least one digit, within
the range of a `long long`. -/
def parseDecimal (s : RedisModuleString) : Option Int :=
  let v : Option Int :=
    match s with
    | [] => none
    | [45] => none
    | 45 :: ds => (digitsValue ds 0).map (fun n => -(n : Int))
    | ds => (digitsValue ds 0).map (fun n => (n : Int))
  v.bind (fun x => if -(2 ^ 63) ≤ x ∧ x < 2 ^ 63 then some x else none)

/-- The decimal digits of a natural number, as bytes. -/
def formatNat (n : Nat) : RedisModuleString := (Nat.toDigits 10 n).map Char.toNat

/-- The decimal text of an integer, as bytes. -/
def formatDecimal (x : Int) : RedisModuleString :=
  if x < 0 then 45 :: formatNat (-x).toNat else formatNat x.toNat

/-- A host for concrete runs: decimal parsers and printer (the double parser
reads a decimal integer and rounds it to a double), `rand()` answering
`0, 1, 2, …` and nested commands that reply null without touching the dataset. -/
def sampleHost : Host where
  stringToLongLong := parseDecimal
  stringToDouble := fun s => (parseDecimal s).map (fun x => Double.round x)
  createStringFromLongLong := formatDecimal
  rand := fun i => i
  call := fun db _ _ => (RedisModuleCallReply.null, db, false)

/-- A host whose nested commands all report a modified dataset. -/
def dirtyHost : Host where
  stringToLongLong := parseDecimal
  stringToDouble := fun s => (parseDecimal s).map (fun x => Double.round x)
  createStringFromLongLong := formatDecimal
  rand := fun i => i
  call := fun db _ _ => (RedisModuleCallReply.integer 1, db, true)

/-- The bytes of an ASCII string literal. -/
def bytes (s : String) : RedisModuleString := s.toList.map Char.toNat

/-- A keyspace where key `k` holds the string `abc`. -/
def stringDb : Keyspace :=
  fun k => if k = bytes "k" then some (Value.string (bytes "abc")) else none

/-- The keyspace with no key. -/
def emptyDb : Keyspace := fun _ => none

/-- A keyspace where key `src` holds the list `a, b, c`. -/
def spliceDb : Keyspace :=
  fun k => if k = bytes "src" then some (Value.list [bytes "a", bytes "b", bytes "c"]) else none

/-- A keyspace where key `k` holds the string `AbC123`. -/
def toggleDb : Keyspace :=
  fun k => if k = bytes "k" then some (Value.string (bytes "AbC123")) else none

/-- The members of a sorted set whose score `s` satisfies `lo <= s <= hi`, in
the order of the set. -/
def inRange (lo hi : Double) (z : List (Double × RedisModuleString)) :
    List (Double × RedisModuleString) :=
  z.filter (fun e => lo.le e.1 && e.1.le hi)

/-- The sum of the scores of the listed members in double arithmetic: added
one by one to `0` in list order, each addition rounded as `Double.add` says. -/
def sumScores (l : List (Double × RedisModuleString)) : Double :=
  l.foldl (fun s e => s.add e.1) (Double.fin 0)

/-- The sorted set `(1,a), (2,b), (5,c)` under key `z`. -/
def zsetDb : Keyspace :=
  fun k =>
    if k = bytes "z" then
      some (Value.zset [(Double.fin 1, bytes "a"), (Double.fin 2, bytes "b"),
        (Double.fin 5, bytes "c")])
    else none

/-- A keyspace where key `n` holds the list `1, 41, x`. -/
def numDb : Keyspace :=
  fun k => if k = bytes "n" then some (Value.list [bytes "1", bytes "41", bytes "x"]) else none
/-- The milliseconds to expire `RedisModule_GetExpire` reports for the key
named `name`. -/
def expireOf (ctx : RedisModuleCtx) (name : RedisModuleString) : Int :=
  RedisModule_GetExpire ctx
    (RedisModule_OpenKey ctx name (REDISMODULE_READ ||| REDISMODULE_WRITE)).2

/-- An invocation at time `1000` on a keyspace where key `k` expires at time
`6000`. -/
def ttlCtx : RedisModuleCtx :=
  { RedisModuleCtx.fresh stringDb 0 with
    expires := fun k => if k = bytes "k" then some 6000 else none, now := 1000 }

/-- The events `after` are `before` followed by events in which every key
handle opened is closed and every reply object obtained is freed. -/
def releasesAll (before after : List Event) : Prop :=
  ∃ ext, after = before ++ ext ∧ keysReleased ext ∧ repliesReleased ext

/-- The replies `after` are `before` followed by exactly one reply, which is
not an array header owing nested replies. -/
def writesOneReply (before after : List Reply) : Prop :=
  ∃ r, after = before ++ [r] ∧ owedReplies r = 0

/-! ## Theorems -/

theorem GET_API_keeps_nonzero (h : LoadHost) (names : List String) (t : ApiTable) (n : String)
    (hres : ∀ m ∈ names, h.resolves m) (ht : t n ≠ 0) :
    names.foldl (REDISMODULE_GET_API h) t n ≠ 0 := by
  induction names generalizing t with
  | nil => simpa using ht
  | cons m ms ih =>
    simp only [List.foldl_cons]
    apply ih
    · intro x hx
      exact hres x (List.mem_cons_of_mem _ hx)
    · obtain ⟨p, hp, hget⟩ := hres m (List.mem_cons_self _ _)
      unfold REDISMODULE_GET_API
      rw [hget]
      by_cases hnm : n = m
      · simp [hnm, hp]
      · simp [hnm, ht]

theorem GET_API_binds (h : LoadHost) (names : List String) (t : ApiTable) (n : String)
    (hres : ∀ m ∈ names, h.resolves m) (hn : n ∈ names) :
    names.foldl (REDISMODULE_GET_API h) t n ≠ 0 := by
  induction names generalizing t with
  | nil => simp at hn
  | cons m ms ih =>
    simp only [List.foldl_cons]
    have hms : ∀ x ∈ ms, h.resolves x := fun x hx => hres x (List.mem_cons_of_mem _ hx)
    by_cases hnm : n = m
    · apply GET_API_keeps_nonzero h ms _ n hms
      obtain ⟨p, hp, hget⟩ := hres m (List.mem_cons_self _ _)
      unfold REDISMODULE_GET_API
      rw [hget]
      simp [hnm, hp]
    · rcases List.mem_cons.mp hn with hh | hh
      · exact absurd hh hnm
      · exact ih _ hms hh

/-- C1 (as stated, refuted): with a host whose accessor fails to resolve
`RedisModule_ZsetRem` and whose `SetModuleAttribs` rejects the protocol
version, `RedisModule_Init` still returns `REDISMODULE_OK`. -/
theorem RedisModule_Init_ignores_failures :
    (partialLoadHost.getApi "RedisModule_ZsetRem").1 = REDISMODULE_ERR ∧
    "ZsetRem" ∈ requestedApis ∧
    partialLoadHost.setModuleAttribs "helloworld" 1 REDISMODULE_APIVER_1 = REDISMODULE_ERR ∧
    (RedisModule_Init partialLoadHost ApiTable.unbound "helloworld" 1 REDISMODULE_APIVER_1).map
      Prod.fst = some REDISMODULE_OK := by
  refine ⟨by decide, by decide, by decide, ?_⟩
  decide

/-- C1 (amended): `RedisModule_Init` never returns `REDISMODULE_ERR`: whatever
the accessor and `SetModuleAttribs` answer, a returned status is
`REDISMODULE_OK`; and when every requested capability is resolved it does
return `REDISMODULE_OK`, with every requested slot of the table bound. -/
theorem RedisModule_Init_status (h : LoadHost) (t : ApiTable) (name : String)
    (ver apiver : Int) :
    (∀ r t1, RedisModule_Init h t name ver apiver = some (r, t1) → r = REDISMODULE_OK) ∧
    ((∀ n ∈ requestedApis, h.resolves n) →
      RedisModule_Init h t name ver apiver = some (REDISMODULE_OK, bindApis h t) ∧
      ∀ n ∈ requestedApis, bindApis h t n ≠ 0) := by
  constructor
  · intro r t1 hinit
    unfold RedisModule_Init at hinit
    by_cases hz : bindApis h t "SetModuleAttribs" = 0
    · simp [hz] at hinit
    · simp [hz] at hinit
      exact hinit.1.symm
  · intro hres
    have hall : ∀ n ∈ requestedApis, bindApis h t n ≠ 0 :=
      fun n hn => GET_API_binds h requestedApis t n hres hn
    have hsma : bindApis h t "SetModuleAttribs" ≠ 0 := hall _ (by decide)
    refine ⟨?_, hall⟩
    unfold RedisModule_Init
    simp [hsma]

/-- C1 witness: the amended statement at a host that resolves everything. -/
theorem RedisModule_Init_status_witness :
    RedisModule_Init fullLoadHost ApiTable.unbound "helloworld" 1 REDISMODULE_APIVER_1
      = some (REDISMODULE_OK, bindApis fullLoadHost ApiTable.unbound) :=
  ((RedisModule_Init_status fullLoadHost ApiTable.unbound "helloworld" 1
      REDISMODULE_APIVER_1).2
    (fun _ _ => ⟨1, by decide, rfl⟩)).1

theorem put_same (db : Keyspace) (k : RedisModuleString) (v : Option Value) :
    db.put k v k = v := by
  simp [Keyspace.put]

theorem put_other (db : Keyspace) (k k1 : RedisModuleString) (v : Option Value) (hk : k1 ≠ k) :
    db.put k v k1 = db k1 := by
  simp [Keyspace.put, hk]

theorem openKey_writable (ctx : RedisModuleCtx) (a : RedisModuleString) :
    (RedisModule_OpenKey ctx a (REDISMODULE_READ ||| REDISMODULE_WRITE)).2.writable = true := by
  simp [RedisModule_OpenKey, RedisModuleKey.writable, REDISMODULE_READ, REDISMODULE_WRITE]

theorem holdsList_length (ctx : RedisModuleCtx) (key : RedisModuleKey)
    (l : List RedisModuleString) (hl : HoldsList ctx.db key.name l) :
    RedisModule_ValueLength ctx key = l.length := by
  unfold RedisModule_ValueLength
  rcases hl with h1 | ⟨h1, h2⟩
  · simp [h1]
  · simp [h1, h2]

theorem holdsList_keyType (db : Keyspace) (k : RedisModuleString) (l : List RedisModuleString)
    (hl : HoldsList db k l) :
    keyTypeOf (db k) = REDISMODULE_KEYTYPE_LIST ∨ keyTypeOf (db k) = REDISMODULE_KEYTYPE_EMPTY := by
  rcases hl with h1 | ⟨h1, _⟩
  · left; simp [h1, keyTypeOf]
  · right; simp [h1, keyTypeOf]

theorem listPush_tail (ctx : RedisModuleCtx) (key : RedisModuleKey) (l : List RedisModuleString)
    (e : RedisModuleString) (hw : key.writable = true) (hl : HoldsList ctx.db key.name l) :
    (RedisModule_ListPush ctx key REDISMODULE_LIST_TAIL e).1.db
        = ctx.db.put key.name (some (Value.list (l ++ [e]))) ∧
    (RedisModule_ListPush ctx key REDISMODULE_LIST_TAIL e).1.replies = ctx.replies ∧
    (RedisModule_ListPush ctx key REDISMODULE_LIST_TAIL e).1.trace = ctx.trace := by
  unfold RedisModule_ListPush
  rcases hl with h1 | ⟨h1, h2⟩
  · simp [hw, h1, REDISMODULE_LIST_TAIL, REDISMODULE_LIST_HEAD]
  · simp [hw, h1, h2]

theorem listPush_head (ctx : RedisModuleCtx) (key : RedisModuleKey) (l : List RedisModuleString)
    (e : RedisModuleString) (hw : key.writable = true) (hl : HoldsList ctx.db key.name l) :
    (RedisModule_ListPush ctx key REDISMODULE_LIST_HEAD e).1.db
        = ctx.db.put key.name (some (Value.list (e :: l))) ∧
    (RedisModule_ListPush ctx key REDISMODULE_LIST_HEAD e).1.replies = ctx.replies := by
  unfold RedisModule_ListPush
  rcases hl with h1 | ⟨h1, h2⟩
  · simp [hw, h1]
  · simp [hw, h1, h2]

theorem listPop_tail_nil (ctx : RedisModuleCtx) (key : RedisModuleKey)
    (hl : HoldsList ctx.db key.name []) :
    RedisModule_ListPop ctx key REDISMODULE_LIST_TAIL = (ctx, none) := by
  unfold RedisModule_ListPop
  rcases hl with h1 | ⟨h1, _⟩
  · simp [h1, REDISMODULE_LIST_TAIL, REDISMODULE_LIST_HEAD]
  · simp [h1]

theorem listPop_tail_concat (ctx : RedisModuleCtx) (key : RedisModuleKey)
    (l : List RedisModuleString) (x : RedisModuleString)
    (hw : key.writable = true) (hl : HoldsList ctx.db key.name (l ++ [x])) :
    (RedisModule_ListPop ctx key REDISMODULE_LIST_TAIL).2 = some x ∧
    (RedisModule_ListPop ctx key REDISMODULE_LIST_TAIL).1.db
        = ctx.db.put key.name (listOrEmpty l) ∧
    (RedisModule_ListPop ctx key REDISMODULE_LIST_TAIL).1.replies = ctx.replies := by
  unfold RedisModule_ListPop
  rcases hl with h1 | ⟨_, h2⟩
  · simp [hw, h1, REDISMODULE_LIST_TAIL, REDISMODULE_LIST_HEAD]
  · simp at h2

theorem holdsList_listOrEmpty (db : Keyspace) (k : RedisModuleString)
    (l : List RedisModuleString) : HoldsList (db.put k (listOrEmpty l)) k l := by
  unfold HoldsList listOrEmpty
  by_cases hl : l = []
  · right; simp [hl, put_same]
  · left; simp [hl, put_same]

theorem holdsList_put_other (db : Keyspace) (k k1 : RedisModuleString) (v : Option Value)
    (l : List RedisModuleString) (hk : k1 ≠ k) (hl : HoldsList db k1 l) :
    HoldsList (db.put k v) k1 l := by
  unfold HoldsList at *
  rw [put_other db k k1 v hk]
  exact hl

theorem spliceLoop_spec (srckey dstkey : RedisModuleKey) (hne : srckey.name ≠ dstkey.name)
    (hws : srckey.writable = true) (hwd : dstkey.writable = true) :
    ∀ (n : Nat) (ctx : RedisModuleCtx) (ls ld : List RedisModuleString),
      HoldsList ctx.db srckey.name ls → HoldsList ctx.db dstkey.name ld →
      HoldsList (spliceLoop srckey dstkey n ctx).db srckey.name
        (ls.take (ls.length - min n ls.length)) ∧
      HoldsList (spliceLoop srckey dstkey n ctx).db dstkey.name
        (ls.drop (ls.length - min n ls.length) ++ ld) ∧
      (∀ k, k ≠ srckey.name → k ≠ dstkey.name →
        (spliceLoop srckey dstkey n ctx).db k = ctx.db k) ∧
      (spliceLoop srckey dstkey n ctx).replies = ctx.replies := by
  intro n
  induction n with
  | zero =>
    intro ctx ls ld hs hd
    simp [spliceLoop, hs, hd]
  | succ n ih =>
    intro ctx ls ld hs hd
    rcases List.eq_nil_or_concat ls with hnil | ⟨L, b, hcat⟩
    · subst hnil
      have hpop := listPop_tail_nil ctx srckey hs
      simp [spliceLoop, hpop, hs, hd]
    · rw [List.concat_eq_append] at hcat
      subst hcat
      obtain ⟨hp2, hpdb, hprep⟩ := listPop_tail_concat ctx srckey L b hws hs
      have hd1 : HoldsList (RedisModule_ListPop ctx srckey REDISMODULE_LIST_TAIL).1.db
          dstkey.name ld := by
        rw [hpdb]
        exact holdsList_put_other _ _ _ _ _ (Ne.symm hne) hd
      obtain ⟨hqdb, hqrep⟩ := listPush_head
        (RedisModule_ListPop ctx srckey REDISMODULE_LIST_TAIL).1 dstkey ld b hwd hd1
      rw [spliceLoop]
      simp only [hp2]
      have hdb3 : (RedisModule_FreeString (RedisModule_ListPush
            (RedisModule_ListPop ctx srckey REDISMODULE_LIST_TAIL).1 dstkey
            REDISMODULE_LIST_HEAD b).1 b).db
          = (ctx.db.put srckey.name (listOrEmpty L)).put dstkey.name
              (some (Value.list (b :: ld))) := by
        simp [RedisModule_FreeString, RedisModuleCtx.log, hqdb, hpdb]
      have hrep3 : (RedisModule_FreeString (RedisModule_ListPush
            (RedisModule_ListPop ctx srckey REDISMODULE_LIST_TAIL).1 dstkey
            REDISMODULE_LIST_HEAD b).1 b).replies = ctx.replies := by
        simp [RedisModule_FreeString, RedisModuleCtx.log, hqrep, hprep]
      have hs2 : HoldsList (RedisModule_FreeString (RedisModule_ListPush
            (RedisModule_ListPop ctx srckey REDISMODULE_LIST_TAIL).1 dstkey
            REDISMODULE_LIST_HEAD b).1 b).db srckey.name L := by
        rw [hdb3]
        exact holdsList_put_other _ _ _ _ _ hne (holdsList_listOrEmpty _ _ _)
      have hd2 : HoldsList (RedisModule_FreeString (RedisModule_ListPush
            (RedisModule_ListPop ctx srckey REDISMODULE_LIST_TAIL).1 dstkey
            REDISMODULE_LIST_HEAD b).1 b).db dstkey.name (b :: ld) := by
        rw [hdb3]
        exact Or.inl (put_same _ _ _)
      obtain ⟨i1, i2, i3, i4⟩ := ih _ L (b :: ld) hs2 hd2
      have hlen : (L ++ [b]).length - min (n + 1) (L ++ [b]).length
          = L.length - min n L.length := by
        simp only [List.length_append, List.length_singleton]
        omega
      have hle : L.length - min n L.length ≤ L.length := Nat.sub_le _ _
      refine ⟨?_, ?_, ?_, ?_⟩
      · rw [hlen, List.take_append_of_le_length hle]
        exact i1
      · rw [hlen, List.drop_append_of_le_length hle]
        simpa using i2
      · intro k hk1 hk2
        rw [i3 k hk1 hk2, hdb3, put_other _ _ _ _ hk2, put_other _ _ _ _ hk1]
      · rw [i4, hrep3]

theorem toNat_max_zero (count : Int) : (max count 0).toNat = count.toNat := by
  rcases le_total count 0 with hc | hc
  · rw [max_eq_right hc]
    simp [Int.toNat_of_nonpos hc]
  · rw [max_eq_left hc]

/-- C2: for distinct keys `src` and `dst`, each a list or empty, and a parsed
`count`, `HelloListSplice_RedisCommand` moves `m = min(max(count,0), length(src))`
elements: `src` keeps its first `length(src) - m` elements, `dst` becomes the
last `m` elements of the old `src` in their order followed by the old `dst`,
the reply is the integer `length(src) - m`, and no other key changes. -/
theorem HelloListSplice_moves (h : Host) (ctx : RedisModuleCtx)
    (cmd src dst cnt : RedisModuleString) (count : Int) (ls ld : List RedisModuleString)
    (hne : src ≠ dst) (hs : HoldsList ctx.db src ls) (hd : HoldsList ctx.db dst ld)
    (hcount : h.stringToLongLong cnt = some count) :
    HoldsList (HelloListSplice_RedisCommand h ctx [cmd, src, dst, cnt]).1.db src
      (ls.take (ls.length - spliceMoved count ls.length)) ∧
    HoldsList (HelloListSplice_RedisCommand h ctx [cmd, src, dst, cnt]).1.db dst
      (ls.drop (ls.length - spliceMoved count ls.length) ++ ld) ∧
    (HelloListSplice_RedisCommand h ctx [cmd, src, dst, cnt]).1.replies
      = ctx.replies ++ [Reply.longLong ((ls.length : Int) - (spliceMoved count ls.length : Int))] ∧
    (HelloListSplice_RedisCommand h ctx [cmd, src, dst, cnt]).2 = REDISMODULE_OK ∧
    (∀ k, k ≠ src → k ≠ dst →
      (HelloListSplice_RedisCommand h ctx [cmd, src, dst, cnt]).1.db k = ctx.db k) := by
  have hspec := spliceLoop_spec
    (RedisModule_OpenKey ctx src (REDISMODULE_READ ||| REDISMODULE_WRITE)).2
    (RedisModule_OpenKey (RedisModule_OpenKey ctx src (REDISMODULE_READ ||| REDISMODULE_WRITE)).1
      dst (REDISMODULE_READ ||| REDISMODULE_WRITE)).2
    (by simpa [RedisModule_OpenKey] using hne) (openKey_writable _ _) (openKey_writable _ _)
    count.toNat
    (RedisModule_OpenKey (RedisModule_OpenKey ctx src (REDISMODULE_READ ||| REDISMODULE_WRITE)).1
      dst (REDISMODULE_READ ||| REDISMODULE_WRITE)).1
    ls ld
    (by simpa [RedisModule_OpenKey, RedisModuleCtx.log] using hs)
    (by simpa [RedisModule_OpenKey, RedisModuleCtx.log] using hd)
  obtain ⟨s1, s2, s3, s4⟩ := hspec
  have hlen := holdsList_length _ _ _ s1
  have hts := holdsList_keyType _ _ _ hs
  have htd := holdsList_keyType _ _ _ hd
  have hcond : ¬ ((keyTypeOf (ctx.db src) ≠ REDISMODULE_KEYTYPE_LIST ∧
        keyTypeOf (ctx.db src) ≠ REDISMODULE_KEYTYPE_EMPTY) ∨
       (keyTypeOf (ctx.db dst) ≠ REDISMODULE_KEYTYPE_LIST ∧
        keyTypeOf (ctx.db dst) ≠ REDISMODULE_KEYTYPE_EMPTY)) := by
    rcases hts with a | a <;> rcases htd with b | b <;> simp [a, b]
  have hm : spliceMoved count ls.length = min count.toNat ls.length := by
    simp [spliceMoved, toNat_max_zero]
  have hle : min count.toNat ls.length ≤ ls.length := Nat.min_le_right _ _
  simp only [HelloListSplice_RedisCommand, RedisModule_KeyType]
  simp only [RedisModule_OpenKey, RedisModuleCtx.log] at hcond s1 s2 s3 s4 hlen ⊢
  rw [if_neg hcond]
  simp only [hcount]
  rw [hm]
  refine ⟨?_, ?_, ?_, ?_, ?_⟩
  · simpa [RedisModule_ReplyWithLongLong, RedisModule_CloseKey, RedisModuleCtx.log,
      RedisModuleCtx.reply] using s1
  · simpa [RedisModule_ReplyWithLongLong, RedisModule_CloseKey, RedisModuleCtx.log,
      RedisModuleCtx.reply] using s2
  · simp only [RedisModule_ReplyWithLongLong, RedisModule_CloseKey, RedisModuleCtx.log,
      RedisModuleCtx.reply]
    rw [s4, hlen, List.length_take, Nat.min_eq_left (Nat.sub_le _ _), Nat.cast_sub hle]
  · trivial
  · intro k hk1 hk2
    simpa [RedisModule_ReplyWithLongLong, RedisModule_CloseKey, RedisModuleCtx.log,
      RedisModuleCtx.reply] using s3 k hk1 hk2

/-- C3: when the `src` key or the `dst` key holds a value that is neither a
list nor empty, `HelloListSplice_RedisCommand` replies with the wrong-type
error and the keyspace is exactly what it was: the type test of both handles
comes before the first pop or push. -/
theorem HelloListSplice_wrongtype (h : Host) (ctx : RedisModuleCtx)
    (cmd src dst cnt : RedisModuleString)
    (hbad : (keyTypeOf (ctx.db src) ≠ REDISMODULE_KEYTYPE_LIST ∧
        keyTypeOf (ctx.db src) ≠ REDISMODULE_KEYTYPE_EMPTY) ∨
       (keyTypeOf (ctx.db dst) ≠ REDISMODULE_KEYTYPE_LIST ∧
        keyTypeOf (ctx.db dst) ≠ REDISMODULE_KEYTYPE_EMPTY)) :
    (HelloListSplice_RedisCommand h ctx [cmd, src, dst, cnt]).1.replies
      = ctx.replies ++ [Reply.error REDISMODULE_ERRORMSG_WRONGTYPE] ∧
    (HelloListSplice_RedisCommand h ctx [cmd, src, dst, cnt]).1.db = ctx.db := by
  simp only [HelloListSplice_RedisCommand, RedisModule_KeyType]
  simp only [RedisModule_OpenKey, RedisModuleCtx.log]
  rw [if_pos hbad]
  simp [RedisModule_ReplyWithError, RedisModule_CloseKey, RedisModuleCtx.log,
    RedisModuleCtx.reply]

theorem HelloPushNative_step (db : Keyspace) (sel : Int) (cmd key e : RedisModuleString)
    (l : List RedisModuleString) (hl : HoldsList db key l) :
    (HelloPushNative_RedisCommand (RedisModuleCtx.fresh db sel) [cmd, key, e]).1.db
      = db.put key (some (Value.list (l ++ [e]))) ∧
    (HelloPushNative_RedisCommand (RedisModuleCtx.fresh db sel) [cmd, key, e]).1.replies
      = [Reply.longLong ((l.length : Int) + 1)] := by
  have hw := openKey_writable (RedisModuleCtx.fresh db sel) key
  have hl1 : HoldsList
      (RedisModule_OpenKey (RedisModuleCtx.fresh db sel) key
        (REDISMODULE_READ ||| REDISMODULE_WRITE)).1.db
      (RedisModule_OpenKey (RedisModuleCtx.fresh db sel) key
        (REDISMODULE_READ ||| REDISMODULE_WRITE)).2.name l := by
    simpa [RedisModule_OpenKey, RedisModuleCtx.log, RedisModuleCtx.fresh] using hl
  obtain ⟨p1, p2, _⟩ := listPush_tail _ _ l e hw hl1
  have hl2 : HoldsList
      (RedisModule_ListPush
        (RedisModule_OpenKey (RedisModuleCtx.fresh db sel) key
          (REDISMODULE_READ ||| REDISMODULE_WRITE)).1
        (RedisModule_OpenKey (RedisModuleCtx.fresh db sel) key
          (REDISMODULE_READ ||| REDISMODULE_WRITE)).2 REDISMODULE_LIST_TAIL e).1.db
      (RedisModule_OpenKey (RedisModuleCtx.fresh db sel) key
        (REDISMODULE_READ ||| REDISMODULE_WRITE)).2.name (l ++ [e]) := by
    rw [p1]
    exact Or.inl (put_same _ _ _)
  have hlen := holdsList_length _ _ _ hl2
  simp only [HelloPushNative_RedisCommand, RedisModule_ReplyWithLongLong, RedisModule_CloseKey,
    RedisModuleCtx.log, RedisModuleCtx.reply]
  constructor
  · rw [p1]
    simp [RedisModule_OpenKey, RedisModuleCtx.log, RedisModuleCtx.fresh]
  · rw [p2, hlen]
    simp [RedisModule_OpenKey, RedisModuleCtx.log, RedisModuleCtx.fresh]

theorem pushNativeSeq_spec (cmd key : RedisModuleString) (sel : Int) :
    ∀ (es : List RedisModuleString) (db : Keyspace) (l : List RedisModuleString),
      HoldsList db key l →
      HoldsList (pushNativeSeq cmd key sel es db).1 key (l ++ es) ∧
      (es ≠ [] → (pushNativeSeq cmd key sel es db).1 key = some (Value.list (l ++ es))) ∧
      (pushNativeSeq cmd key sel es db).2
        = (List.range es.length).map (fun (k : Nat) => [Reply.longLong (((l.length + k : Nat) : Int) + 1)]) ∧
      (∀ k, k ≠ key → (pushNativeSeq cmd key sel es db).1 k = db k) := by
  intro es
  induction es with
  | nil =>
    intro db l hl
    simp [pushNativeSeq, hl]
  | cons e es ih =>
    intro db l hl
    obtain ⟨s1, s2⟩ := HelloPushNative_step db sel cmd key e l hl
    have hl1 : HoldsList
        (HelloPushNative_RedisCommand (RedisModuleCtx.fresh db sel) [cmd, key, e]).1.db key
        (l ++ [e]) := by
      rw [s1]
      exact Or.inl (put_same _ _ _)
    obtain ⟨i1, i2, i3, i4⟩ := ih _ (l ++ [e]) hl1
    have happ : l ++ [e] ++ es = l ++ e :: es := by simp
    simp only [pushNativeSeq]
    refine ⟨?_, ?_, ?_, ?_⟩
    · rw [← happ]; exact i1
    · intro _
      by_cases hes : es = []
      · subst hes
        simp only [pushNativeSeq, s1]
        rw [put_same]
      · rw [← happ]; exact i2 hes
    · rw [i3, s2, List.length_cons, List.range_succ_eq_map, List.map_cons, List.map_map]
      simp only [Nat.add_zero, List.cons.injEq, true_and]
      apply List.map_congr_left
      intro k _
      simp only [Function.comp, List.length_append, List.length_singleton]
      congr 2
      push_cast
      omega
    · intro k hk
      rw [i4 k hk, s1, put_other _ _ _ _ hk]

/-- C5 (the code at the failing input): on a key holding the string `abc`,
`HelloPushNative_RedisCommand` leaves the value unchanged but replies with the
integer `3` (the length of the string) and status `REDISMODULE_OK`, not with
the wrong-type error. -/
theorem HelloPushNative_wrongtype_integer_reply :
    keyTypeOf (stringDb (bytes "k")) = REDISMODULE_KEYTYPE_STRING ∧
    (HelloPushNative_RedisCommand (RedisModuleCtx.fresh stringDb 0)
      [bytes "hello.push.native", bytes "k", bytes "x"]).1.replies = [Reply.longLong 3] ∧
    (HelloPushNative_RedisCommand (RedisModuleCtx.fresh stringDb 0)
      [bytes "hello.push.native", bytes "k", bytes "x"]).1.db (bytes "k")
      = some (Value.string (bytes "abc")) ∧
    (HelloPushNative_RedisCommand (RedisModuleCtx.fresh stringDb 0)
      [bytes "hello.push.native", bytes "k", bytes "x"]).2 = REDISMODULE_OK := by
  refine ⟨by decide, ?_, by decide, by decide⟩
  rfl

/-- C6: starting from an empty key, one `HelloPushNative_RedisCommand`
invocation per element leaves the key holding the list of the pushed
elements in push order (so of length `N`), and the invocation number `k`
(counted from `0`) replies with the integer `k + 1`, the running length. -/
theorem HelloPushNative_running_length (cmd key : RedisModuleString) (sel : Int)
    (es : List RedisModuleString) (db : Keyspace) (hempty : db key = none) :
    HoldsList (pushNativeSeq cmd key sel es db).1 key es ∧
    (es ≠ [] → (pushNativeSeq cmd key sel es db).1 key = some (Value.list es)) ∧
    (pushNativeSeq cmd key sel es db).2
      = (List.range es.length).map (fun (k : Nat) => [Reply.longLong ((k : Int) + 1)]) ∧
    (∀ k, k ≠ key → (pushNativeSeq cmd key sel es db).1 k = db k) := by
  have hspec := pushNativeSeq_spec cmd key sel es db [] (Or.inr ⟨hempty, rfl⟩)
  simpa using hspec

/-- C6 witness: pushing `a, b, c` on an empty key. -/
theorem HelloPushNative_running_length_witness :
    (pushNativeSeq (bytes "hello.push.native") (bytes "k") 0
        [bytes "a", bytes "b", bytes "c"] emptyDb).1 (bytes "k")
      = some (Value.list [bytes "a", bytes "b", bytes "c"]) ∧
    (pushNativeSeq (bytes "hello.push.native") (bytes "k") 0
        [bytes "a", bytes "b", bytes "c"] emptyDb).2
      = [[Reply.longLong 1], [Reply.longLong 2], [Reply.longLong 3]] :=
  have w := HelloPushNative_running_length (bytes "hello.push.native") (bytes "k") 0
    [bytes "a", bytes "b", bytes "c"] emptyDb rfl
  ⟨w.2.1 (by decide), w.2.2.1⟩

/-- C2 witness: `src = [a,b,c]`, `dst` empty, `count = 5` gives `src` empty,
`dst = [a,b,c]` and the reply `0`. -/
theorem HelloListSplice_moves_witness :
    HoldsList (HelloListSplice_RedisCommand sampleHost (RedisModuleCtx.fresh spliceDb 0)
      [bytes "hello.list.splice", bytes "src", bytes "dst", bytes "5"]).1.db (bytes "src") [] ∧
    HoldsList (HelloListSplice_RedisCommand sampleHost (RedisModuleCtx.fresh spliceDb 0)
      [bytes "hello.list.splice", bytes "src", bytes "dst", bytes "5"]).1.db (bytes "dst")
      [bytes "a", bytes "b", bytes "c"] ∧
    (HelloListSplice_RedisCommand sampleHost (RedisModuleCtx.fresh spliceDb 0)
      [bytes "hello.list.splice", bytes "src", bytes "dst", bytes "5"]).1.replies
      = [Reply.longLong 0] :=
  have w := HelloListSplice_moves sampleHost (RedisModuleCtx.fresh spliceDb 0)
    (bytes "hello.list.splice") (bytes "src") (bytes "dst") (bytes "5") 5
    [bytes "a", bytes "b", bytes "c"] [] (by decide) (Or.inl (by decide))
    (Or.inr ⟨by decide, rfl⟩) (by decide)
  ⟨w.1, w.2.1, w.2.2.1⟩

/-- C3 witness: `dst` holds a string. -/
theorem HelloListSplice_wrongtype_witness :
    (HelloListSplice_RedisCommand sampleHost (RedisModuleCtx.fresh stringDb 0)
      [bytes "hello.list.splice", bytes "src", bytes "k", bytes "5"]).1.replies
      = [Reply.error REDISMODULE_ERRORMSG_WRONGTYPE] ∧
    (HelloListSplice_RedisCommand sampleHost (RedisModuleCtx.fresh stringDb 0)
      [bytes "hello.list.splice", bytes "src", bytes "k", bytes "5"]).1.db = stringDb :=
  HelloListSplice_wrongtype sampleHost (RedisModuleCtx.fresh stringDb 0)
    (bytes "hello.list.splice") (bytes "src") (bytes "k") (bytes "5")
    (Or.inr ⟨by decide, by decide⟩)

theorem put_put (db : Keyspace) (k : RedisModuleString) (v w : Option Value) :
    (db.put k v).put k w = db.put k w := by
  funext k1
  by_cases hk : k1 = k <;> simp [Keyspace.put, hk]

theorem put_self (db : Keyspace) (k : RedisModuleString) (v : Option Value) (hv : db k = v) :
    db.put k v = db := by
  funext k1
  by_cases hk : k1 = k
  · simp [Keyspace.put, hk, hv]
  · simp [Keyspace.put, hk]

theorem toggle_step (c : Nat) :
    (if isupper c = true then tolower c else toupper c) = toggledByte c := by
  unfold isupper tolower toupper islower toggledByte isupper
  by_cases h1 : 65 ≤ c <;> by_cases h2 : c ≤ 90 <;> simp [h1, h2]

theorem toggleCaseLoop_spec (key : RedisModuleKey) :
    ∀ (rest pre : List Nat) (ctx : RedisModuleCtx),
      ctx.db key.name = some (Value.string (pre ++ rest)) →
      toggleCaseLoop key rest.length pre.length ctx
        = { ctx with
            db := ctx.db.put key.name (some (Value.string (pre ++ rest.map toggledByte))) } := by
  intro rest
  induction rest with
  | nil =>
    intro pre ctx hdb
    simp only [List.length_nil, toggleCaseLoop, List.map_nil]
    rw [put_self _ _ _ hdb]
  | cons c rest ih =>
    intro pre ctx hdb
    have hread : dmaRead ctx key pre.length = c := by
      simp [dmaRead, hdb, List.getElem_append_right (le_refl pre.length)]
    have hwrite : ∀ c1, dmaWrite ctx key pre.length c1
        = { ctx with db := ctx.db.put key.name (some (Value.string ((pre ++ [c1]) ++ rest))) } := by
      intro c1
      simp [dmaWrite, hdb]
    simp only [List.length_cons, toggleCaseLoop, hread]
    have hite : (if isupper c = true then dmaWrite ctx key pre.length (tolower c)
          else dmaWrite ctx key pre.length (toupper c))
        = dmaWrite ctx key pre.length (toggledByte c) := by
      rw [← toggle_step c]
      split <;> rfl
    rw [hite, hwrite]
    have hlen : pre.length + 1 = (pre ++ [toggledByte c]).length := by simp
    rw [hlen, ih (pre ++ [toggledByte c]) _ (by simp [put_same])]
    simp [put_put]

/-- C7: on a key holding a string `s` of ASCII bytes
`HelloToggleCase_RedisCommand` replaces `s` in place by the string of the same
length in which every uppercase letter is lowercased, every lowercase letter
uppercased and every other byte unchanged; on an absent key the keyspace is
unchanged; in both cases it replies the simple string `OK`, returns
`REDISMODULE_OK` and the invocation propagates as the original command,
verbatim.  (The bound `b < 128` is where the model of `isupper`, `tolower`
and `toupper` stands for the C functions.) -/
theorem HelloToggleCase_toggles (ctx : RedisModuleCtx) (cmd key : RedisModuleString) :
    (∀ s : List Nat, ctx.db key = some (Value.string s) → (∀ b ∈ s, b < 128) →
      (HelloToggleCase_RedisCommand ctx [cmd, key]).1.db
        = ctx.db.put key (some (Value.string (s.map toggledByte))) ∧
      (s.map toggledByte).length = s.length) ∧
    (ctx.db key = none → (HelloToggleCase_RedisCommand ctx [cmd, key]).1.db = ctx.db) ∧
    ((∃ s, ctx.db key = some (Value.string s)) ∨ ctx.db key = none →
      (HelloToggleCase_RedisCommand ctx [cmd, key]).1.replies
        = ctx.replies ++ [Reply.simpleString "OK"] ∧
      (HelloToggleCase_RedisCommand ctx [cmd, key]).2 = REDISMODULE_OK ∧
      propagation (HelloToggleCase_RedisCommand ctx [cmd, key]).1 [cmd, key]
        = Propagation.verbatim [cmd, key]) := by
  have hloop : ∀ s : List Nat, ctx.db key = some (Value.string s) →
      HelloToggleCase_RedisCommand ctx [cmd, key]
        = ((RedisModule_ReplicateVerbatim (RedisModule_ReplyWithSimpleString
            (RedisModule_CloseKey
              { (RedisModule_OpenKey ctx key (REDISMODULE_READ ||| REDISMODULE_WRITE)).1 with
                db := ctx.db.put key (some (Value.string (s.map toggledByte))) }
              (RedisModule_OpenKey ctx key (REDISMODULE_READ ||| REDISMODULE_WRITE)).2)
            "OK").1).1, REDISMODULE_OK) := by
    intro s hs
    have hspec := toggleCaseLoop_spec
      (RedisModule_OpenKey ctx key (REDISMODULE_READ ||| REDISMODULE_WRITE)).2 s []
      (RedisModule_OpenKey ctx key (REDISMODULE_READ ||| REDISMODULE_WRITE)).1
      (by simpa [RedisModule_OpenKey, RedisModuleCtx.log] using hs)
    simp only [List.length_nil, List.nil_append] at hspec
    simp only [HelloToggleCase_RedisCommand, RedisModule_KeyType, RedisModule_StringDMA]
    have hk : (RedisModule_OpenKey ctx key (REDISMODULE_READ ||| REDISMODULE_WRITE)).1.db
        (RedisModule_OpenKey ctx key (REDISMODULE_READ ||| REDISMODULE_WRITE)).2.name
        = some (Value.string s) := by
      simpa [RedisModule_OpenKey, RedisModuleCtx.log] using hs
    rw [hk]
    simp only [keyTypeOf, REDISMODULE_KEYTYPE_STRING, REDISMODULE_KEYTYPE_EMPTY]
    rw [hspec]
    simp [RedisModule_OpenKey, RedisModuleCtx.log]
  have hnone : ctx.db key = none →
      HelloToggleCase_RedisCommand ctx [cmd, key]
        = ((RedisModule_ReplicateVerbatim (RedisModule_ReplyWithSimpleString
            (RedisModule_CloseKey
              (RedisModule_OpenKey ctx key (REDISMODULE_READ ||| REDISMODULE_WRITE)).1
              (RedisModule_OpenKey ctx key (REDISMODULE_READ ||| REDISMODULE_WRITE)).2)
            "OK").1).1, REDISMODULE_OK) := by
    intro hs
    simp only [HelloToggleCase_RedisCommand, RedisModule_KeyType]
    have hk : (RedisModule_OpenKey ctx key (REDISMODULE_READ ||| REDISMODULE_WRITE)).1.db
        (RedisModule_OpenKey ctx key (REDISMODULE_READ ||| REDISMODULE_WRITE)).2.name
        = none := by
      simpa [RedisModule_OpenKey, RedisModuleCtx.log] using hs
    rw [hk]
    simp [keyTypeOf, REDISMODULE_KEYTYPE_STRING, REDISMODULE_KEYTYPE_EMPTY]
  refine ⟨?_, ?_, ?_⟩
  · intro s hs _
    rw [hloop s hs]
    simp [RedisModule_ReplicateVerbatim, RedisModule_ReplyWithSimpleString,
      RedisModule_CloseKey, RedisModule_OpenKey, RedisModuleCtx.log, RedisModuleCtx.reply]
  · intro hs
    rw [hnone hs]
    simp [RedisModule_ReplicateVerbatim, RedisModule_ReplyWithSimpleString,
      RedisModule_CloseKey, RedisModule_OpenKey, RedisModuleCtx.log, RedisModuleCtx.reply]
  · rintro (⟨s, hs⟩ | hs)
    · rw [hloop s hs]
      simp [RedisModule_ReplicateVerbatim, RedisModule_ReplyWithSimpleString,
        RedisModule_CloseKey, RedisModule_OpenKey, RedisModuleCtx.log, RedisModuleCtx.reply,
        propagation]
    · rw [hnone hs]
      simp [RedisModule_ReplicateVerbatim, RedisModule_ReplyWithSimpleString,
        RedisModule_CloseKey, RedisModule_OpenKey, RedisModuleCtx.log, RedisModuleCtx.reply,
        propagation]

/-- C7 witness: `AbC123` becomes `aBc123`; an absent key stays absent. -/
theorem HelloToggleCase_toggles_witness :
    (HelloToggleCase_RedisCommand (RedisModuleCtx.fresh toggleDb 0)
        [bytes "hello.toggle.case", bytes "k"]).1.db (bytes "k")
      = some (Value.string (bytes "aBc123")) ∧
    (HelloToggleCase_RedisCommand (RedisModuleCtx.fresh emptyDb 0)
        [bytes "hello.toggle.case", bytes "k"]).1.db = emptyDb :=
  ⟨by
    have w := ((HelloToggleCase_toggles (RedisModuleCtx.fresh toggleDb 0)
      (bytes "hello.toggle.case") (bytes "k")).1 (bytes "AbC123") (by decide) (by decide)).1
    rw [w]
    decide,
   (HelloToggleCase_toggles (RedisModuleCtx.fresh emptyDb 0)
      (bytes "hello.toggle.case") (bytes "k")).2.1 rfl⟩

theorem randArrayLoop_spec (h : Host) :
    ∀ (n : Nat) (ctx : RedisModuleCtx),
      (randArrayLoop h n ctx).replies
        = ctx.replies ++ (List.range n).map (fun i => Reply.longLong (h.rand (ctx.randCalls + i))) ∧
      (randArrayLoop h n ctx).db = ctx.db := by
  intro n
  induction n with
  | zero => intro ctx; simp [randArrayLoop]
  | succ n ih =>
    intro ctx
    obtain ⟨i1, i2⟩ := ih
      (RedisModule_ReplyWithLongLong { ctx with randCalls := ctx.randCalls + 1 }
        (h.rand ctx.randCalls)).1
    simp only [randArrayLoop]
    rw [i1, i2]
    simp only [RedisModule_ReplyWithLongLong, RedisModuleCtx.reply, List.range_succ_eq_map,
      List.map_cons, List.map_map, List.append_assoc, List.singleton_append, Nat.add_zero,
      and_true]
    congr 2
    apply List.map_congr_left
    intro k _
    simp only [Function.comp]
    congr 2
    omega

theorem HelloRandArray_replies (h : Host) (ctx : RedisModuleCtx) (cmd a : RedisModuleString)
    (count : Int) (hparse : h.stringToLongLong a = some count) (hcount : 0 ≤ count) :
    (HelloRandArray_RedisCommand h ctx [cmd, a]).1.replies
      = ctx.replies ++ Reply.array (toCInt count) ::
          (List.range count.toNat).map (fun i => Reply.longLong (h.rand (ctx.randCalls + i))) := by
  have hneg : ¬ count < 0 := not_lt.mpr hcount
  simp only [HelloRandArray_RedisCommand, hparse, if_neg hneg]
  rw [(randArrayLoop_spec h count.toNat _).1]
  simp [RedisModule_ReplyWithArray, RedisModuleCtx.reply]

theorem HelloRandArray_invalid (h : Host) (ctx : RedisModuleCtx) (cmd a : RedisModuleString)
    (hbad : h.stringToLongLong a = none ∨ ∃ count, h.stringToLongLong a = some count ∧ count < 0) :
    (HelloRandArray_RedisCommand h ctx [cmd, a]).1.replies
      = ctx.replies ++ [Reply.error "ERR invalid count"] := by
  rcases hbad with hn | ⟨count, hc, hneg⟩
  · simp [HelloRandArray_RedisCommand, hn, RedisModule_ReplyWithError, RedisModuleCtx.reply]
  · simp [HelloRandArray_RedisCommand, hc, hneg, RedisModule_ReplyWithError,
      RedisModuleCtx.reply]

theorem HelloRandArray_small_count (h : Host) (ctx : RedisModuleCtx) (cmd a : RedisModuleString)
    (count : Int) (hparse : h.stringToLongLong a = some count) (hcount : 0 ≤ count)
    (hsmall : count < 2 ^ 31) :
    ∃ eles : List Int, eles.length = count.toNat ∧
      (HelloRandArray_RedisCommand h ctx [cmd, a]).1.replies
        = ctx.replies ++ Reply.array count :: eles.map Reply.longLong := by
  refine ⟨(List.range count.toNat).map (fun i => h.rand (ctx.randCalls + i)), by simp, ?_⟩
  rw [HelloRandArray_replies h ctx cmd a count hparse hcount]
  have hc : toCInt count = count := by
    unfold toCInt
    omega
  rw [hc, List.map_map]
  rfl

/-- C9 (the code at the failing input): for the parsed count `2147483648` the
`int` handed to `RedisModule_ReplyWithArray` is `-2147483648`, not the count,
and the header is followed by `2147483648` integer replies. -/
theorem HelloRandArray_declared_length_wraps :
    sampleHost.stringToLongLong (bytes "2147483648") = some 2147483648 ∧
    (HelloRandArray_RedisCommand sampleHost (RedisModuleCtx.fresh emptyDb 0)
        [bytes "hello.rand.array", bytes "2147483648"]).1.replies.head?
      = some (Reply.array (-2147483648)) ∧
    (HelloRandArray_RedisCommand sampleHost (RedisModuleCtx.fresh emptyDb 0)
        [bytes "hello.rand.array", bytes "2147483648"]).1.replies.length = 2147483648 + 1 := by
  have hp : sampleHost.stringToLongLong (bytes "2147483648") = some 2147483648 := by decide
  have hr := HelloRandArray_replies sampleHost (RedisModuleCtx.fresh emptyDb 0)
    (bytes "hello.rand.array") (bytes "2147483648") 2147483648 hp (by decide)
  have hw : toCInt 2147483648 = -2147483648 := by decide
  have hn : (2147483648 : Int).toNat = 2147483648 := rfl
  refine ⟨hp, ?_, ?_⟩
  · rw [hr, hw]
    simp only [RedisModuleCtx.fresh, List.nil_append, List.head?_cons]
  · rw [hr, List.length_append, List.length_cons, List.length_map, List.length_range, hn]
    show 0 + (2147483648 + 1) = 2147483648 + 1
    exact Nat.zero_add _

/-- C10 (as stated, refuted): with both `INCR` calls modifying the dataset the
stream of `HelloRepl1_RedisCommand` is the envelope `INCR foo, INCR bar,
ECHO foo`, which is not the call order `ECHO foo, INCR foo, INCR bar`. -/
theorem HelloRepl1_stream_call_order_fails :
    propagation (HelloRepl1_RedisCommand dirtyHost (RedisModuleCtx.fresh emptyDb 0)
        [bytes "hello.repl1"]).1 [bytes "hello.repl1"]
      = Propagation.atomic [Command.mk "INCR" [CallArg.c "foo"],
          Command.mk "INCR" [CallArg.c "bar"], Command.mk "ECHO" [CallArg.c "foo"]] ∧
    propagation (HelloRepl1_RedisCommand dirtyHost (RedisModuleCtx.fresh emptyDb 0)
        [bytes "hello.repl1"]).1 [bytes "hello.repl1"]
      ≠ Propagation.atomic [Command.mk "ECHO" [CallArg.c "foo"],
          Command.mk "INCR" [CallArg.c "foo"], Command.mk "INCR" [CallArg.c "bar"]] := by
  constructor <;> decide

/-- C10 (amended): when both `INCR` calls modify the dataset, the replication
stream of one `HelloRepl1_RedisCommand` invocation is a single atomic envelope
of three entries, the two commands replicated by `RedisModule_Call` first, in
call order, then the one queued by `RedisModule_Replicate`:
`INCR foo`, `INCR bar`, `ECHO foo`. -/
theorem HelloRepl1_stream (h : Host) (db : Keyspace) (sel : Int)
    (argv : List RedisModuleString)
    (hfoo : (h.call db "INCR" [CallArg.c "foo"]).2.2 = true)
    (hbar : (h.call (h.call db "INCR" [CallArg.c "foo"]).2.1 "INCR" [CallArg.c "bar"]).2.2
      = true) :
    propagation (HelloRepl1_RedisCommand h (RedisModuleCtx.fresh db sel) argv).1 argv
      = Propagation.atomic [Command.mk "INCR" [CallArg.c "foo"],
          Command.mk "INCR" [CallArg.c "bar"], Command.mk "ECHO" [CallArg.c "foo"]] := by
  have hmod : replicateModifier "c!" = true := by decide
  simp [HelloRepl1_RedisCommand, RedisModule_Call, RedisModule_Replicate,
    RedisModule_AutoMemory, RedisModule_ReplyWithLongLong, RedisModuleCtx.reply,
    RedisModuleCtx.fresh, propagation, pendingEntries, hmod, hfoo, hbar]

/-- C10 witness: a host whose nested commands all modify the dataset. -/
theorem HelloRepl1_stream_witness :
    propagation (HelloRepl1_RedisCommand dirtyHost (RedisModuleCtx.fresh emptyDb 0)
        [bytes "hello.repl1"]).1 [bytes "hello.repl1"]
      = Propagation.atomic [Command.mk "INCR" [CallArg.c "foo"],
          Command.mk "INCR" [CallArg.c "bar"], Command.mk "ECHO" [CallArg.c "foo"]] :=
  HelloRepl1_stream dirtyHost emptyDb 0 [bytes "hello.repl1"] rfl rfl

theorem roundHalfEven_intCast (m : Int) : roundHalfEven (m : ℚ) = m := by
  simp [roundHalfEven]

theorem log_le_of_lt (q : ℚ) (e : Int) (hq : q ≠ 0) (h2 : |q| < 2 ^ (e + 1)) :
    Int.log 2 |q| ≤ e := by
  have h := (@Int.lt_zpow_iff_log_lt ℚ _ _ 2 (by norm_num) (e + 1) |q| (abs_pos.mpr hq)).mp
    (by simpa using h2)
  omega

theorem le_log_of_le (q : ℚ) (e : Int) (hq : q ≠ 0) (h1 : 2 ^ e ≤ |q|) :
    e ≤ Int.log 2 |q| :=
  (@Int.zpow_le_iff_le_log ℚ _ _ 2 (by norm_num) e |q| (abs_pos.mpr hq)).mp (by simpa using h1)

theorem Double.ulp_of_binade (q : ℚ) (e : Int) (hq : q ≠ 0) (h1 : 2 ^ e ≤ |q|)
    (h2 : |q| < 2 ^ (e + 1)) : Double.ulp q = 2 ^ (max e (-1022) - 52) := by
  rw [Double.ulp, le_antisymm (log_le_of_lt q e hq h2) (le_log_of_le q e hq h1)]

theorem Double.round_zero : Double.round 0 = Double.fin 0 := by
  simp [Double.round, roundHalfEven]
  norm_num

/-- Rounding leaves a binary64 value as it is. -/
theorem Double.round_of_isDouble (q : ℚ) (h : (Double.fin q).isDouble) :
    Double.round q = Double.fin q := by
  obtain ⟨e, m, he1, he2, hm, hq⟩ := h
  by_cases h0 : q = 0
  · rw [h0]; exact Double.round_zero
  · have h2pos : (0 : ℚ) < 2 := by norm_num
    have h2ne : (2 : ℚ) ≠ 0 := by norm_num
    have hm1 : |(m : ℚ)| < 2 ^ (53 : ℕ) := by exact_mod_cast hm
    have habs : |q| < 2 ^ (e + 1) := by
      have hsplit : (2 : ℚ) ^ (e + 1) = 2 ^ (53 : ℕ) * 2 ^ (e - 52) := by
        rw [← zpow_natCast, ← zpow_add₀ h2ne]
        congr 1
        omega
      rw [hq, abs_mul, abs_of_pos (zpow_pos h2pos (e - 52)), hsplit]
      exact mul_lt_mul_of_pos_right hm1 (zpow_pos h2pos (e - 52))
    have hlog := log_le_of_lt q e h0 habs
    obtain ⟨k, hk⟩ : ∃ k : ℤ, k = max (Int.log 2 |q|) (-1022) - 52 := ⟨_, rfl⟩
    have hulp : Double.ulp q = 2 ^ k := by rw [hk]; rfl
    have hke : k ≤ e - 52 := by
      have := max_le hlog he1
      omega
    obtain ⟨n, hn⟩ : ∃ n : ℕ, e - 52 = k + n := ⟨(e - 52 - k).toNat, by omega⟩
    have hq2 : q = ((m * 2 ^ n : ℤ) : ℚ) * 2 ^ k := by
      calc q = m * 2 ^ (e - 52) := hq
        _ = m * (2 ^ k * 2 ^ n) := by rw [hn, zpow_add₀ h2ne, zpow_natCast]
        _ = ((m * 2 ^ n : ℤ) : ℚ) * 2 ^ k := by push_cast; ring
    have hkne : (2 : ℚ) ^ k ≠ 0 := zpow_ne_zero _ h2ne
    have hdiv : q / Double.ulp q = ((m * 2 ^ n : ℤ) : ℚ) := by
      rw [hulp, div_eq_iff hkne]
      exact hq2
    have hv : (roundHalfEven (q / Double.ulp q) : ℚ) * Double.ulp q = q := by
      rw [hdiv, roundHalfEven_intCast, hulp]
      exact hq2.symm
    have hbig : (2 : ℚ) ^ (e + 1) ≤ 2 ^ 1024 := by
      have h1 : (2 : ℚ) ^ (e + 1) ≤ 2 ^ ((1024 : ℕ) : ℤ) :=
        zpow_le_zpow_right₀ (by norm_num) (by omega)
      rwa [zpow_natCast] at h1
    have hlt := lt_of_lt_of_le habs hbig
    have hq1 : ¬ (2 ^ 1024 ≤ q) := not_le.mpr (lt_of_le_of_lt (le_abs_self q) hlt)
    have hq3 : ¬ (q ≤ -(2 ^ 1024)) := by
      intro hc
      have := neg_abs_le q
      linarith
    simp only [Double.round, hv, hq1, hq3, if_false]

/-- An integer of magnitude below `2 ^ 53` is a binary64 value. -/
theorem Double.isDouble_int (n : Int) (hn : |n| < 2 ^ 53) :
    (Double.fin (n : ℚ)).isDouble :=
  ⟨52, n, by decide, by decide, hn, by simp⟩

/-- Addition is exact when the exact sum is a binary64 value. -/
theorem Double.add_exact (a b : ℚ) (h : (Double.fin (a + b)).isDouble) :
    (Double.fin a).add (Double.fin b) = Double.fin (a + b) :=
  Double.round_of_isDouble (a + b) h

/-- Adding a binary64 value to `0` gives that value. -/
theorem Double.zero_add (x : Double) (hx : x.isDouble) : (Double.fin 0).add x = x := by
  cases x with
  | fin q =>
    have h := Double.round_of_isDouble q hx
    simpa [Double.add] using h
  | _ => rfl

/-- Addition rounds to nearest, ties to even: `1 + 2 ^ 53` is `2 ^ 53`. -/
theorem Double.add_rounds :
    (Double.fin 1).add (Double.fin (2 ^ 53)) = Double.fin (2 ^ 53) := by
  have hu : Double.ulp (1 + 2 ^ 53) = 2 := by
    rw [Double.ulp_of_binade (1 + 2 ^ 53) 53 (by norm_num) (by norm_num [abs_of_pos])
      (by norm_num [abs_of_pos])]
    norm_num
  have hfl : ⌊((1 + 2 ^ 53 : ℚ) / 2)⌋ = 2 ^ 52 := by
    rw [Int.floor_eq_iff]
    constructor <;> norm_num
  have hr : roundHalfEven ((1 + 2 ^ 53 : ℚ) / 2) = 2 ^ 52 := by
    have hfr : Int.fract ((1 + 2 ^ 53 : ℚ) / 2) = 1 / 2 := by
      rw [Int.fract, hfl]
      norm_num
    simp only [roundHalfEven, hfr, hfl, lt_irrefl, if_false]
    norm_num
  show Double.round (1 + 2 ^ 53) = Double.fin (2 ^ 53)
  simp only [Double.round, hu, hr]
  norm_num

/-- Addition overflows to infinity: `2 ^ 1023 + 2 ^ 1023` is `+inf`. -/
theorem Double.add_overflows :
    (Double.fin (2 ^ 1023)).add (Double.fin (2 ^ 1023)) = Double.posInf := by
  have hq : (2 ^ 1023 + 2 ^ 1023 : ℚ) = 2 ^ (1024 : ℤ) := by norm_num
  have hu : Double.ulp (2 ^ 1023 + 2 ^ 1023) = 2 ^ (972 : ℤ) := by
    rw [hq, Double.ulp_of_binade (2 ^ (1024 : ℤ)) 1024 (by positivity)
      (by rw [abs_of_pos (by positivity)])
      (by rw [abs_of_pos (by positivity)]; exact zpow_lt_zpow_right₀ (by norm_num) (by norm_num))]
    norm_num
  have hd : (2 ^ 1023 + 2 ^ 1023 : ℚ) / 2 ^ (972 : ℤ) = ((2 ^ 52 : ℤ) : ℚ) := by
    rw [hq, ← zpow_sub₀ (by norm_num : (2 : ℚ) ≠ 0)]
    norm_num
  show Double.round (2 ^ 1023 + 2 ^ 1023) = Double.posInf
  have hv : ((2 ^ 52 : ℤ) : ℚ) * 2 ^ (972 : ℤ) = 2 ^ 1024 := by
    have h52 : ((2 ^ 52 : ℤ) : ℚ) = 2 ^ (52 : ℤ) := by norm_num
    rw [h52, ← zpow_add₀ (by norm_num : (2 : ℚ) ≠ 0), ← zpow_natCast (2 : ℚ) 1024]
    norm_num
  simp only [Double.round, hu, hd, roundHalfEven_intCast, hv, le_refl, if_true]

theorem roundHalfEven_between (x : ℚ) (a b : ℤ) (ha : (a : ℚ) ≤ x) (hb : x ≤ (b : ℚ)) :
    a ≤ roundHalfEven x ∧ roundHalfEven x ≤ b := by
  have hfl : a ≤ ⌊x⌋ := Int.le_floor.mpr ha
  have hfb : ⌊x⌋ ≤ b := Int.cast_le.mp (le_trans (Int.floor_le x) hb)
  have hstep : 0 < Int.fract x → ⌊x⌋ + 1 ≤ b := by
    intro hpos
    have hlt : ((⌊x⌋ : ℤ) : ℚ) < b := by
      have := Int.self_sub_floor x
      linarith
    have : ⌊x⌋ < b := by exact_mod_cast hlt
    omega
  unfold roundHalfEven
  split_ifs with h1 h2 h3
  · exact ⟨hfl, hfb⟩
  · exact ⟨by omega, hstep (by linarith)⟩
  · exact ⟨hfl, hfb⟩
  · exact ⟨by omega, hstep (by linarith [not_lt.mp h1])⟩

/-- Rounding gives a binary64 value. -/
theorem Double.round_isDouble (q : ℚ) : (Double.round q).isDouble := by
  by_cases h0 : q = 0
  · rw [h0, Double.round_zero]
    exact ⟨0, 0, by decide, by decide, by decide, by simp⟩
  have h2ne : (2 : ℚ) ≠ 0 := by norm_num
  have h2pos : (0 : ℚ) < 2 := by norm_num
  have hqpos : 0 < |q| := abs_pos.mpr h0
  obtain ⟨E, hE⟩ : ∃ E : ℤ, E = Int.log 2 |q| := ⟨_, rfl⟩
  have hE1 : (2 : ℚ) ^ E ≤ |q| := by
    have := @Int.zpow_log_le_self ℚ _ _ 2 |q| (by norm_num) hqpos
    rw [hE]
    simpa using this
  have hE2 : |q| < (2 : ℚ) ^ (E + 1) := by
    have := @Int.lt_zpow_succ_log_self ℚ _ _ 2 (by norm_num) |q|
    rw [hE]
    simpa using this
  obtain ⟨K, hK⟩ : ∃ K : ℤ, K = max E (-1022) := ⟨_, rfl⟩
  have hK1 : -1022 ≤ K := by rw [hK]; exact le_max_right _ _
  have hK2 : E ≤ K := by rw [hK]; exact le_max_left _ _
  have hK3 : K = E ∨ K = -1022 := by
    rw [hK]
    rcases max_choice E (-1022) with h | h
    · exact Or.inl h
    · exact Or.inr h
  obtain ⟨u, hu⟩ : ∃ u : ℚ, u = 2 ^ (K - 52) := ⟨_, rfl⟩
  have hulp : Double.ulp q = u := by rw [hu, hK, hE]; rfl
  have hupos : 0 < u := by rw [hu]; exact zpow_pos h2pos _
  have hu52 : (2 : ℚ) ^ (52 : ℕ) * u = 2 ^ K := by
    rw [hu, ← zpow_natCast, ← zpow_add₀ h2ne]
    congr 1
    omega
  have hu53 : (2 : ℚ) ^ (53 : ℕ) * u = 2 ^ (K + 1) := by
    rw [hu, ← zpow_natCast, ← zpow_add₀ h2ne]
    congr 1
    omega
  obtain ⟨x, hx⟩ : ∃ x : ℚ, x = q / u := ⟨_, rfl⟩
  have hxabs : |x| < 2 ^ (53 : ℕ) := by
    rw [hx, abs_div, abs_of_pos hupos, div_lt_iff₀ hupos, hu53]
    exact lt_of_lt_of_le hE2 (zpow_le_zpow_right₀ (by norm_num) (by omega))
  have hxlt := abs_lt.mp hxabs
  obtain ⟨M, hM⟩ : ∃ M : ℤ, M = roundHalfEven x := ⟨_, rfl⟩
  have hMb : -(2 ^ 53) ≤ M ∧ M ≤ 2 ^ 53 := by
    rw [hM]
    exact roundHalfEven_between x (-(2 ^ 53)) (2 ^ 53) (by push_cast; linarith)
      (by push_cast; linarith)
  have hnormal : K = E → (2 : ℚ) ^ (52 : ℕ) ≤ |(M : ℚ)| := by
    intro hKE
    have hx52 : (2 : ℚ) ^ (52 : ℕ) ≤ |x| := by
      rw [hx, abs_div, abs_of_pos hupos, le_div_iff₀ hupos, hu52, hKE]
      exact hE1
    rcases le_or_lt 0 x with hpos | hneg
    · rw [abs_of_nonneg hpos] at hx52
      have h1 := (roundHalfEven_between x (2 ^ 52) (2 ^ 53) (by push_cast; exact hx52)
        (by push_cast; linarith)).1
      rw [← hM] at h1
      have h2 : (2 : ℚ) ^ (52 : ℕ) ≤ (M : ℚ) := by exact_mod_cast h1
      exact le_trans h2 (le_abs_self _)
    · rw [abs_of_neg hneg] at hx52
      have h1 := (roundHalfEven_between x (-(2 ^ 53)) (-(2 ^ 52)) (by push_cast; linarith)
        (by push_cast; linarith)).2
      rw [← hM] at h1
      have h2 : (M : ℚ) ≤ -(2 : ℚ) ^ (52 : ℕ) := by exact_mod_cast h1
      have h3 := neg_le_abs (M : ℚ)
      linarith
  have hround : Double.round q
      = if 2 ^ 1024 ≤ (M : ℚ) * u then Double.posInf
        else if (M : ℚ) * u ≤ -(2 ^ 1024) then Double.negInf
        else Double.fin ((M : ℚ) * u) := by
    simp only [Double.round, hulp, ← hx, ← hM]
  rcases le_or_lt ((2 : ℚ) ^ 1024) ((M : ℚ) * u) with c0 | c0
  · rw [hround, if_pos c0]
    trivial
  have c1 : ¬ ((2 : ℚ) ^ 1024 ≤ (M : ℚ) * u) := not_le.mpr c0
  rcases le_or_lt ((M : ℚ) * u) (-(2 ^ 1024)) with c3 | c3
  · rw [hround, if_neg c1, if_pos c3]
    trivial
  have c2 : ¬ ((M : ℚ) * u ≤ -(2 ^ 1024)) := not_le.mpr c3
  rw [hround, if_neg c1, if_neg c2]
  · have hvabs : |(M : ℚ)| * u < 2 ^ (1024 : ℕ) := by
      have h1 : |(M : ℚ) * u| < 2 ^ 1024 := abs_lt.mpr ⟨not_le.mp c2, not_le.mp c1⟩
      rwa [abs_mul, abs_of_pos hupos] at h1
    have hpow : ∀ j : ℤ, 1024 ≤ j → (2 : ℚ) ^ (1024 : ℕ) ≤ 2 ^ j := by
      intro j hj
      rw [← zpow_natCast]
      exact zpow_le_zpow_right₀ (by norm_num) (by push_cast; omega)
    by_cases hM53 : |M| < 2 ^ 53
    · refine ⟨K, M, hK1, ?_, hM53, by rw [hu]⟩
      by_contra hcon
      have hKE : K = E := by
        rcases hK3 with h | h
        · exact h
        · omega
      have h52 := hnormal hKE
      have h3 : (2 : ℚ) ^ (1024 : ℕ) ≤ |(M : ℚ)| * u :=
        calc (2 : ℚ) ^ (1024 : ℕ) ≤ 2 ^ K := hpow K (by omega)
          _ = 2 ^ (52 : ℕ) * u := hu52.symm
          _ ≤ |(M : ℚ)| * u := mul_le_mul_of_nonneg_right h52 hupos.le
      linarith
    · have hMeq : |M| = 2 ^ 53 := le_antisymm (abs_le.mpr hMb) (not_lt.mp hM53)
      have hMq : |(M : ℚ)| = 2 ^ (53 : ℕ) := by exact_mod_cast hMeq
      have hK4 : K + 1 ≤ 1023 := by
        by_contra hcon
        have h3 : (2 : ℚ) ^ (1024 : ℕ) ≤ |(M : ℚ)| * u := by
          rw [hMq, hu53]
          exact hpow (K + 1) (by omega)
        linarith
      have hu1 : (2 : ℚ) ^ (K + 1 - 52) = 2 * u := by
        rw [hu, show K + 1 - 52 = (K - 52) + 1 by omega, zpow_add_one₀ h2ne]
        ring
      rcases (abs_eq (by norm_num : (0 : ℤ) ≤ 2 ^ 53)).mp hMeq with h | h
      · refine ⟨K + 1, 2 ^ 52, by omega, hK4, by decide, ?_⟩
        rw [hu1, h]
        push_cast
        ring
      · refine ⟨K + 1, -(2 ^ 52), by omega, hK4, by decide, ?_⟩
        rw [hu1, h]
        push_cast
        ring

/-- The sum of two doubles is a double. -/
theorem Double.add_isDouble (a b : Double) : (a.add b).isDouble := by
  cases a <;> cases b <;> first | trivial | exact Double.round_isDouble _
theorem foldl_add_exact :
    ∀ (l : List (ℚ × RedisModuleString)) (acc : ℚ),
      (∀ n, 0 < n → n ≤ l.length →
        (Double.fin (acc + ((l.take n).map Prod.fst).sum)).isDouble) →
      (l.map (fun e => (Double.fin e.1, e.2))).foldl (fun s e => s.add e.1) (Double.fin acc)
        = Double.fin (acc + (l.map Prod.fst).sum) := by
  intro l
  induction l with
  | nil => intro acc _; simp
  | cons x xs ih =>
    intro acc h
    have h1 : (Double.fin acc).add (Double.fin x.1) = Double.fin (acc + x.1) :=
      Double.add_exact acc x.1 (by simpa using h 1 (by decide) (by simp))
    have h2 : ∀ n, 0 < n → n ≤ xs.length →
        (Double.fin (acc + x.1 + ((xs.take n).map Prod.fst).sum)).isDouble := by
      intro n hn hle
      have := h (n + 1) (by omega) (by simpa using hle)
      simpa [add_assoc] using this
    simp only [List.map_cons, List.foldl_cons, h1, ih (acc + x.1) h2, List.sum_cons, add_assoc]

/-- The sum in doubles is the exact sum of the scores when every exact partial
sum is a binary64 value (sums of integers that stay below `2 ^ 53`, say). -/
theorem sumScores_exact (l : List (ℚ × RedisModuleString))
    (h : ∀ n, 0 < n → n ≤ l.length →
      (Double.fin (((l.take n).map Prod.fst).sum)).isDouble) :
    sumScores (l.map (fun e => (Double.fin e.1, e.2)))
      = Double.fin ((l.map Prod.fst).sum) := by
  have := foldl_add_exact l 0 (by simpa using h)
  simpa [sumScores] using this

/-- The sum in doubles is a double. -/
theorem sumScores_isDouble (l : List (Double × RedisModuleString)) :
    (sumScores l).isDouble := by
  unfold sumScores
  induction l using List.reverseRecOn with
  | nil => exact ⟨0, 0, by decide, by decide, by decide, by simp⟩
  | append_singleton xs x _ =>
    rw [List.foldl_append]
    exact Double.add_isDouble _ _

theorem dle_trans {a b c : Double} (hab : a.le b = true) (hbc : b.le c = true) :
    a.le c = true := by
  cases a <;> cases b <;> cases c <;> simp_all [Double.le]
  exact le_trans hab hbc

theorem takeWhile_eq_filter_sorted (hi : Double) :
    ∀ l : List (Double × RedisModuleString),
      l.Pairwise (fun x y => x.1.le y.1 = true) →
      l.takeWhile (fun e => e.1.le hi) = l.filter (fun e => e.1.le hi) := by
  intro l
  induction l with
  | nil => intro _; rfl
  | cons x l ih =>
    intro hs
    obtain ⟨hx, hl⟩ := List.pairwise_cons.mp hs
    by_cases hq : x.1.le hi = true
    · simp [List.takeWhile_cons, List.filter_cons, hq, ih hl]
    · have hnil : l.filter (fun e => e.1.le hi) = [] := by
        rw [List.filter_eq_nil_iff]
        intro y hy hyq
        exact hq (dle_trans (hx y hy) hyq)
      simp [List.takeWhile_cons, List.filter_cons, hq, hnil]

theorem cursor_run_eq_inRange (lo hi : Double) :
    ∀ l : List (Double × RedisModuleString),
      l.Pairwise (fun x y => x.1.le y.1 = true) →
      (l.drop (l.findIdx (fun e => lo.le e.1))).takeWhile (fun e => e.1.le hi)
        = inRange lo hi l := by
  intro l
  induction l with
  | nil => intro _; rfl
  | cons x l ih =>
    intro hs
    obtain ⟨hx, hl⟩ := List.pairwise_cons.mp hs
    by_cases hp : lo.le x.1 = true
    · have hall : ∀ e ∈ x :: l, (lo.le e.1 && e.1.le hi) = e.1.le hi := by
        intro e he
        rcases List.mem_cons.mp he with rfl | he1
        · simp [hp]
        · simp [dle_trans hp (hx e he1)]
      unfold inRange
      rw [List.filter_congr hall, ← takeWhile_eq_filter_sorted hi (x :: l) hs]
      simp [List.findIdx_cons, hp]
    · have hstep : inRange lo hi (x :: l) = inRange lo hi l := by
        simp [inRange, List.filter_cons, hp]
      rw [hstep, ← ih hl]
      simp [List.findIdx_cons, hp]

theorem getElem?_split {α : Type} :
    ∀ (l : List α) (i : Nat) (e : α), l[i]? = some e →
      l = l.take i ++ e :: l.drop (i + 1) ∧ (l.take i).length = i ∧
      l.drop i = e :: l.drop (i + 1) := by
  intro l
  induction l with
  | nil => intro i e h; simp at h
  | cons x l ih =>
    intro i e h
    cases i with
    | zero =>
      simp at h
      simp [h]
    | succ i =>
      simp at h
      obtain ⟨h1, h2, h3⟩ := ih i e h
      refine ⟨?_, ?_, ?_⟩
      · simp only [List.take_succ_cons, List.drop_succ_cons, List.cons_append]
        rw [← h1]
      · simp [h2]
      · simpa using h3

theorem getElem?_at_length {α : Type} (pre rest : List α) (e : α) :
    (pre ++ e :: rest)[pre.length]? = some e := by
  rw [List.getElem?_append_right (le_refl _)]
  simp

theorem getElem?_after_length {α : Type} (pre rest : List α) (e : α) :
    (pre ++ e :: rest)[pre.length + 1]? = rest.head? := by
  rw [List.getElem?_append_right (Nat.le_succ _)]
  cases rest <;> simp

theorem currentElement_at (ctx : RedisModuleCtx) (key : RedisModuleKey)
    (pre rest : List (Double × RedisModuleString)) (e : Double × RedisModuleString)
    (hdb : ctx.db key.name = some (Value.zset (pre ++ e :: rest)))
    (hzer : key.zer = false) (hcur : key.zcurrent = pre.length) :
    RedisModule_ZsetRangeCurrentElement ctx key = some (e.2, e.1) := by
  simp only [RedisModule_ZsetRangeCurrentElement, zsetOf, hdb, hcur, hzer,
    getElem?_at_length, Option.map_some', Bool.false_eq_true, if_false]

theorem rangeNext_at (ctx : RedisModuleCtx) (key : RedisModuleKey)
    (pre rest : List (Double × RedisModuleString)) (e : Double × RedisModuleString)
    (hdb : ctx.db key.name = some (Value.zset (pre ++ e :: rest)))
    (hzer : key.zer = false) (hcur : key.zcurrent = pre.length) :
    RedisModule_ZsetRangeNext ctx key
      = match rest.head? with
        | some e1 =>
          if key.zrs.belowEnd e1.1 then ({ key with zcurrent := key.zcurrent + 1 }, 1)
          else ({ key with zer := true }, 0)
        | none => ({ key with zer := true }, 0) := by
  simp only [RedisModule_ZsetRangeNext, zsetOf, hdb, hcur, hzer,
    getElem?_after_length, Bool.false_eq_true, if_false]

theorem zsumLoop_ended (fuel : Nat) (key : RedisModuleKey) (sum : Double)
    (ctx : RedisModuleCtx) (hfuel : 0 < fuel) (hzer : key.zer = true) :
    zsumLoop fuel key sum ctx = some (key, sum, ctx) := by
  cases fuel with
  | zero => omega
  | succ f => simp [zsumLoop, RedisModule_ZsetRangeEndReached, hzer]

theorem zsumLoop_step (f : Nat) (key : RedisModuleKey) (sum : Double) (ctx : RedisModuleCtx)
    (es : RedisModuleString × Double) (hzer : key.zer = false)
    (hcurr : RedisModule_ZsetRangeCurrentElement ctx key = some es) :
    zsumLoop (f + 1) key sum ctx
      = zsumLoop f (RedisModule_ZsetRangeNext (RedisModule_FreeString ctx es.1) key).1
          (sum.add es.2) (RedisModule_FreeString ctx es.1) := by
  rw [zsumLoop]
  simp [RedisModule_ZsetRangeEndReached, hzer, hcurr]

theorem zsumLoop_spec (zr : RedisModuleZsetRange) :
    ∀ (rest pre : List (Double × RedisModuleString)) (e : Double × RedisModuleString)
      (key : RedisModuleKey) (sum : Double) (ctx : RedisModuleCtx) (fuel : Nat),
      ctx.db key.name = some (Value.zset (pre ++ e :: rest)) →
      key.zrs = zr → key.zer = false → key.zcurrent = pre.length →
      zr.belowEnd e.1 = true →
      ((e :: rest).takeWhile (fun x => zr.belowEnd x.1)).length < fuel →
      ∃ key1, key1.name = key.name ∧
        zsumLoop fuel key sum ctx
          = some (key1,
              ((e :: rest).takeWhile (fun x => zr.belowEnd x.1)).foldl
                (fun s x => s.add x.1) sum,
              { ctx with
                trace := ctx.trace ++ List.map (fun x => Event.freeString x.2)
                  ((e :: rest).takeWhile (fun x => zr.belowEnd x.1)) }) := by
  intro rest
  induction rest with
  | nil =>
    intro pre e key sum ctx fuel hdb hzrs hzer hcur he hfuel
    simp only [List.takeWhile_cons, he, if_true, List.takeWhile_nil, List.length_singleton]
      at hfuel ⊢
    obtain ⟨f, rfl⟩ : ∃ f, fuel = f + 1 := ⟨fuel - 1, by omega⟩
    have hcurr : RedisModule_ZsetRangeCurrentElement ctx key = some (e.2, e.1) :=
      currentElement_at ctx key pre _ e hdb hzer hcur
    have hnext : RedisModule_ZsetRangeNext (RedisModule_FreeString ctx e.2) key
        = ({ key with zer := true }, 0) := by
      rw [rangeNext_at (RedisModule_FreeString ctx e.2) key pre _ e
        (by simpa [RedisModule_FreeString, RedisModuleCtx.log] using hdb) hzer hcur]
      rfl
    refine ⟨{ key with zer := true }, rfl, ?_⟩
    rw [zsumLoop_step f key sum ctx _ hzer hcurr, hnext]
    rw [zsumLoop_ended f _ _ _ (by omega) rfl]
    simp [RedisModule_FreeString, RedisModuleCtx.log]
  | cons e1 rest ih =>
    intro pre e key sum ctx fuel hdb hzrs hzer hcur he hfuel
    obtain ⟨f, rfl⟩ : ∃ f, fuel = f + 1 := ⟨fuel - 1, by
      simp only [List.takeWhile_cons, he, if_true, List.length_cons] at hfuel
      omega⟩
    have hcurr : RedisModule_ZsetRangeCurrentElement ctx key = some (e.2, e.1) :=
      currentElement_at ctx key pre _ e hdb hzer hcur
    by_cases he1 : zr.belowEnd e1.1 = true
    · have hnext : RedisModule_ZsetRangeNext (RedisModule_FreeString ctx e.2) key
          = ({ key with zcurrent := key.zcurrent + 1 }, 1) := by
        rw [rangeNext_at (RedisModule_FreeString ctx e.2) key pre _ e
          (by simpa [RedisModule_FreeString, RedisModuleCtx.log] using hdb) hzer hcur]
        simp [hzrs, he1]
      have hfuel1 : ((e1 :: rest).takeWhile (fun x => zr.belowEnd x.1)).length < f := by
        have hcons : (e :: e1 :: rest).takeWhile (fun x => zr.belowEnd x.1)
            = e :: (e1 :: rest).takeWhile (fun x => zr.belowEnd x.1) := by
          simp [List.takeWhile_cons, he]
        rw [hcons, List.length_cons] at hfuel
        omega
      obtain ⟨key1, hk1, hrun⟩ := ih (pre ++ [e]) e1 { key with zcurrent := key.zcurrent + 1 }
        (sum.add e.1) (RedisModule_FreeString ctx e.2) f
        (by simpa [RedisModule_FreeString, RedisModuleCtx.log] using hdb)
        hzrs hzer (by simp [hcur]) he1 hfuel1
      refine ⟨key1, hk1, ?_⟩
      rw [zsumLoop_step f key sum ctx _ hzer hcurr, hnext]
      rw [hrun]
      have hcons : (e :: e1 :: rest).takeWhile (fun x => zr.belowEnd x.1)
          = e :: (e1 :: rest).takeWhile (fun x => zr.belowEnd x.1) := by
        simp [List.takeWhile_cons, he]
      rw [hcons]
      simp [RedisModule_FreeString, RedisModuleCtx.log]
    · have hnext : RedisModule_ZsetRangeNext (RedisModule_FreeString ctx e.2) key
          = ({ key with zer := true }, 0) := by
        rw [rangeNext_at (RedisModule_FreeString ctx e.2) key pre _ e
          (by simpa [RedisModule_FreeString, RedisModuleCtx.log] using hdb) hzer hcur]
        simp [hzrs, he1]
      have hrun : (e :: e1 :: rest).takeWhile (fun x => zr.belowEnd x.1) = [e] := by
        simp [List.takeWhile_cons, he, he1]
      rw [hrun] at hfuel ⊢
      simp only [List.length_singleton] at hfuel
      refine ⟨{ key with zer := true }, rfl, ?_⟩
      rw [zsumLoop_step f key sum ctx _ hzer hcurr, hnext]
      rw [zsumLoop_ended f _ _ _ (by omega) rfl]
      simp [RedisModule_FreeString, RedisModuleCtx.log]

theorem firstInRange_loop (zr : RedisModuleZsetRange)
    (hty : zr.type = REDISMODULE_ZSET_RANGE_SCORE) (ctx : RedisModuleCtx)
    (key : RedisModuleKey) (z : List (Double × RedisModuleString)) (sum : Double) (fuel : Nat)
    (hdb : ctx.db key.name = some (Value.zset z)) (hfuel : z.length < fuel) :
    ∃ key1, key1.name = key.name ∧
      zsumLoop fuel (RedisModule_ZsetFirstInRange ctx key zr).1 sum ctx
        = some (key1,
            ((z.drop (z.findIdx (fun e => zr.aboveStart e.1))).takeWhile
              (fun x => zr.belowEnd x.1)).foldl (fun s x => s.add x.1) sum,
            { ctx with
              trace := ctx.trace ++ List.map (fun x => Event.freeString x.2)
                ((z.drop (z.findIdx (fun e => zr.aboveStart e.1))).takeWhile
                  (fun x => zr.belowEnd x.1)) }) := by
  have hpos : 0 < fuel := by omega
  cases hget : z[z.findIdx (fun e => zr.aboveStart e.1)]? with
  | none =>
    have hdrop : z.drop (z.findIdx (fun e => zr.aboveStart e.1)) = [] := by
      apply List.drop_eq_nil_of_le
      exact List.getElem?_eq_none_iff.mp hget
    have hfirst : (RedisModule_ZsetFirstInRange ctx key zr).1.zer = true ∧
        (RedisModule_ZsetFirstInRange ctx key zr).1.name = key.name := by
      simp only [RedisModule_ZsetFirstInRange, hdb, hty, hget, if_true, and_self]
    refine ⟨(RedisModule_ZsetFirstInRange ctx key zr).1, hfirst.2, ?_⟩
    rw [zsumLoop_ended fuel _ _ _ hpos hfirst.1, hdrop]
    simp
  | some e =>
    obtain ⟨h1, h2, h3⟩ := getElem?_split z _ e hget
    by_cases he : zr.belowEnd e.1 = true
    · have hfirst : RedisModule_ZsetFirstInRange ctx key zr
          = ({ key with zrs := zr, zcurrent := z.findIdx (fun e => zr.aboveStart e.1),
                        zer := false }, REDISMODULE_OK) := by
        simp only [RedisModule_ZsetFirstInRange, hdb, hty, hget, he, if_true]
      have hlen : ((e :: z.drop (z.findIdx (fun e => zr.aboveStart e.1) + 1)).takeWhile
          (fun x => zr.belowEnd x.1)).length < fuel := by
        have hle := (@List.takeWhile_sublist _
          (e :: z.drop (z.findIdx (fun e => zr.aboveStart e.1) + 1))
          (fun x : Double × RedisModuleString => zr.belowEnd x.1)).length_le
        have hz : (e :: z.drop (z.findIdx (fun e => zr.aboveStart e.1) + 1)).length
            ≤ z.length := by
          rw [← h3, List.length_drop]
          omega
        omega
      obtain ⟨key1, hk1, hrun⟩ := zsumLoop_spec zr
        (z.drop (z.findIdx (fun e => zr.aboveStart e.1) + 1))
        (z.take (z.findIdx (fun e => zr.aboveStart e.1))) e
        { key with zrs := zr, zcurrent := z.findIdx (fun e => zr.aboveStart e.1), zer := false }
        sum ctx fuel (by rw [← h1]; exact hdb) rfl rfl (by simp only [h2]) he hlen
      refine ⟨key1, hk1, ?_⟩
      rw [hfirst, h3]
      exact hrun
    · have hfirst : (RedisModule_ZsetFirstInRange ctx key zr).1.zer = true ∧
          (RedisModule_ZsetFirstInRange ctx key zr).1.name = key.name := by
        simp only [RedisModule_ZsetFirstInRange, hdb, hty, hget, he, if_true, and_self]
        simp
      refine ⟨(RedisModule_ZsetFirstInRange ctx key zr).1, hfirst.2, ?_⟩
      rw [zsumLoop_ended fuel _ _ _ hpos hfirst.1, h3]
      simp [List.takeWhile_cons, he]

theorem scoreRange_bounds (lo hi s : Double) (zr : RedisModuleZsetRange)
    (hf : zr.flags = 0) (hlo : zr.score_start = lo) (hhi : zr.score_end = hi) :
    zr.aboveStart s = lo.le s ∧ zr.belowEnd s = s.le hi := by
  simp [RedisModuleZsetRange.aboveStart, RedisModuleZsetRange.belowEnd, hf, hlo, hhi]

theorem HelloZsumRange_run (h : Host) (fuel : Nat) (ctx : RedisModuleCtx)
    (argv : List RedisModuleString) (key a b : RedisModuleString) (lo hi : Double)
    (z : List (Double × RedisModuleString))
    (ha1 : argv[1]? = some key) (ha2 : argv[2]? = some a) (ha3 : argv[3]? = some b)
    (hz : ctx.db key = some (Value.zset z))
    (hsorted : z.Pairwise (fun x y => x.1.le y.1 = true))
    (hlo : h.stringToDouble a = some lo) (hhi : h.stringToDouble b = some hi)
    (hfuel : z.length < fuel) :
    ∃ r, HelloZsumRange_RedisCommand h fuel ctx argv = some r ∧
      r.1.replies = ctx.replies ++ [Reply.double (sumScores (inRange lo hi z))] ∧
      r.1.trace = ctx.trace ++ [Event.openKey key]
        ++ (inRange lo hi z).map (fun e => Event.freeString e.2)
        ++ [Event.zsetRangeStop key, Event.closeKey key] ∧
      r.1.db = ctx.db ∧ r.2 = REDISMODULE_OK := by
  have hb := scoreRange_bounds lo hi
  obtain ⟨key1, hk1, hrun⟩ := firstInRange_loop
    { REDISMODULE_ZSET_RANGE_INIT with
      type := REDISMODULE_ZSET_RANGE_SCORE, score_start := lo, score_end := hi, flags := 0 }
    rfl
    (RedisModule_OpenKey ctx key (REDISMODULE_READ ||| REDISMODULE_WRITE)).1
    (RedisModule_OpenKey ctx key (REDISMODULE_READ ||| REDISMODULE_WRITE)).2
    z (Double.fin 0) fuel
    (by simpa [RedisModule_OpenKey, RedisModuleCtx.log] using hz) hfuel
  have hp1 : (fun e : Double × RedisModuleString =>
      ({ REDISMODULE_ZSET_RANGE_INIT with
          type := REDISMODULE_ZSET_RANGE_SCORE, score_start := lo, score_end := hi,
          flags := 0 } : RedisModuleZsetRange).aboveStart e.1) = fun e => lo.le e.1 := by
    funext e
    exact (hb e.1 _ rfl rfl rfl).1
  have hp2 : (fun e : Double × RedisModuleString =>
      ({ REDISMODULE_ZSET_RANGE_INIT with
          type := REDISMODULE_ZSET_RANGE_SCORE, score_start := lo, score_end := hi,
          flags := 0 } : RedisModuleZsetRange).belowEnd e.1) = fun e => e.1.le hi := by
    funext e
    exact (hb e.1 _ rfl rfl rfl).2
  rw [hp1, hp2, cursor_run_eq_inRange lo hi z hsorted] at hrun
  have htype : RedisModule_KeyType
      (RedisModule_OpenKey ctx key (REDISMODULE_READ ||| REDISMODULE_WRITE)).1
      (RedisModule_OpenKey ctx key (REDISMODULE_READ ||| REDISMODULE_WRITE)).2
      = REDISMODULE_KEYTYPE_ZSET := by
    simp [RedisModule_KeyType, RedisModule_OpenKey, RedisModuleCtx.log, hz, keyTypeOf]
  have hcmd : HelloZsumRange_RedisCommand h fuel ctx argv
      = (zsumLoop fuel
          (RedisModule_ZsetFirstInRange
            (RedisModule_OpenKey ctx key (REDISMODULE_READ ||| REDISMODULE_WRITE)).1
            (RedisModule_OpenKey ctx key (REDISMODULE_READ ||| REDISMODULE_WRITE)).2
            { REDISMODULE_ZSET_RANGE_INIT with
              type := REDISMODULE_ZSET_RANGE_SCORE, score_start := lo, score_end := hi,
              flags := 0 }).1
          (Double.fin 0)
          (RedisModule_OpenKey ctx key (REDISMODULE_READ ||| REDISMODULE_WRITE)).1).map
          (fun r =>
            ((RedisModule_ReplyWithDouble
                (RedisModule_CloseKey (RedisModule_ZsetRangeStop r.2.2 r.1).1
                  (RedisModule_ZsetRangeStop r.2.2 r.1).2) r.2.1).1, REDISMODULE_OK)) := by
    simp only [HelloZsumRange_RedisCommand, ha1, ha2, ha3,
      hlo, hhi, htype, ne_eq, not_true_eq_false, if_false]
    cases zsumLoop fuel _ _ _ <;> rfl
  rw [hcmd, hrun]
  refine ⟨_, rfl, ?_, ?_, ?_, ?_⟩
  · simp [RedisModule_ReplyWithDouble, RedisModule_CloseKey, RedisModule_ZsetRangeStop,
      RedisModule_OpenKey, RedisModuleCtx.log, RedisModuleCtx.reply, sumScores]
  · simp [RedisModule_ReplyWithDouble, RedisModule_CloseKey, RedisModule_ZsetRangeStop,
      RedisModule_OpenKey, RedisModuleCtx.log, RedisModuleCtx.reply, hk1]
  · simp [RedisModule_ReplyWithDouble, RedisModule_CloseKey, RedisModule_ZsetRangeStop,
      RedisModule_OpenKey, RedisModuleCtx.log, RedisModuleCtx.reply]
  · rfl

theorem zsetDb_sum :
    sumScores (inRange (Double.fin 1) (Double.fin 2)
      [(Double.fin 1, bytes "a"), (Double.fin 2, bytes "b"), (Double.fin 5, bytes "c")])
      = Double.fin 3 := by
  have h1 : (Double.fin 0).add (Double.fin 1) = Double.fin 1 :=
    Double.zero_add _ (Double.isDouble_int 1 (by decide))
  have h3 : (Double.fin 1).add (Double.fin 2) = Double.fin (1 + 2) :=
    Double.add_exact 1 2 (by
      have e : (1 + 2 : ℚ) = ((3 : ℤ) : ℚ) := by norm_num
      rw [e]
      exact Double.isDouble_int 3 (by decide))
  have hin : inRange (Double.fin 1) (Double.fin 2)
      [(Double.fin 1, bytes "a"), (Double.fin 2, bytes "b"), (Double.fin 5, bytes "c")]
      = [(Double.fin 1, bytes "a"), (Double.fin 2, bytes "b")] := by
    simp [inRange, Double.le]
    norm_num
  rw [hin]
  simp only [sumScores, List.foldl, h1, h3]
  norm_num

theorem sampleHost_double (s : RedisModuleString) (n : Int) (hs : parseDecimal s = some n)
    (hn : |n| < 2 ^ 53) :
    sampleHost.stringToDouble s = some (Double.fin n) := by
  simp [sampleHost, hs, Double.round_of_isDouble _ (Double.isDouble_int n hn)]

/-- C8: for a key holding a sorted set (members in ascending score order) and
parsed bounds `lo`, `hi`, `HelloZsumRange_RedisCommand` (flags `0`, both ends
inclusive) returns, given loop fuel beyond the size of the set, and replies
with the sum of the scores of exactly the members with `lo <= score <= hi`,
the sum being the one of the C `double` accumulator: the scores added to `0`
in cursor order, every addition rounded to the nearest binary64 value; the
cursor visits each of them once, in order (one `RedisModule_FreeString` per
visited member), and the keyspace is unchanged. -/
theorem HelloZsumRange_sum (h : Host) (fuel : Nat) (ctx : RedisModuleCtx)
    (cmd key a b : RedisModuleString) (lo hi : Double)
    (z : List (Double × RedisModuleString))
    (hz : ctx.db key = some (Value.zset z))
    (hsorted : z.Pairwise (fun x y => x.1.le y.1 = true))
    (hlo : h.stringToDouble a = some lo) (hhi : h.stringToDouble b = some hi)
    (hfuel : z.length < fuel) :
    ∃ r, HelloZsumRange_RedisCommand h fuel ctx [cmd, key, a, b] = some r ∧
      r.1.replies = ctx.replies ++ [Reply.double (sumScores (inRange lo hi z))] ∧
      r.1.trace = ctx.trace ++ [Event.openKey key]
        ++ (inRange lo hi z).map (fun e => Event.freeString e.2)
        ++ [Event.zsetRangeStop key, Event.closeKey key] ∧
      r.1.db = ctx.db ∧ r.2 = REDISMODULE_OK :=
  HelloZsumRange_run h fuel ctx [cmd, key, a, b] key a b lo hi z rfl rfl rfl hz hsorted hlo hhi
    hfuel

/-- C8 witness: the set `(1,a), (2,b), (5,c)` with range `[1,2]` sums to `3`. -/
theorem HelloZsumRange_sum_witness :
    ∃ r, HelloZsumRange_RedisCommand sampleHost 4 (RedisModuleCtx.fresh zsetDb 0)
        [bytes "hello.zsumrange", bytes "z", bytes "1", bytes "2"] = some r ∧
      r.1.replies = [Reply.double (Double.fin 3)] := by
  obtain ⟨r, h1, h2, _⟩ := HelloZsumRange_sum sampleHost 4 (RedisModuleCtx.fresh zsetDb 0)
    (bytes "hello.zsumrange") (bytes "z") (bytes "1") (bytes "2") (Double.fin 1) (Double.fin 2)
    [(Double.fin 1, bytes "a"), (Double.fin 2, bytes "b"), (Double.fin 5, bytes "c")]
    (by decide) (by decide)
    (by simpa using sampleHost_double (bytes "1") 1 (by decide) (by decide))
    (by simpa using sampleHost_double (bytes "2") 2 (by decide) (by decide))
    (by decide)
  refine ⟨r, h1, ?_⟩
  rw [h2, zsetDb_sum]
  rfl

/-- C4 (the code at the failing input): `HelloZsumRange_RedisCommand` called
with five arguments does not reply wrong-arity: it parses `argv[2]`,
`argv[3]`, opens `argv[1]` and replies with the sum; called with two arguments
it reads `argv[2]` past the vector and gives no reply at all. -/
theorem HelloZsumRange_no_arity_check :
    (∃ r, HelloZsumRange_RedisCommand sampleHost 4 (RedisModuleCtx.fresh zsetDb 0)
        [bytes "hello.zsumrange", bytes "z", bytes "1", bytes "2", bytes "extra"] = some r ∧
      r.1.replies = [Reply.double (Double.fin 3)] ∧
      r.1.trace = [Event.openKey (bytes "z"), Event.freeString (bytes "a"),
        Event.freeString (bytes "b"), Event.zsetRangeStop (bytes "z"),
        Event.closeKey (bytes "z")]) ∧
    HelloZsumRange_RedisCommand sampleHost 4 (RedisModuleCtx.fresh zsetDb 0)
        [bytes "hello.zsumrange", bytes "z"] = none := by
  constructor
  · obtain ⟨r, h1, h2, h3, _⟩ := HelloZsumRange_run sampleHost 4
      (RedisModuleCtx.fresh zsetDb 0)
      [bytes "hello.zsumrange", bytes "z", bytes "1", bytes "2", bytes "extra"]
      (bytes "z") (bytes "1") (bytes "2") (Double.fin 1) (Double.fin 2)
      [(Double.fin 1, bytes "a"), (Double.fin 2, bytes "b"), (Double.fin 5, bytes "c")]
      rfl rfl rfl (by decide) (by decide)
      (by simpa using sampleHost_double (bytes "1") 1 (by decide) (by decide))
      (by simpa using sampleHost_double (bytes "2") 2 (by decide) (by decide))
      (by decide)
    refine ⟨r, h1, ?_, ?_⟩
    · rw [h2, zsetDb_sum]
      rfl
    · rw [h3]
      decide
  · rfl

/-- The other handlers that read `argv` check `argc` first: with any other
argument count they do nothing but `RedisModule_WrongArity`. -/
theorem arity_checked (h : Host) (ctx : RedisModuleCtx) (argv : List RedisModuleString) :
    (argv.length ≠ 3 → HelloPushNative_RedisCommand ctx argv = RedisModule_WrongArity ctx) ∧
    (argv.length ≠ 3 → HelloPushCall_RedisCommand h ctx argv = RedisModule_WrongArity ctx) ∧
    (argv.length ≠ 3 → HelloPushCall2_RedisCommand h ctx argv = RedisModule_WrongArity ctx) ∧
    (argv.length ≠ 2 → HelloListSumLen_RedisCommand h ctx argv = RedisModule_WrongArity ctx) ∧
    (argv.length ≠ 4 → HelloListSplice_RedisCommand h ctx argv = RedisModule_WrongArity ctx) ∧
    (argv.length ≠ 4 →
      HelloListSpliceAuto_RedisCommand h ctx argv = RedisModule_WrongArity ctx) ∧
    (argv.length ≠ 2 → HelloRandArray_RedisCommand h ctx argv = RedisModule_WrongArity ctx) ∧
    (argv.length ≠ 2 → HelloToggleCase_RedisCommand ctx argv = RedisModule_WrongArity ctx) := by
  rcases argv with _ | ⟨a0, _ | ⟨a1, _ | ⟨a2, _ | ⟨a3, _ | ⟨a4, l⟩⟩⟩⟩⟩ <;>
    simp [HelloPushNative_RedisCommand, HelloPushCall_RedisCommand,
      HelloPushCall2_RedisCommand, HelloListSumLen_RedisCommand, HelloListSplice_RedisCommand,
      HelloListSpliceAuto_RedisCommand, HelloRandArray_RedisCommand,
      HelloToggleCase_RedisCommand]

theorem wrap64_add_wrap (a b : Int) : wrap64 (wrap64 a + b) = wrap64 (a + b) := by
  unfold wrap64
  omega

theorem wrap64_of_range (a : Int) (h1 : -(2 ^ 63) ≤ a) (h2 : a < 2 ^ 63) : wrap64 a = a := by
  unfold wrap64
  omega

theorem incremented_foldr (h : Host) (l : List RedisModuleString) :
    l.foldr (fun e s => wrap64 (s + incremented h e)) 0
      = wrap64 ((l.map (incremented h)).sum) := by
  induction l with
  | nil => simp [wrap64]
  | cons x l ih =>
    simp only [List.foldr_cons, List.map_cons, List.sum_cons, ih]
    rw [wrap64_add_wrap, add_comm]

theorem repl2Loop_spec (h : Host) (key : RedisModuleKey) (hw : key.writable = true)
    (a : List RedisModuleString) :
    ∀ (done : List RedisModuleString) (sum : Int) (ctx : RedisModuleCtx),
      HoldsList ctx.db key.name (done ++ a) →
      ∃ ctx1, repl2Loop h key a.length sum ctx
          = some (ctx1, a.foldr (fun e s => wrap64 (s + incremented h e)) sum) ∧
        HoldsList ctx1.db key.name
          (a.map (fun e => h.createStringFromLongLong (incremented h e)) ++ done) ∧
        (a ≠ [] → ctx1.db key.name = some (Value.list
          (a.map (fun e => h.createStringFromLongLong (incremented h e)) ++ done))) ∧
        (∀ k, k ≠ key.name → ctx1.db k = ctx.db k) ∧
        ctx1.replies = ctx.replies := by
  induction a using List.reverseRecOn with
  | nil =>
    intro done sum ctx hl
    exact ⟨ctx, by simp [repl2Loop], by simpa using hl, by simp, fun _ _ => rfl, rfl⟩
  | append_singleton a x ih =>
    intro done sum ctx hl
    have hl1 : HoldsList ctx.db key.name ((done ++ a) ++ [x]) := by
      simpa [List.append_assoc] using hl
    obtain ⟨hp2, hpdb, hprep⟩ := listPop_tail_concat ctx key (done ++ a) x hw hl1
    have hh : HoldsList (RedisModule_ListPop ctx key REDISMODULE_LIST_TAIL).1.db key.name
        (done ++ a) := by
      rw [hpdb]
      exact holdsList_listOrEmpty _ _ _
    obtain ⟨hqdb, hqrep⟩ := listPush_head
      (RedisModule_ListPop ctx key REDISMODULE_LIST_TAIL).1 key (done ++ a)
      (h.createStringFromLongLong (incremented h x)) hw hh
    have hnext : HoldsList
        (RedisModule_ListPush (RedisModule_ListPop ctx key REDISMODULE_LIST_TAIL).1 key
          REDISMODULE_LIST_HEAD (h.createStringFromLongLong (incremented h x))).1.db key.name
        ((h.createStringFromLongLong (incremented h x) :: done) ++ a) := by
      rw [hqdb]
      exact Or.inl (by simp [put_same])
    obtain ⟨ctx1, i1, i2, _, i4, i5⟩ := ih
      (h.createStringFromLongLong (incremented h x) :: done)
      (wrap64 (sum + incremented h x)) _ hnext
    have hval : wrap64 ((match h.stringToLongLong x with
        | some v => v
        | none => 0) + 1) = incremented h x := by
      unfold incremented
      cases h.stringToLongLong x <;> rfl
    have hstep : repl2Loop h key (a ++ [x]).length sum ctx
        = repl2Loop h key a.length (wrap64 (sum + incremented h x))
            (RedisModule_ListPush (RedisModule_ListPop ctx key REDISMODULE_LIST_TAIL).1 key
              REDISMODULE_LIST_HEAD (h.createStringFromLongLong (incremented h x))).1 := by
      rw [List.length_append, List.length_singleton, repl2Loop]
      simp only [hp2, RedisModule_CreateStringFromLongLong, hval]
    have hlist : (a ++ [x]).map (fun e => h.createStringFromLongLong (incremented h e)) ++ done
        = a.map (fun e => h.createStringFromLongLong (incremented h e))
            ++ (h.createStringFromLongLong (incremented h x) :: done) := by
      simp
    refine ⟨ctx1, ?_, ?_, ?_, ?_, ?_⟩
    · rw [hstep, i1, List.foldr_append]
      rfl
    · rw [hlist]; exact i2
    · intro _
      rw [hlist]
      rcases i2 with hsome | ⟨_, hnil⟩
      · exact hsome
      · simp at hnil
    · intro k hk
      rw [i4 k hk, hqdb, put_other _ _ _ _ hk, hpdb, put_other _ _ _ _ hk]
    · rw [i5, hqrep, hprep]

theorem HelloRepl2_run (h : Host) (ctx : RedisModuleCtx) (cmd key : RedisModuleString)
    (l : List RedisModuleString) (hl : ctx.db key = some (Value.list l)) :
    ∃ r, HelloRepl2_RedisCommand h ctx [cmd, key] = some r ∧
      r.1.db key = some (Value.list
        (l.map (fun e => h.createStringFromLongLong (incremented h e)))) ∧
      (∀ k, k ≠ key → r.1.db k = ctx.db k) ∧
      r.1.replies = ctx.replies ++ [Reply.longLong (wrap64 ((l.map (incremented h)).sum))] ∧
      propagation r.1 [cmd, key] = Propagation.verbatim [cmd, key] ∧
      r.2 = REDISMODULE_OK := by
  have hdb0 : (RedisModule_OpenKey (RedisModule_AutoMemory ctx) key
      (REDISMODULE_READ ||| REDISMODULE_WRITE)).1.db = ctx.db := by
    simp [RedisModule_OpenKey, RedisModule_AutoMemory, RedisModuleCtx.log]
  have hrep0 : (RedisModule_OpenKey (RedisModule_AutoMemory ctx) key
      (REDISMODULE_READ ||| REDISMODULE_WRITE)).1.replies = ctx.replies := by
    simp [RedisModule_OpenKey, RedisModule_AutoMemory, RedisModuleCtx.log]
  have hname : (RedisModule_OpenKey (RedisModule_AutoMemory ctx) key
      (REDISMODULE_READ ||| REDISMODULE_WRITE)).2.name = key := by
    simp [RedisModule_OpenKey]
  have hhold : HoldsList
      (RedisModule_OpenKey (RedisModule_AutoMemory ctx) key
        (REDISMODULE_READ ||| REDISMODULE_WRITE)).1.db
      (RedisModule_OpenKey (RedisModule_AutoMemory ctx) key
        (REDISMODULE_READ ||| REDISMODULE_WRITE)).2.name ([] ++ l) := by
    rw [hdb0, hname]
    exact Or.inl hl
  obtain ⟨ctx1, h1, _, h3, h4, h5⟩ := repl2Loop_spec h _ (openKey_writable _ key) l [] 0 _ hhold
  have htype : RedisModule_KeyType
      (RedisModule_OpenKey (RedisModule_AutoMemory ctx) key
        (REDISMODULE_READ ||| REDISMODULE_WRITE)).1
      (RedisModule_OpenKey (RedisModule_AutoMemory ctx) key
        (REDISMODULE_READ ||| REDISMODULE_WRITE)).2 = REDISMODULE_KEYTYPE_LIST := by
    unfold RedisModule_KeyType
    rw [hdb0, hname, hl]
    rfl
  have hlen : RedisModule_ValueLength
      (RedisModule_OpenKey (RedisModule_AutoMemory ctx) key
        (REDISMODULE_READ ||| REDISMODULE_WRITE)).1
      (RedisModule_OpenKey (RedisModule_AutoMemory ctx) key
        (REDISMODULE_READ ||| REDISMODULE_WRITE)).2 = l.length := by
    unfold RedisModule_ValueLength
    rw [hdb0, hname, hl]
  have hcmd : HelloRepl2_RedisCommand h ctx [cmd, key]
      = some ((RedisModule_ReplicateVerbatim (RedisModule_ReplyWithLongLong ctx1
          (l.foldr (fun e s => wrap64 (s + incremented h e)) 0)).1).1, REDISMODULE_OK) := by
    simp only [HelloRepl2_RedisCommand, htype, hlen, h1, ne_eq, not_true_eq_false, if_false]
  rw [hname] at h3 h4
  rw [hdb0] at h4
  rw [hrep0] at h5
  refine ⟨_, hcmd, ?_, ?_, ?_, ?_, rfl⟩
  · by_cases hnil : l = []
    · subst hnil
      have hloop0 : ctx1 = (RedisModule_OpenKey (RedisModule_AutoMemory ctx) key
          (REDISMODULE_READ ||| REDISMODULE_WRITE)).1 := by
        simp only [List.length_nil, repl2Loop, List.foldr_nil, Option.some.injEq,
          Prod.mk.injEq, and_true] at h1
        exact h1.symm
      simp only [RedisModule_ReplicateVerbatim, RedisModule_ReplyWithLongLong,
        RedisModuleCtx.reply, List.map_nil]
      rw [hloop0, hdb0, hl]
    · simpa [RedisModule_ReplicateVerbatim, RedisModule_ReplyWithLongLong,
        RedisModuleCtx.reply] using h3 hnil
  · intro k hk
    simpa [RedisModule_ReplicateVerbatim, RedisModule_ReplyWithLongLong,
      RedisModuleCtx.reply] using h4 k hk
  · simp [RedisModule_ReplicateVerbatim, RedisModule_ReplyWithLongLong,
      RedisModuleCtx.reply, h5, incremented_foldr]
  · simp [RedisModule_ReplicateVerbatim, RedisModule_ReplyWithLongLong,
      RedisModuleCtx.reply, propagation]

/-- C13: for a key holding a list `HelloRepl2_RedisCommand` returns and leaves
the list with the same length and element order, each element replaced by the
string of its integer plus one (`long long` wrap-around), an element that does
not parse being replaced by the string of `1`; it replies with the integer sum
of the incremented values (wrapped to a `long long`) and the invocation
propagates as the original command, verbatim.  No other key changes. -/
theorem HelloRepl2_increments (h : Host) (ctx : RedisModuleCtx) (cmd key : RedisModuleString)
    (l : List RedisModuleString) (hl : ctx.db key = some (Value.list l)) :
    (∃ r, HelloRepl2_RedisCommand h ctx [cmd, key] = some r ∧
      r.1.db key = some (Value.list
        (l.map (fun e => h.createStringFromLongLong (incremented h e)))) ∧
      (∀ k, k ≠ key → r.1.db k = ctx.db k) ∧
      r.1.replies = ctx.replies ++ [Reply.longLong (wrap64 ((l.map (incremented h)).sum))] ∧
      propagation r.1 [cmd, key] = Propagation.verbatim [cmd, key] ∧
      r.2 = REDISMODULE_OK) ∧
    (∀ e v, h.stringToLongLong e = some v → incremented h e = wrap64 (v + 1)) ∧
    (∀ e, h.stringToLongLong e = none → incremented h e = 1) := by
  refine ⟨HelloRepl2_run h ctx cmd key l hl, ?_, ?_⟩
  · intro e v hv
    simp [incremented, hv]
  · intro e hv
    simp [incremented, hv, wrap64]

/-- C13 witness: the list `1, 41, x` becomes `2, 42, 1` and the reply is `45`. -/
theorem HelloRepl2_increments_witness :
    ∃ r, HelloRepl2_RedisCommand sampleHost (RedisModuleCtx.fresh numDb 0)
        [bytes "hello.repl2", bytes "n"] = some r ∧
      r.1.db (bytes "n") = some (Value.list [bytes "2", bytes "42", bytes "1"]) ∧
      r.1.replies = [Reply.longLong 45] := by
  obtain ⟨r, h1, h2, _, h4, _⟩ := (HelloRepl2_increments sampleHost
    (RedisModuleCtx.fresh numDb 0) (bytes "hello.repl2") (bytes "n")
    [bytes "1", bytes "41", bytes "x"] (by decide)).1
  refine ⟨r, h1, ?_, ?_⟩
  · rw [h2]
    decide
  · rw [h4]
    have hsum : wrap64 (([bytes "1", bytes "41", bytes "x"].map (incremented sampleHost)).sum)
        = 45 := by decide
    rw [hsum]
    rfl

theorem expireOf_eq (ctx : RedisModuleCtx) (name : RedisModuleString) :
    expireOf ctx name
      = match ctx.expires name with
        | none => REDISMODULE_NO_EXPIRE
        | some t => t - ctx.now := by
  simp [expireOf, RedisModule_GetExpire, RedisModule_OpenKey]

theorem HelloMoreExpire_parsed (h : Host) (ctx : RedisModuleCtx)
    (cmd key msarg : RedisModuleString) (ms : Int) (hms : h.stringToLongLong msarg = some ms) :
    (HelloMoreExpire_RedisCommand h ctx [cmd, key, msarg]).1.replies
      = ctx.replies ++ [Reply.simpleString "OK"] ∧
    (HelloMoreExpire_RedisCommand h ctx [cmd, key, msarg]).2 = REDISMODULE_OK ∧
    (HelloMoreExpire_RedisCommand h ctx [cmd, key, msarg]).1.now = ctx.now ∧
    (expireOf ctx key = REDISMODULE_NO_EXPIRE →
      (HelloMoreExpire_RedisCommand h ctx [cmd, key, msarg]).1.expires = ctx.expires) ∧
    (expireOf ctx key ≠ REDISMODULE_NO_EXPIRE →
      expireOf (HelloMoreExpire_RedisCommand h ctx [cmd, key, msarg]).1 key
        = wrap64 (expireOf ctx key + ms)) := by
  have hget : RedisModule_GetExpire
      (RedisModule_OpenKey (RedisModule_AutoMemory ctx) key
        (REDISMODULE_READ ||| REDISMODULE_WRITE)).1
      (RedisModule_OpenKey (RedisModule_AutoMemory ctx) key
        (REDISMODULE_READ ||| REDISMODULE_WRITE)).2 = expireOf ctx key := by
    simp [expireOf, RedisModule_GetExpire, RedisModule_OpenKey, RedisModule_AutoMemory,
      RedisModuleCtx.log]
  simp only [HelloMoreExpire_RedisCommand, hms, hget]
  by_cases hno : expireOf ctx key = REDISMODULE_NO_EXPIRE
  · simp [hno, RedisModule_ReplyWithSimpleString, RedisModuleCtx.reply, RedisModule_OpenKey,
      RedisModule_AutoMemory, RedisModuleCtx.log]
  · simp only [ne_eq, hno, not_false_eq_true, if_true]
    refine ⟨?_, ?_, ?_, ?_, ?_⟩
    · simp [RedisModule_ReplyWithSimpleString, RedisModuleCtx.reply, RedisModule_OpenKey,
        RedisModule_AutoMemory, RedisModuleCtx.log, RedisModule_SetExpire]
    · rfl
    · simp [RedisModule_ReplyWithSimpleString, RedisModuleCtx.reply, RedisModule_OpenKey,
        RedisModule_AutoMemory, RedisModuleCtx.log, RedisModule_SetExpire]
    · intro hcontra
      exact hcontra.elim
    · intro _
      rw [expireOf_eq]
      simp [RedisModule_ReplyWithSimpleString, RedisModuleCtx.reply, RedisModule_OpenKey,
        RedisModule_AutoMemory, RedisModuleCtx.log, RedisModule_SetExpire]

/-- C14 (amended): with a parsed `ms`, `HelloMoreExpire_RedisCommand` replies
`OK`; when `RedisModule_GetExpire` reports the no-expire sentinel the expiry
of every key is left as it was; when the key has a time to live and that time
plus `ms` fits a `long long`, `RedisModule_GetExpire` after the command equals
`RedisModule_GetExpire` before plus `ms`.  An argument that does not parse
replies `ERR invalid expire time` with no key opened and no expiry changed. -/
theorem HelloMoreExpire_extends (h : Host) (ctx : RedisModuleCtx)
    (cmd key msarg : RedisModuleString) :
    (∀ ms, h.stringToLongLong msarg = some ms →
      (HelloMoreExpire_RedisCommand h ctx [cmd, key, msarg]).1.replies
        = ctx.replies ++ [Reply.simpleString "OK"] ∧
      (expireOf ctx key = REDISMODULE_NO_EXPIRE →
        (HelloMoreExpire_RedisCommand h ctx [cmd, key, msarg]).1.expires = ctx.expires) ∧
      (expireOf ctx key ≠ REDISMODULE_NO_EXPIRE →
        -(2 ^ 63) ≤ expireOf ctx key + ms → expireOf ctx key + ms < 2 ^ 63 →
        expireOf (HelloMoreExpire_RedisCommand h ctx [cmd, key, msarg]).1 key
          = expireOf ctx key + ms)) ∧
    (h.stringToLongLong msarg = none →
      (HelloMoreExpire_RedisCommand h ctx [cmd, key, msarg]).1.replies
        = ctx.replies ++ [Reply.error "ERR invalid expire time"] ∧
      (HelloMoreExpire_RedisCommand h ctx [cmd, key, msarg]).1.trace = ctx.trace ∧
      (HelloMoreExpire_RedisCommand h ctx [cmd, key, msarg]).1.expires = ctx.expires) := by
  constructor
  · intro ms hms
    obtain ⟨p1, _, _, p4, p5⟩ := HelloMoreExpire_parsed h ctx cmd key msarg ms hms
    refine ⟨p1, p4, ?_⟩
    intro hne hlo hhi
    rw [p5 hne, wrap64_of_range _ hlo hhi]
  · intro hnone
    simp [HelloMoreExpire_RedisCommand, hnone, RedisModule_ReplyWithError,
      RedisModuleCtx.reply, RedisModule_AutoMemory]

/-- C14 witness: a time to live of `5000` extended by `250`. -/
theorem HelloMoreExpire_extends_witness :
    expireOf ttlCtx (bytes "k") = 5000 ∧
    expireOf (HelloMoreExpire_RedisCommand sampleHost ttlCtx
        [bytes "hello.more.expire", bytes "k", bytes "250"]).1 (bytes "k") = 5250 :=
  ⟨by decide,
   ((HelloMoreExpire_extends sampleHost ttlCtx (bytes "hello.more.expire") (bytes "k")
      (bytes "250")).1 250 (by decide)).2.2 (by decide) (by decide) (by decide)⟩

/-- C14 (as stated, refuted): with a time to live of `5000` and
`ms = 9223372036854775807` the sum leaves the `long long` range; after the
command `RedisModule_GetExpire` reports `-9223372036854770809`, not the time
before plus `ms`. -/
theorem HelloMoreExpire_overflow :
    sampleHost.stringToLongLong (bytes "9223372036854775807") = some 9223372036854775807 ∧
    expireOf ttlCtx (bytes "k") = 5000 ∧
    expireOf (HelloMoreExpire_RedisCommand sampleHost ttlCtx
        [bytes "hello.more.expire", bytes "k", bytes "9223372036854775807"]).1 (bytes "k")
      = -9223372036854770809 ∧
    expireOf (HelloMoreExpire_RedisCommand sampleHost ttlCtx
        [bytes "hello.more.expire", bytes "k", bytes "9223372036854775807"]).1 (bytes "k")
      ≠ expireOf ttlCtx (bytes "k") + 9223372036854775807 := by
  refine ⟨by decide, by decide, by decide, by decide⟩

theorem listPush_frame (ctx : RedisModuleCtx) (key : RedisModuleKey) (w : Int)
    (e : RedisModuleString) :
    (RedisModule_ListPush ctx key w e).1.replies = ctx.replies ∧
    (RedisModule_ListPush ctx key w e).1.trace = ctx.trace := by
  unfold RedisModule_ListPush
  split
  · split <;> simp
  · simp

theorem listPop_frame (ctx : RedisModuleCtx) (key : RedisModuleKey) (w : Int) :
    (RedisModule_ListPop ctx key w).1.replies = ctx.replies ∧
    (RedisModule_ListPop ctx key w).1.trace = ctx.trace := by
  unfold RedisModule_ListPop
  split
  · split
    · split
      · split <;> simp
      · split <;> simp
    · simp
  · simp

theorem dmaWrite_frame (ctx : RedisModuleCtx) (key : RedisModuleKey) (j c : Nat) :
    (dmaWrite ctx key j c).replies = ctx.replies ∧ (dmaWrite ctx key j c).trace = ctx.trace := by
  unfold dmaWrite
  split <;> simp

theorem spliceLoop_frame (srckey dstkey : RedisModuleKey) :
    ∀ (n : Nat) (ctx : RedisModuleCtx),
      (spliceLoop srckey dstkey n ctx).replies = ctx.replies ∧
      ∃ fs : List RedisModuleString,
        (spliceLoop srckey dstkey n ctx).trace = ctx.trace ++ fs.map Event.freeString := by
  intro n
  induction n with
  | zero =>
    intro ctx
    exact ⟨rfl, [], by simp [spliceLoop]⟩
  | succ n ih =>
    intro ctx
    rw [spliceLoop]
    obtain ⟨p1, p2⟩ := listPop_frame ctx srckey REDISMODULE_LIST_TAIL
    cases hp : (RedisModule_ListPop ctx srckey REDISMODULE_LIST_TAIL).2 with
    | none => exact ⟨p1, [], by simp [p2]⟩
    | some ele =>
      obtain ⟨q1, q2⟩ := listPush_frame (RedisModule_ListPop ctx srckey REDISMODULE_LIST_TAIL).1
        dstkey REDISMODULE_LIST_HEAD ele
      obtain ⟨i1, fs, i2⟩ := ih (RedisModule_FreeString
        (RedisModule_ListPush (RedisModule_ListPop ctx srckey REDISMODULE_LIST_TAIL).1 dstkey
          REDISMODULE_LIST_HEAD ele).1 ele)
      refine ⟨?_, ele :: fs, ?_⟩
      · simp only []
        rw [i1]
        simp [RedisModule_FreeString, RedisModuleCtx.log, q1, p1]
      · simp only []
        rw [i2]
        simp [RedisModule_FreeString, RedisModuleCtx.log, q2, p2]

theorem spliceAutoLoop_frame (srckey dstkey : RedisModuleKey) :
    ∀ (n : Nat) (ctx : RedisModuleCtx),
      (spliceAutoLoop srckey dstkey n ctx).replies = ctx.replies := by
  intro n
  induction n with
  | zero => intro ctx; rfl
  | succ n ih =>
    intro ctx
    rw [spliceAutoLoop]
    obtain ⟨p1, _⟩ := listPop_frame ctx srckey REDISMODULE_LIST_TAIL
    cases hp : (RedisModule_ListPop ctx srckey REDISMODULE_LIST_TAIL).2 with
    | none => exact p1
    | some ele =>
      simp only []
      rw [ih, (listPush_frame _ dstkey REDISMODULE_LIST_HEAD ele).1, p1]

theorem toggleCaseLoop_frame (key : RedisModuleKey) :
    ∀ (n j : Nat) (ctx : RedisModuleCtx),
      (toggleCaseLoop key n j ctx).replies = ctx.replies ∧
      (toggleCaseLoop key n j ctx).trace = ctx.trace := by
  intro n
  induction n with
  | zero => intro j ctx; exact ⟨rfl, rfl⟩
  | succ n ih =>
    intro j ctx
    rw [toggleCaseLoop]
    obtain ⟨i1, i2⟩ := ih (j + 1)
      (if isupper (dmaRead ctx key j) = true then
        dmaWrite ctx key j (tolower (dmaRead ctx key j))
      else dmaWrite ctx key j (toupper (dmaRead ctx key j)))
    rw [i1, i2]
    split <;> exact dmaWrite_frame _ _ _ _

theorem count_freeString_open (fs : List RedisModuleString) (k : RedisModuleString) :
    (fs.map Event.freeString).count (Event.openKey k) = 0 ∧
    (fs.map Event.freeString).count (Event.closeKey k) = 0 := by
  constructor <;>
  · rw [List.count_eq_zero]
    intro hmem
    obtain ⟨s, _, hs⟩ := List.mem_map.mp hmem
    cases hs

theorem keysReleased_open_close (k : RedisModuleString) :
    keysReleased [Event.openKey k, Event.closeKey k] := by
  intro k1
  by_cases hk : k = k1 <;> simp [List.count_cons, hk]

theorem releasesAll_refl (t : List Event) : releasesAll t t :=
  ⟨[], by simp, fun _ => rfl, rfl⟩

theorem randArrayLoop_trace (h : Host) :
    ∀ (n : Nat) (ctx : RedisModuleCtx), (randArrayLoop h n ctx).trace = ctx.trace := by
  intro n
  induction n with
  | zero => intro ctx; rfl
  | succ n ih =>
    intro ctx
    rw [randArrayLoop, ih]
    rfl

theorem length_four {α : Type} (l : List α) (hl : l.length = 4) :
    ∃ a b c d, l = [a, b, c, d] := by
  rcases l with _ | ⟨a, _ | ⟨b, _ | ⟨c, _ | ⟨d, _ | ⟨e, l⟩⟩⟩⟩⟩ <;> simp at hl
  exact ⟨a, b, c, d, rfl⟩

theorem wrongArity_releases (ctx : RedisModuleCtx) :
    releasesAll ctx.trace (RedisModule_WrongArity ctx).1.trace := by
  simpa [RedisModule_WrongArity, RedisModuleCtx.reply] using releasesAll_refl ctx.trace

theorem HelloPushNative_releases (ctx : RedisModuleCtx) (argv : List RedisModuleString) :
    releasesAll ctx.trace (HelloPushNative_RedisCommand ctx argv).1.trace := by
  by_cases hlen : argv.length = 3
  · obtain ⟨a0, a1, a2, rfl⟩ := List.length_eq_three.mp hlen
    refine ⟨[Event.openKey a1, Event.closeKey a1], ?_, keysReleased_open_close a1, rfl⟩
    simp only [HelloPushNative_RedisCommand, RedisModule_ReplyWithLongLong,
      RedisModule_CloseKey, RedisModuleCtx.reply, RedisModuleCtx.log]
    rw [(listPush_frame _ _ _ _).2]
    simp [RedisModule_OpenKey, RedisModuleCtx.log]
  · rw [(arity_checked sampleHost ctx argv).1 hlen]
    exact wrongArity_releases ctx

theorem call_releases (h : Host) (ctx : RedisModuleCtx) (cmdname fmt : String)
    (args : List CallArg) :
    (RedisModule_Call h ctx cmdname fmt args).1.trace = ctx.trace ++ [Event.callReply] ∧
    (RedisModule_Call h ctx cmdname fmt args).1.replies = ctx.replies := by
  unfold RedisModule_Call
  constructor <;> (simp only []; split <;> rfl)

theorem callFree_released : keysReleased [Event.callReply, Event.freeCallReply] ∧
    repliesReleased [Event.callReply, Event.freeCallReply] := by
  constructor
  · intro k
    simp [List.count_cons]
  · simp [repliesReleased, List.count_cons]

theorem HelloPushCall_releases (h : Host) (ctx : RedisModuleCtx)
    (argv : List RedisModuleString) :
    releasesAll ctx.trace (HelloPushCall_RedisCommand h ctx argv).1.trace := by
  by_cases hlen : argv.length = 3
  · obtain ⟨a0, a1, a2, rfl⟩ := List.length_eq_three.mp hlen
    refine ⟨[Event.callReply, Event.freeCallReply], ?_, callFree_released.1,
      callFree_released.2⟩
    simp only [HelloPushCall_RedisCommand, RedisModule_ReplyWithLongLong,
      RedisModule_FreeCallReply, RedisModuleCtx.reply, RedisModuleCtx.log]
    rw [(call_releases _ _ _ _ _).1]
    simp
  · rw [(arity_checked h ctx argv).2.1 hlen]
    exact wrongArity_releases ctx

theorem HelloPushCall2_releases (h : Host) (ctx : RedisModuleCtx)
    (argv : List RedisModuleString) :
    releasesAll ctx.trace (HelloPushCall2_RedisCommand h ctx argv).1.trace := by
  by_cases hlen : argv.length = 3
  · obtain ⟨a0, a1, a2, rfl⟩ := List.length_eq_three.mp hlen
    refine ⟨[Event.callReply, Event.freeCallReply], ?_, callFree_released.1,
      callFree_released.2⟩
    simp only [HelloPushCall2_RedisCommand, RedisModule_ReplyWithCallReply,
      RedisModule_FreeCallReply, RedisModuleCtx.reply, RedisModuleCtx.log]
    rw [(call_releases _ _ _ _ _).1]
    simp
  · rw [(arity_checked h ctx argv).2.2.1 hlen]
    exact wrongArity_releases ctx

theorem HelloListSumLen_releases (h : Host) (ctx : RedisModuleCtx)
    (argv : List RedisModuleString) :
    releasesAll ctx.trace (HelloListSumLen_RedisCommand h ctx argv).1.trace := by
  by_cases hlen : argv.length = 2
  · obtain ⟨a0, a1, rfl⟩ := List.length_eq_two.mp hlen
    refine ⟨[Event.callReply, Event.freeCallReply], ?_, callFree_released.1,
      callFree_released.2⟩
    simp only [HelloListSumLen_RedisCommand, RedisModule_ReplyWithLongLong,
      RedisModule_FreeCallReply, RedisModuleCtx.reply, RedisModuleCtx.log]
    rw [(call_releases _ _ _ _ _).1]
    simp
  · rw [(arity_checked h ctx argv).2.2.2.1 hlen]
    exact wrongArity_releases ctx

theorem keysReleased_two (s d : RedisModuleString) (fs : List RedisModuleString) :
    keysReleased ([Event.openKey s, Event.openKey d] ++ fs.map Event.freeString
      ++ [Event.closeKey s, Event.closeKey d]) ∧
    repliesReleased ([Event.openKey s, Event.openKey d] ++ fs.map Event.freeString
      ++ [Event.closeKey s, Event.closeKey d]) := by
  have hcall : (fs.map Event.freeString).count Event.callReply = 0 ∧
      (fs.map Event.freeString).count Event.freeCallReply = 0 := by
    constructor <;>
    · rw [List.count_eq_zero]
      intro hmem
      obtain ⟨x, _, hx⟩ := List.mem_map.mp hmem
      cases hx
  constructor
  · intro k
    obtain ⟨c1, c2⟩ := count_freeString_open fs k
    by_cases hs : s = k <;> by_cases hd : d = k <;>
      simp [List.count_append, List.count_cons, c1, c2, hs, hd]
  · simp [repliesReleased, List.count_append, List.count_cons, hcall.1, hcall.2]

theorem HelloListSplice_releases (h : Host) (ctx : RedisModuleCtx)
    (argv : List RedisModuleString) :
    releasesAll ctx.trace (HelloListSplice_RedisCommand h ctx argv).1.trace := by
  by_cases hlen : argv.length = 4
  · obtain ⟨a0, a1, a2, a3, rfl⟩ := length_four argv hlen
    simp only [HelloListSplice_RedisCommand]
    split
    · refine ⟨_, ?_, (keysReleased_two a1 a2 []).1, (keysReleased_two a1 a2 []).2⟩
      simp [RedisModule_ReplyWithError, RedisModule_CloseKey, RedisModule_OpenKey,
        RedisModuleCtx.reply, RedisModuleCtx.log]
    · split
      · refine ⟨_, ?_, (keysReleased_two a1 a2 []).1, (keysReleased_two a1 a2 []).2⟩
        simp [RedisModule_ReplyWithError, RedisModule_CloseKey, RedisModule_OpenKey,
          RedisModuleCtx.reply, RedisModuleCtx.log]
      · rename_i count _
        obtain ⟨_, fs, hfs⟩ := spliceLoop_frame
          (RedisModule_OpenKey ctx a1 (REDISMODULE_READ ||| REDISMODULE_WRITE)).2
          (RedisModule_OpenKey
            (RedisModule_OpenKey ctx a1 (REDISMODULE_READ ||| REDISMODULE_WRITE)).1 a2
            (REDISMODULE_READ ||| REDISMODULE_WRITE)).2 count.toNat
          (RedisModule_OpenKey
            (RedisModule_OpenKey ctx a1 (REDISMODULE_READ ||| REDISMODULE_WRITE)).1 a2
            (REDISMODULE_READ ||| REDISMODULE_WRITE)).1
        refine ⟨_, ?_, (keysReleased_two a1 a2 fs).1, (keysReleased_two a1 a2 fs).2⟩
        simp only [RedisModule_ReplyWithLongLong, RedisModule_CloseKey, RedisModuleCtx.reply,
          RedisModuleCtx.log]
        rw [hfs]
        simp [RedisModule_OpenKey, RedisModuleCtx.log]
  · rw [(arity_checked h ctx argv).2.2.2.2.1 hlen]
    exact wrongArity_releases ctx

theorem HelloRandArray_releases (h : Host) (ctx : RedisModuleCtx)
    (argv : List RedisModuleString) :
    releasesAll ctx.trace (HelloRandArray_RedisCommand h ctx argv).1.trace := by
  by_cases hlen : argv.length = 2
  · obtain ⟨a0, a1, rfl⟩ := List.length_eq_two.mp hlen
    have hsame : (HelloRandArray_RedisCommand h ctx [a0, a1]).1.trace = ctx.trace := by
      simp only [HelloRandArray_RedisCommand]
      split
      · rfl
      · split
        · rfl
        · simp only [randArrayLoop_trace]
          rfl
    rw [hsame]
    exact releasesAll_refl _
  · rw [(arity_checked h ctx argv).2.2.2.2.2.2.1 hlen]
    exact wrongArity_releases ctx

theorem HelloToggleCase_releases (ctx : RedisModuleCtx) (argv : List RedisModuleString) :
    releasesAll ctx.trace (HelloToggleCase_RedisCommand ctx argv).1.trace := by
  by_cases hlen : argv.length = 2
  · obtain ⟨a0, a1, rfl⟩ := List.length_eq_two.mp hlen
    refine ⟨[Event.openKey a1, Event.closeKey a1], ?_, keysReleased_open_close a1, rfl⟩
    simp only [HelloToggleCase_RedisCommand]
    split
    · simp [RedisModule_ReplyWithError, RedisModule_CloseKey, RedisModule_OpenKey,
        RedisModuleCtx.reply, RedisModuleCtx.log]
    · simp only [RedisModule_ReplicateVerbatim, RedisModule_ReplyWithSimpleString,
        RedisModule_CloseKey, RedisModuleCtx.reply, RedisModuleCtx.log]
      split
      · rw [(toggleCaseLoop_frame _ _ _ _).2]
        simp [RedisModule_OpenKey, RedisModuleCtx.log]
      · simp [RedisModule_OpenKey, RedisModuleCtx.log]
  · rw [(arity_checked sampleHost ctx argv).2.2.2.2.2.2.2 hlen]
    exact wrongArity_releases ctx

/-- C11 (the code at the failing input): `HELLO.ZSUMRANGE k 1 2` on a key `k`
holding the string `abc`, in a handler that does not call
`RedisModule_AutoMemory`: the handler returns after replying the wrong-type
error, and the key handle it opened is not closed. -/
theorem HelloZsumRange_wrongtype_leaks_key :
    ∃ r, HelloZsumRange_RedisCommand sampleHost 4 (RedisModuleCtx.fresh stringDb 0)
        [bytes "hello.zsumrange", bytes "k", bytes "1", bytes "2"] = some r ∧
      r.1.replies = [Reply.error REDISMODULE_ERRORMSG_WRONGTYPE] ∧
      r.1.trace = [Event.openKey (bytes "k")] ∧
      ¬ keysReleased r.1.trace := by
  have hrun : HelloZsumRange_RedisCommand sampleHost 4 (RedisModuleCtx.fresh stringDb 0)
      [bytes "hello.zsumrange", bytes "k", bytes "1", bytes "2"]
      = some (RedisModule_ReplyWithError
          (RedisModule_OpenKey (RedisModuleCtx.fresh stringDb 0) (bytes "k")
            (REDISMODULE_READ ||| REDISMODULE_WRITE)).1 REDISMODULE_ERRORMSG_WRONGTYPE) := by
    rfl
  refine ⟨_, hrun, rfl, rfl, ?_⟩
  intro hk
  have h1 := hk (bytes "k")
  revert h1
  decide

/-- The other handlers without `RedisModule_AutoMemory` do release, on every
path: the events they add close every key handle they open and free every reply
object they obtain, exactly once. -/
theorem explicit_handlers_release (h : Host) (ctx : RedisModuleCtx)
    (argv : List RedisModuleString) :
    releasesAll ctx.trace (HelloSimple_RedisCommand ctx argv).1.trace ∧
    releasesAll ctx.trace (HelloPushNative_RedisCommand ctx argv).1.trace ∧
    releasesAll ctx.trace (HelloPushCall_RedisCommand h ctx argv).1.trace ∧
    releasesAll ctx.trace (HelloPushCall2_RedisCommand h ctx argv).1.trace ∧
    releasesAll ctx.trace (HelloListSumLen_RedisCommand h ctx argv).1.trace ∧
    releasesAll ctx.trace (HelloListSplice_RedisCommand h ctx argv).1.trace ∧
    releasesAll ctx.trace (HelloRandArray_RedisCommand h ctx argv).1.trace ∧
    releasesAll ctx.trace (HelloToggleCase_RedisCommand ctx argv).1.trace :=
  ⟨releasesAll_refl _, HelloPushNative_releases ctx argv, HelloPushCall_releases h ctx argv,
    HelloPushCall2_releases h ctx argv, HelloListSumLen_releases h ctx argv,
    HelloListSplice_releases h ctx argv, HelloRandArray_releases h ctx argv,
    HelloToggleCase_releases ctx argv⟩

theorem topLevel_flat :
    ∀ (l : List Reply) (p : Nat), (∀ r ∈ l, owedReplies r = 0) →
      topLevel p l = (l.length - p, p - l.length) := by
  intro l
  induction l with
  | nil => intro p _; simp [topLevel]
  | cons r rs ih =>
    intro p hflat
    have hr : owedReplies r = 0 := hflat r (List.mem_cons_self _ _)
    have hrs : ∀ x ∈ rs, owedReplies x = 0 := fun x hx => hflat x (List.mem_cons_of_mem _ hx)
    rw [topLevel]
    by_cases hp : p = 0
    · simp only [hp, if_true, hr, ih 0 hrs, List.length_cons]
      simp
    · simp only [hp, if_false, hr, ih (p - 1 + 0) hrs, List.length_cons, Prod.mk.injEq]
      omega

theorem topLevel_array_flat (n : Int) (l : List Reply) (hflat : ∀ r ∈ l, owedReplies r = 0) :
    topLevel 0 (Reply.array n :: l) = (l.length - n.toNat + 1, n.toNat - l.length) := by
  rw [topLevel]
  simp only [if_true, owedReplies, topLevel_flat l n.toNat hflat]

theorem longLongs_flat (f : Nat → Int) (n : Nat) :
    ∀ r ∈ (List.range n).map (fun i => Reply.longLong (f i)), owedReplies r = 0 := by
  intro r hr
  obtain ⟨i, _, hi⟩ := List.mem_map.mp hr
  rw [← hi]
  rfl

theorem writesOneReply_exactly (rs : List Reply) (hone : writesOneReply [] rs) :
    exactlyOneReply rs := by
  obtain ⟨r, hr, h0⟩ := hone
  rw [hr]
  simp [exactlyOneReply, topLevel, h0]

/-- C12 (the code at the failing input): `HELLO.RAND.ARRAY 4294967296`, an
argument vector of the expected length whose count parses.  The array header is
written with the count narrowed to `int`, that is with length `0`, and is
followed by `4294967296` integer replies: the context holds `4294967297`
top-level replies, not one. -/
theorem HelloRandArray_many_replies :
    sampleHost.stringToLongLong (bytes "4294967296") = some 4294967296 ∧
    topLevel 0 (HelloRandArray_RedisCommand sampleHost (RedisModuleCtx.fresh emptyDb 0)
        [bytes "hello.rand.array", bytes "4294967296"]).1.replies = (4294967296 + 1, 0) ∧
    ¬ exactlyOneReply (HelloRandArray_RedisCommand sampleHost (RedisModuleCtx.fresh emptyDb 0)
        [bytes "hello.rand.array", bytes "4294967296"]).1.replies := by
  have hp : sampleHost.stringToLongLong (bytes "4294967296") = some 4294967296 := by decide
  have hr := HelloRandArray_replies sampleHost (RedisModuleCtx.fresh emptyDb 0)
    (bytes "hello.rand.array") (bytes "4294967296") 4294967296 hp (by decide)
  have hw : toCInt 4294967296 = 0 := by decide
  have hn : (4294967296 : Int).toNat = 4294967296 := rfl
  have hz : (0 : Int).toNat = 0 := rfl
  have hcount : topLevel 0 (HelloRandArray_RedisCommand sampleHost
      (RedisModuleCtx.fresh emptyDb 0)
      [bytes "hello.rand.array", bytes "4294967296"]).1.replies = (4294967296 + 1, 0) := by
    rw [hr, hw, hn]
    show topLevel 0 (Reply.array 0 :: _) = _
    rw [topLevel_array_flat 0 _ (longLongs_flat _ _), List.length_map, List.length_range, hz]
  refine ⟨hp, hcount, ?_⟩
  unfold exactlyOneReply
  rw [hcount]
  intro hcontra
  have h1 := congrArg Prod.fst hcontra
  simp only at h1
  omega

theorem reply_one (before : List Reply) (c : RedisModuleCtx) (r : Reply)
    (hc : c.replies = before) (h0 : owedReplies r = 0) :
    writesOneReply before (c.reply r).replies :=
  ⟨r, by simp [RedisModuleCtx.reply, hc], h0⟩

theorem wrongArity_one (ctx : RedisModuleCtx) :
    writesOneReply ctx.replies (RedisModule_WrongArity ctx).1.replies :=
  reply_one _ ctx Reply.wrongArity rfl rfl

theorem HelloSimple_one (ctx : RedisModuleCtx) (argv : List RedisModuleString) :
    writesOneReply ctx.replies (HelloSimple_RedisCommand ctx argv).1.replies :=
  reply_one _ ctx _ rfl rfl

theorem HelloPushNative_one (ctx : RedisModuleCtx) (argv : List RedisModuleString) :
    writesOneReply ctx.replies (HelloPushNative_RedisCommand ctx argv).1.replies := by
  by_cases hlen : argv.length = 3
  · obtain ⟨a0, a1, a2, rfl⟩ := List.length_eq_three.mp hlen
    simp only [HelloPushNative_RedisCommand, RedisModule_ReplyWithLongLong]
    refine reply_one _ _ _ ?_ rfl
    simp only [RedisModule_CloseKey, RedisModuleCtx.log]
    rw [(listPush_frame _ _ _ _).1]
    rfl
  · rw [(arity_checked sampleHost ctx argv).1 hlen]
    exact wrongArity_one ctx

theorem HelloPushCall_one (h : Host) (ctx : RedisModuleCtx) (argv : List RedisModuleString) :
    writesOneReply ctx.replies (HelloPushCall_RedisCommand h ctx argv).1.replies := by
  by_cases hlen : argv.length = 3
  · obtain ⟨a0, a1, a2, rfl⟩ := List.length_eq_three.mp hlen
    simp only [HelloPushCall_RedisCommand, RedisModule_ReplyWithLongLong]
    refine reply_one _ _ _ ?_ rfl
    simp only [RedisModule_FreeCallReply, RedisModuleCtx.log]
    rw [(call_releases _ _ _ _ _).2]
  · rw [(arity_checked h ctx argv).2.1 hlen]
    exact wrongArity_one ctx

theorem HelloPushCall2_one (h : Host) (ctx : RedisModuleCtx) (argv : List RedisModuleString) :
    writesOneReply ctx.replies (HelloPushCall2_RedisCommand h ctx argv).1.replies := by
  by_cases hlen : argv.length = 3
  · obtain ⟨a0, a1, a2, rfl⟩ := List.length_eq_three.mp hlen
    simp only [HelloPushCall2_RedisCommand, RedisModule_ReplyWithCallReply,
      RedisModule_FreeCallReply, RedisModuleCtx.log]
    refine reply_one _ _ _ ?_ rfl
    rw [(call_releases _ _ _ _ _).2]
  · rw [(arity_checked h ctx argv).2.2.1 hlen]
    exact wrongArity_one ctx

theorem HelloListSumLen_one (h : Host) (ctx : RedisModuleCtx) (argv : List RedisModuleString) :
    writesOneReply ctx.replies (HelloListSumLen_RedisCommand h ctx argv).1.replies := by
  by_cases hlen : argv.length = 2
  · obtain ⟨a0, a1, rfl⟩ := List.length_eq_two.mp hlen
    simp only [HelloListSumLen_RedisCommand, RedisModule_ReplyWithLongLong]
    refine reply_one _ _ _ ?_ rfl
    simp only [RedisModule_FreeCallReply, RedisModuleCtx.log]
    rw [(call_releases _ _ _ _ _).2]
  · rw [(arity_checked h ctx argv).2.2.2.1 hlen]
    exact wrongArity_one ctx

theorem HelloListSplice_one (h : Host) (ctx : RedisModuleCtx) (argv : List RedisModuleString) :
    writesOneReply ctx.replies (HelloListSplice_RedisCommand h ctx argv).1.replies := by
  by_cases hlen : argv.length = 4
  · obtain ⟨a0, a1, a2, a3, rfl⟩ := length_four argv hlen
    simp only [HelloListSplice_RedisCommand]
    split
    · exact reply_one _ _ _ rfl rfl
    · split
      · exact reply_one _ _ _ rfl rfl
      · simp only [RedisModule_ReplyWithLongLong]
        refine reply_one _ _ _ ?_ rfl
        simp only [RedisModule_CloseKey, RedisModuleCtx.log]
        rw [(spliceLoop_frame _ _ _ _).1]
        rfl
  · rw [(arity_checked h ctx argv).2.2.2.2.1 hlen]
    exact wrongArity_one ctx

theorem HelloListSpliceAuto_one (h : Host) (ctx : RedisModuleCtx)
    (argv : List RedisModuleString) :
    writesOneReply ctx.replies (HelloListSpliceAuto_RedisCommand h ctx argv).1.replies := by
  by_cases hlen : argv.length = 4
  · obtain ⟨a0, a1, a2, a3, rfl⟩ := length_four argv hlen
    simp only [HelloListSpliceAuto_RedisCommand]
    split
    · exact reply_one _ _ _ rfl rfl
    · split
      · exact reply_one _ _ _ rfl rfl
      · simp only [RedisModule_ReplyWithLongLong]
        refine reply_one _ _ _ ?_ rfl
        rw [spliceAutoLoop_frame]
        rfl
  · rw [(arity_checked h ctx argv).2.2.2.2.2.1 hlen]
    exact wrongArity_one ctx

theorem HelloRepl1_one (h : Host) (ctx : RedisModuleCtx) (argv : List RedisModuleString) :
    writesOneReply ctx.replies (HelloRepl1_RedisCommand h ctx argv).1.replies := by
  simp only [HelloRepl1_RedisCommand, RedisModule_ReplyWithLongLong]
  refine reply_one _ _ _ ?_ rfl
  rw [(call_releases _ _ _ _ _).2, (call_releases _ _ _ _ _).2]
  rfl

theorem HelloToggleCase_one (ctx : RedisModuleCtx) (argv : List RedisModuleString) :
    writesOneReply ctx.replies (HelloToggleCase_RedisCommand ctx argv).1.replies := by
  by_cases hlen : argv.length = 2
  · obtain ⟨a0, a1, rfl⟩ := List.length_eq_two.mp hlen
    simp only [HelloToggleCase_RedisCommand]
    split
    · exact reply_one _ _ _ rfl rfl
    · simp only [RedisModule_ReplicateVerbatim, RedisModule_ReplyWithSimpleString]
      refine reply_one _ _ _ ?_ rfl
      simp only [RedisModule_CloseKey, RedisModuleCtx.log]
      split
      · rw [(toggleCaseLoop_frame _ _ _ _).1]
        rfl
      · rfl
  · rw [(arity_checked sampleHost ctx argv).2.2.2.2.2.2.2 hlen]
    exact wrongArity_one ctx

theorem HelloMoreExpire_one (h : Host) (ctx : RedisModuleCtx) (argv : List RedisModuleString) :
    writesOneReply ctx.replies (HelloMoreExpire_RedisCommand h ctx argv).1.replies := by
  by_cases hlen : argv.length = 3
  · obtain ⟨a0, a1, a2, rfl⟩ := List.length_eq_three.mp hlen
    simp only [HelloMoreExpire_RedisCommand]
    split
    · exact reply_one _ _ _ rfl rfl
    · simp only [RedisModule_ReplyWithSimpleString]
      refine reply_one _ _ _ ?_ rfl
      split <;> rfl
  · have hw : HelloMoreExpire_RedisCommand h ctx argv
        = RedisModule_WrongArity (RedisModule_AutoMemory ctx) := by
      rcases argv with _ | ⟨a0, _ | ⟨a1, _ | ⟨a2, _ | ⟨a3, l⟩⟩⟩⟩ <;>
        simp [HelloMoreExpire_RedisCommand] at hlen ⊢
    rw [hw]
    exact reply_one _ _ _ rfl rfl

theorem HelloRandArray_one (h : Host) (ctx : RedisModuleCtx) (cmd a : RedisModuleString)
    (hctx : ctx.replies = [])
    (hsmall : ∀ count, h.stringToLongLong a = some count → count < 2 ^ 31) :
    exactlyOneReply (HelloRandArray_RedisCommand h ctx [cmd, a]).1.replies := by
  cases hp : h.stringToLongLong a with
  | none =>
    rw [HelloRandArray_invalid h ctx cmd a (Or.inl hp), hctx]
    rfl
  | some count =>
    by_cases hneg : count < 0
    · rw [HelloRandArray_invalid h ctx cmd a (Or.inr ⟨count, hp, hneg⟩), hctx]
      rfl
    · have h0 : 0 ≤ count := not_lt.mp hneg
      have hc : toCInt count = count := by
        have := hsmall count hp
        unfold toCInt
        omega
      rw [HelloRandArray_replies h ctx cmd a count hp h0, hctx, hc]
      show topLevel 0 (Reply.array count :: _) = (1, 0)
      rw [topLevel_array_flat count _ (longLongs_flat _ _), List.length_map, List.length_range]
      simp

theorem HelloRepl2_one (h : Host) (ctx : RedisModuleCtx) (cmd key : RedisModuleString) :
    ∃ r, HelloRepl2_RedisCommand h ctx [cmd, key] = some r ∧
      writesOneReply ctx.replies r.1.replies := by
  by_cases hl : ∃ l, ctx.db key = some (Value.list l)
  · obtain ⟨l, hl⟩ := hl
    obtain ⟨r, hr, _, _, hrep, _⟩ := HelloRepl2_run h ctx cmd key l hl
    exact ⟨r, hr, _, hrep, rfl⟩
  · have hty : RedisModule_KeyType
        (RedisModule_OpenKey (RedisModule_AutoMemory ctx) key
          (REDISMODULE_READ ||| REDISMODULE_WRITE)).1
        (RedisModule_OpenKey (RedisModule_AutoMemory ctx) key
          (REDISMODULE_READ ||| REDISMODULE_WRITE)).2 ≠ REDISMODULE_KEYTYPE_LIST := by
      have hdb : (RedisModule_OpenKey (RedisModule_AutoMemory ctx) key
          (REDISMODULE_READ ||| REDISMODULE_WRITE)).1.db
            (RedisModule_OpenKey (RedisModule_AutoMemory ctx) key
              (REDISMODULE_READ ||| REDISMODULE_WRITE)).2.name = ctx.db key := rfl
      rw [RedisModule_KeyType, hdb]
      cases hv : ctx.db key with
      | none => decide
      | some v =>
        cases v with
        | list l => exact absurd ⟨l, hv⟩ hl
        | _ => simp [keyTypeOf, REDISMODULE_KEYTYPE_LIST, REDISMODULE_KEYTYPE_STRING,
            REDISMODULE_KEYTYPE_HASH, REDISMODULE_KEYTYPE_SET, REDISMODULE_KEYTYPE_ZSET]
    have hrun : HelloRepl2_RedisCommand h ctx [cmd, key]
        = some (RedisModule_ReplyWithError
            (RedisModule_OpenKey (RedisModule_AutoMemory ctx) key
              (REDISMODULE_READ ||| REDISMODULE_WRITE)).1 REDISMODULE_ERRORMSG_WRONGTYPE) := by
      simp only [HelloRepl2_RedisCommand, if_pos hty]
    exact ⟨_, hrun, reply_one _ _ _ rfl rfl⟩

theorem HelloZsumRange_one (h : Host) (fuel : Nat) (ctx : RedisModuleCtx)
    (cmd key a b : RedisModuleString) (lo hi : Double)
    (z : List (Double × RedisModuleString))
    (hz : ctx.db key = some (Value.zset z))
    (hsorted : z.Pairwise (fun x y => x.1.le y.1 = true))
    (hlo : h.stringToDouble a = some lo) (hhi : h.stringToDouble b = some hi)
    (hfuel : z.length < fuel) :
    ∃ r, HelloZsumRange_RedisCommand h fuel ctx [cmd, key, a, b] = some r ∧
      writesOneReply ctx.replies r.1.replies := by
  obtain ⟨r, hr, hrep, _⟩ := HelloZsumRange_run h fuel ctx [cmd, key, a, b] key a b lo hi z
    rfl rfl rfl hz hsorted hlo hhi hfuel
  exact ⟨r, hr, _, hrep, rfl⟩

/-- The handlers whose reply is a single non-array reply write exactly one
reply, for every store state and every argument vector (a vector of another
length gets the wrong-arity error). -/
theorem other_handlers_one_reply (h : Host) (ctx : RedisModuleCtx)
    (argv : List RedisModuleString) :
    writesOneReply ctx.replies (HelloSimple_RedisCommand ctx argv).1.replies ∧
    writesOneReply ctx.replies (HelloPushNative_RedisCommand ctx argv).1.replies ∧
    writesOneReply ctx.replies (HelloPushCall_RedisCommand h ctx argv).1.replies ∧
    writesOneReply ctx.replies (HelloPushCall2_RedisCommand h ctx argv).1.replies ∧
    writesOneReply ctx.replies (HelloListSumLen_RedisCommand h ctx argv).1.replies ∧
    writesOneReply ctx.replies (HelloListSplice_RedisCommand h ctx argv).1.replies ∧
    writesOneReply ctx.replies (HelloListSpliceAuto_RedisCommand h ctx argv).1.replies ∧
    writesOneReply ctx.replies (HelloRepl1_RedisCommand h ctx argv).1.replies ∧
    writesOneReply ctx.replies (HelloToggleCase_RedisCommand ctx argv).1.replies ∧
    writesOneReply ctx.replies (HelloMoreExpire_RedisCommand h ctx argv).1.replies :=
  ⟨HelloSimple_one ctx argv, HelloPushNative_one ctx argv, HelloPushCall_one h ctx argv,
    HelloPushCall2_one h ctx argv, HelloListSumLen_one h ctx argv,
    HelloListSplice_one h ctx argv, HelloListSpliceAuto_one h ctx argv,
    HelloRepl1_one h ctx argv, HelloToggleCase_one ctx argv, HelloMoreExpire_one h ctx argv⟩

theorem helloCommands_names :
    helloCommands.map Prod.fst =
      ["hello.simple", "hello.push.native", "hello.push.call", "hello.push.call2",
       "hello.list.sum.len", "hello.list.splice", "hello.list.splice.auto",
       "hello.rand.array", "hello.repl1", "hello.repl2", "hello.toggle.case",
       "hello.more.expire", "hello.zsumrange"] ∧
    helloCommands.length = 13 :=
  ⟨rfl, rfl⟩

theorem sampleHost_double_of (s : RedisModuleString) (n : Int)
    (hs : parseDecimal s = some n) (hd : (Double.fin (n : ℚ)).isDouble) :
    sampleHost.stringToDouble s = some (Double.fin n) := by
  simp [sampleHost, hs, Double.round_of_isDouble _ hd]

/-- A run in which the accumulator rounds: for the scores `1` and `2 ^ 53` the
handler replies `2 ^ 53`, the double nearest to the exact sum `2 ^ 53 + 1`. -/
theorem HelloZsumRange_rounds (ctx : RedisModuleCtx)
    (hz : ctx.db (bytes "z")
      = some (Value.zset [(Double.fin 1, bytes "a"), (Double.fin (2 ^ 53), bytes "b")])) :
    ∃ r, HelloZsumRange_RedisCommand sampleHost 3 ctx
        [bytes "hello.zsumrange", bytes "z", bytes "0", bytes "9007199254740992"] = some r ∧
      r.1.replies = ctx.replies ++ [Reply.double (Double.fin (2 ^ 53))] := by
  have hbig : (Double.fin (2 ^ 53)).isDouble :=
    ⟨53, 2 ^ 52, by decide, by decide, by decide, by norm_num⟩
  have hlo : sampleHost.stringToDouble (bytes "0") = some (Double.fin 0) := by
    simpa using sampleHost_double (bytes "0") 0 (by decide) (by decide)
  have hp : parseDecimal (bytes "9007199254740992") = some 9007199254740992 := by decide
  have hhi : sampleHost.stringToDouble (bytes "9007199254740992")
      = some (Double.fin (2 ^ 53)) := by
    have hc : ((9007199254740992 : ℤ) : ℚ) = 2 ^ 53 := by norm_num
    have hr := sampleHost_double_of (bytes "9007199254740992") 9007199254740992 hp
      (by rw [hc]; exact hbig)
    rw [hc] at hr
    exact hr
  obtain ⟨r, h1, h2, _⟩ := HelloZsumRange_run sampleHost 3 ctx
    [bytes "hello.zsumrange", bytes "z", bytes "0", bytes "9007199254740992"]
    (bytes "z") (bytes "0") (bytes "9007199254740992") (Double.fin 0) (Double.fin (2 ^ 53))
    [(Double.fin 1, bytes "a"), (Double.fin (2 ^ 53), bytes "b")]
    rfl rfl rfl hz (by simp [Double.le]; norm_num) hlo hhi (by decide)
  refine ⟨r, h1, ?_⟩
  have hin : inRange (Double.fin 0) (Double.fin (2 ^ 53))
      [(Double.fin 1, bytes "a"), (Double.fin (2 ^ 53), bytes "b")]
      = [(Double.fin 1, bytes "a"), (Double.fin (2 ^ 53), bytes "b")] := by
    simp [inRange, Double.le]
    norm_num
  have hs1 : (Double.fin 0).add (Double.fin 1) = Double.fin 1 :=
    Double.zero_add _ (Double.isDouble_int 1 (by decide))
  rw [h2, hin]
  unfold sumScores
  rw [List.foldl_cons, List.foldl_cons, List.foldl_nil, hs1, Double.add_rounds]

end RedisExt
